import Mathlib

/-! PumpFund backend: dedup gate and copy-trade executor

A shallow embedding of `src/backend/server.js`.

* A JavaScript number is a finite double, held as the rational it denotes; the
  arithmetic on `allocatedAmount`, balances and percentages rounds every result
  to the nearest double (`toDouble`), `Math.floor` is `Int.floor`.
* Every awaited collaborator (document store, key decryption, ledger node, swap
  router) is an oracle: its answer for attempt `n` of a run is read from an
  `AttemptEnv`, where `Except.error m` stands for a rejected promise with
  message `m`.
* What a run does to the outside world is recorded as a list of `Effect`s in the
  order in which the source issues the calls.
-/

namespace PumpFund

/-! ## JavaScript numbers

A JavaScript number is an IEEE 754 double. A finite double is modelled by the rational it
denotes, and every arithmetic operation rounds its exact result to the nearest double, a tie
going to the neighbour with the even significand. Results beyond the largest finite double
(`Infinity`) and `NaN` are not modelled. -/

/-- The number of halvings that bring `n` below 2, at most `fuel` of them. -/
def log2Fuel : Nat → Nat → Nat
  | 0, _ => 0
  | fuel + 1, n => if n < 2 then 0 else log2Fuel fuel (n / 2) + 1

/-- The position of the leading bit of a positive natural number: the `k` with
`2 ^ k ≤ n < 2 ^ (k + 1)`. -/
def floorLog2 (n : Nat) : Nat :=
  log2Fuel n n

/-- The power of two with an integer exponent. -/
def twoPow (e : Int) : ℚ :=
  if 0 ≤ e then ((2 ^ e.toNat : Nat) : ℚ) else 1 / ((2 ^ (-e).toNat : Nat) : ℚ)

/-- Rounding to the nearest integer, a tie going to the even neighbour. -/
def roundHalfEven (m : ℚ) : Int :=
  let f := ⌊m⌋
  if m - f < 1 / 2 then f
  else if 1 / 2 < m - f then f + 1
  else if f % 2 = 0 then f else f + 1

/-- The binary exponent of a rational other than zero: the `k` with
`2 ^ k ≤ |x| < 2 ^ (k + 1)`. -/
def binade (x : ℚ) : Int :=
  let k : Int := (floorLog2 x.num.natAbs : Int) - (floorLog2 x.den : Int)
  if |x| < twoPow k then k - 1 else k

/-- The double nearest to a rational: the significand has 53 bits, and below `2 ^ (-1022)`
the spacing stays `2 ^ (-1074)`. A number literal, a parsed number and `Number(bigint)` are
rounded so. -/
def toDouble (x : ℚ) : ℚ :=
  if x = 0 then 0
  else
    let e : Int := max (binade x - 52) (-1074)
    (roundHalfEven (x / twoPow e) : ℚ) * twoPow e

/-- The operator `*` on numbers. -/
def jsMul (a b : ℚ) : ℚ :=
  toDouble (a * b)

/-- The operator `/` on numbers, for a divisor other than zero. -/
def jsDiv (a b : ℚ) : ℚ :=
  toDouble (a / b)

/-- The operator `+` on numbers. -/
def jsAdd (a b : ℚ) : ℚ :=
  toDouble (a + b)

/-! ## Constants (server.js:56-61) -/

/-- The base-asset mint, `SOL_MINT` (server.js:56). -/
def SOL_MINT : String := "So11111111111111111111111111111111111111112"

/-- The constant `COPY_TRADE_DELAY_MS` (server.js:59). -/
def COPY_TRADE_DELAY_MS : Nat := 0

/-- The constant `MAX_RETRIES = parseInt(process.env.MAX_RETRIES) || 3` (server.js:60);
`parsed` is the result of `parseInt`, `none` standing for `NaN`. -/
def MAX_RETRIES (parsed : Option Int) : Int :=
  match parsed with
  | some n => if n = 0 then 3 else n
  | none => 3

/-- The constant `SLIPPAGE_BPS` (server.js:61); `parsed` is the result of `parseFloat`,
`none` standing for `NaN`. -/
def SLIPPAGE_BPS (parsed : Option ℚ) : Int :=
  match parsed with
  | some t =>
    if toDouble t = 0 then ⌊jsMul (toDouble (5 / 100)) 10000⌋ else ⌊jsMul (toDouble t) 10000⌋
  | none => ⌊jsMul (toDouble (5 / 100)) 10000⌋

/-- Process configuration read once at start-up. -/
structure Config where
  maxRetries : Int
  slippageBps : Int
deriving DecidableEq, Repr

/-- The configuration of a process started with neither variable set. -/
def defaultConfig : Config :=
  { maxRetries := MAX_RETRIES none, slippageBps := SLIPPAGE_BPS none }

/-! ## Data model -/

/-- JavaScript truthiness of an optional string field: absent and empty are falsy. -/
def truthy (s : Option String) : Bool :=
  match s with
  | some v => v != ""
  | none => false

/-- The value of `s || dflt` for an optional string field. -/
def orElse (s : Option String) (dflt : String) : String :=
  match s with
  | some v => if v != "" then v else dflt
  | none => dflt

/-- An investment document; `isActive` may be absent, `autoApprove` is its truthiness. The two
amounts are the numbers as written; the document holds the doubles nearest to them. -/
structure Investment where
  userId : String
  fundId : String
  allocatedAmount : ℚ
  purchaseSizePercentage : ℚ
  autoApprove : Bool
  isActive : Option Bool
deriving DecidableEq, Repr

/-- One entry of `tx.tokenTransfers`. -/
structure TokenTransfer where
  mint : Option String
  tokenSymbol : Option String
  fromUserAccount : Option String
  toUserAccount : Option String
deriving DecidableEq, Repr

/-- One entry of `tx.accountData`. -/
structure AccountData where
  account : Option String
deriving DecidableEq, Repr

/-- A provider-shaped transaction event, with the fields `processTransaction` destructures. -/
structure Tx where
  signature : String
  type : Option String
  description : Option String
  source : Option String
  feePayer : Option String
  tokenTransfers : Option (List TokenTransfer)
  accountData : Option (List AccountData)
deriving DecidableEq, Repr

/-- A document of the `transactions` collection (server.js:1146-1163 and 1190-1205).
Fields the failed record does not set are `none`; `timestamp` is the clock reading behind
the ISO string. -/
structure TradeRecord where
  userId : String
  fundId : String
  type : String
  tokenAddress : String
  tokenSymbol : String
  amount : ℚ
  outputAmount : Option ℚ
  price : ℚ
  totalValue : ℚ
  signature : String
  fundTxSignature : String
  timestamp : Int
  isSuccess : Bool
  errorMessage : Option String
  executionTimeMs : Option Int
  retries : Int
deriving DecidableEq, Repr

/-- A document of the `users` collection as far as the executor reads it. -/
structure UserDoc where
  docExists : Bool
  encryptedPrivateKey : Option String
deriving DecidableEq, Repr

/-- The quote returned by the swap router, amounts already parsed by `parseFloat`. -/
structure Quote where
  inAmount : ℚ
  outAmount : ℚ
deriving DecidableEq, Repr

/-- The answers of the collaborators during one pass through the body of the retry loop. -/
structure AttemptEnv where
  userDoc : Except String UserDoc
  decrypted : Except String String
  keypair : Except String String
  balance : Except String Nat
  tokenAccount : Except String Nat
  quote : Except String (Option Quote)
  swap : Except String (Option String)
  signed : Except String Unit
  sent : Except String String
  confirmation : Except String (Option String)
  recordAdd : Except String Unit
  failedRecordAdd : Except String Unit
  confirmedAt : Int
  recordedAt : Int
  failedAt : Int

/-- The environment of one run: the clock at entry and the answers for each attempt. -/
structure RunEnv where
  startTime : Int
  attempts : Nat → AttemptEnv

/-- Calls a run issues to the outside world, in source order. -/
inductive Effect where
  | userRead (userId : String)
  | decrypt
  | balanceRead
  | tokenAccountRead (mint : String)
  | quoteRequest (inputMint outputMint : String) (amount : Int) (slippageBps : Int)
  | swapBuild
  | sign
  | swapSubmit
  | confirmed (signature : String)
  | recordAdd (record : TradeRecord) (stored : Bool)
  | notifySuccess (userId : String)
  | notifyFailure (userId : String) (message : String)
  | wait (ms : ℚ)
deriving DecidableEq, Repr

/-- The `return` statements of the validation part that skip the user. -/
inductive SkipReason where
  | noUserDoc
  | noSecret
  | noTradeableToken
  | insufficientBalance
  | insufficientFees
  | noTokensToSell
  | noTokenAccount
deriving DecidableEq, Repr

/-- How one pass through the `try` block ends. -/
inductive AttemptEnd where
  | succeeded
  | skipped (why : SkipReason)
  | thrown (message : String)
deriving DecidableEq, Repr

/-- How a run of `executeCopyTrade` ends: by the `return` after a success, by a skipping
`return`, by leaving the `while` loop because `retries < MAX_RETRIES` is false, or by an error
escaping the `catch` block. `outOfFuel` is an artefact of the embedding. -/
inductive Outcome where
  | succeeded
  | skipped (why : SkipReason)
  | exhausted
  | threw (message : String)
  | outOfFuel
deriving DecidableEq, Repr

/-- The effects of a run, how it ended and the final value of the `retries` counter. -/
structure RunResult where
  effects : List Effect
  outcome : Outcome
  retries : Nat
deriving DecidableEq, Repr

/-! ## executeCopyTrade (server.js:943-1217) -/

/-- The local `tradeAmount` (server.js:952): `(allocatedAmount * purchaseSizePercentage) / 100`
on doubles. -/
def tradeAmount (inv : Investment) : ℚ :=
  jsDiv (jsMul (toDouble inv.allocatedAmount) (toDouble inv.purchaseSizePercentage)) 100

/-- The loop over `tx.tokenTransfers` (server.js:991-1003): the first transfer with a truthy
mint other than `SOL_MINT` gives the token mint, its symbol and the direction. -/
def findTradedToken (fundWallet : Option String) :
    List TokenTransfer → Option (String × String × Bool)
  | [] => none
  | transfer :: rest =>
    match transfer.mint with
    | some m =>
      if m != "" && m != SOL_MINT then
        some (m, orElse transfer.tokenSymbol "UNKNOWN", decide (transfer.toUserAccount = fundWallet))
      else findTradedToken fundWallet rest
    | none => findTradedToken fundWallet rest

/-- What the validation part hands to the quoting step. -/
structure Validated where
  userPublicKey : String
  tokenMint : String
  tokenSymbol : String
  isBuy : Bool
  inputMint : String
  outputMint : String
  amountInSmallestUnit : Int
deriving DecidableEq, Repr

/-- The local `requiredBalance` of the buy path (server.js:1024): `tradeAmount + 0.003`. -/
def requiredBalance (inv : Investment) : ℚ :=
  jsAdd (tradeAmount inv) (toDouble (3 / 1000))

/-- The local `minBalanceForFees` of the sell path (server.js:1037): the literal `0.001`. -/
def minBalanceForFees : ℚ :=
  toDouble (1 / 1000)

/-- The amount of the buy path (server.js:1020): `Math.floor(tradeAmount * 1e9)`. -/
def buyAmount (inv : Investment) : Int :=
  ⌊jsMul (tradeAmount inv) 1000000000⌋

/-- The amount of the sell path (server.js:1054-1057):
`Math.floor((Number(tokenAccount.amount) * purchaseSizePercentage) / 100)`. -/
def sellAmount (inv : Investment) (amount : Nat) : Int :=
  ⌊jsDiv (jsMul (toDouble (amount : ℚ)) (toDouble inv.purchaseSizePercentage)) 100⌋

/-- The local `balanceSOL` (server.js:982): `balance / 1e9` for a balance in lamports. -/
def solBalance (balance : Nat) : ℚ :=
  jsDiv (toDouble (balance : ℚ)) 1000000000

/-- Lines 1014-1070: sizing and balance checks once the token and direction are known. -/
def sizeTrade (inv : Investment) (e : AttemptEnv) (pubkey : String) (balanceSOL : ℚ)
    (tokenMint tokenSymbol : String) (isBuy : Bool) (pre : List Effect) :
    List Effect × (AttemptEnd ⊕ Validated) :=
  if isBuy then
    if balanceSOL < requiredBalance inv then
      (pre, .inl (.skipped .insufficientBalance))
    else
      (pre, .inr
        { userPublicKey := pubkey, tokenMint := tokenMint, tokenSymbol := tokenSymbol,
          isBuy := true, inputMint := SOL_MINT, outputMint := tokenMint,
          amountInSmallestUnit := buyAmount inv })
  else
    if balanceSOL < minBalanceForFees then
      (pre, .inl (.skipped .insufficientFees))
    else
      match e.tokenAccount with
      | .error _ => (pre ++ [.tokenAccountRead tokenMint], .inl (.skipped .noTokenAccount))
      | .ok userTokenBalance =>
        let amountInSmallestUnit : Int := sellAmount inv userTokenBalance
        if amountInSmallestUnit = 0 then
          (pre ++ [.tokenAccountRead tokenMint], .inl (.skipped .noTokensToSell))
        else
          (pre ++ [.tokenAccountRead tokenMint], .inr
            { userPublicKey := pubkey, tokenMint := tokenMint, tokenSymbol := tokenSymbol,
              isBuy := false, inputMint := tokenMint, outputMint := SOL_MINT,
              amountInSmallestUnit := amountInSmallestUnit })

/-- Lines 949-1070: user lookup, key decryption, balance read, token and direction, sizing. -/
def validate (inv : Investment) (tx : Tx) (fundWallet : Option String) (e : AttemptEnv) :
    List Effect × (AttemptEnd ⊕ Validated) :=
  match e.userDoc with
  | .error m => ([.userRead inv.userId], .inl (.thrown m))
  | .ok userDoc =>
    if !userDoc.docExists then
      ([.userRead inv.userId], .inl (.skipped .noUserDoc))
    else if !truthy userDoc.encryptedPrivateKey then
      ([.userRead inv.userId], .inl (.skipped .noSecret))
    else
      match e.decrypted with
      | .error m =>
        ([.userRead inv.userId, .decrypt], .inl (.thrown ("Failed to decrypt data: " ++ m)))
      | .ok _ =>
        match e.keypair with
        | .error m => ([.userRead inv.userId, .decrypt], .inl (.thrown m))
        | .ok pubkey =>
          match e.balance with
          | .error m => ([.userRead inv.userId, .decrypt, .balanceRead], .inl (.thrown m))
          | .ok balance =>
            let balanceSOL : ℚ := solBalance balance
            match tx.tokenTransfers with
            | none =>
              ([.userRead inv.userId, .decrypt, .balanceRead],
                .inl (.thrown "No token transfer data in transaction"))
            | some [] =>
              ([.userRead inv.userId, .decrypt, .balanceRead],
                .inl (.thrown "No token transfer data in transaction"))
            | some (t :: ts) =>
              match findTradedToken fundWallet (t :: ts) with
              | none =>
                ([.userRead inv.userId, .decrypt, .balanceRead],
                  .inl (.skipped .noTradeableToken))
              | some (tokenMint, tokenSymbol, isBuy) =>
                sizeTrade inv e pubkey balanceSOL tokenMint tokenSymbol isBuy
                  [.userRead inv.userId, .decrypt, .balanceRead]

/-- The successful record built at lines 1141-1163. A zero output amount, for which the price
is `Infinity` or `NaN`, is not modelled. -/
def successRecord (inv : Investment) (fundTxSignature : String) (startTime : Int)
    (retries : Nat) (e : AttemptEnv) (v : Validated) (quote : Quote) (signature : String) :
    TradeRecord :=
  let actualInputAmount : ℚ := jsDiv (toDouble quote.inAmount) 1000000000
  let actualOutputAmount : ℚ := jsDiv (toDouble quote.outAmount) 1000000000
  { userId := inv.userId
    fundId := inv.fundId
    type := if v.isBuy then "buy" else "sell"
    tokenAddress := v.tokenMint
    tokenSymbol := v.tokenSymbol
    amount := actualInputAmount
    outputAmount := some actualOutputAmount
    price := jsDiv actualInputAmount actualOutputAmount
    totalValue := actualInputAmount
    signature := signature
    fundTxSignature := fundTxSignature
    timestamp := e.recordedAt
    isSuccess := true
    errorMessage := none
    executionTimeMs := some (e.confirmedAt - startTime)
    retries := retries }

/-- Lines 1077-1172: quote, build, sign, submit, confirm, record, notify. -/
def trade (cfg : Config) (inv : Investment) (fundTxSignature : String) (startTime : Int)
    (retries : Nat) (e : AttemptEnv) (v : Validated) : List Effect × AttemptEnd :=
  let q : List Effect :=
    [.quoteRequest v.inputMint v.outputMint v.amountInSmallestUnit cfg.slippageBps]
  match e.quote with
  | .error m => (q, .thrown m)
  | .ok none => (q, .thrown "No quote received from Jupiter")
  | .ok (some quote) =>
    match e.swap with
    | .error m => (q ++ [.swapBuild], .thrown m)
    | .ok swapTransaction =>
      if !truthy swapTransaction then
        (q ++ [.swapBuild], .thrown "No swap transaction received from Jupiter")
      else
        match e.signed with
        | .error m => (q ++ [.swapBuild, .sign], .thrown m)
        | .ok _ =>
          match e.sent with
          | .error m => (q ++ [.swapBuild, .sign, .swapSubmit], .thrown m)
          | .ok signature =>
            match e.confirmation with
            | .error m => (q ++ [.swapBuild, .sign, .swapSubmit], .thrown m)
            | .ok (some err) =>
              (q ++ [.swapBuild, .sign, .swapSubmit], .thrown ("Transaction failed: " ++ err))
            | .ok none =>
              let record := successRecord inv fundTxSignature startTime retries e v quote signature
              match e.recordAdd with
              | .error m =>
                (q ++ [.swapBuild, .sign, .swapSubmit, .confirmed signature,
                    .recordAdd record false], .thrown m)
              | .ok _ =>
                (q ++ [.swapBuild, .sign, .swapSubmit, .confirmed signature,
                    .recordAdd record true, .notifySuccess inv.userId], .succeeded)

/-- The body of the `try` block (server.js:948-1172): validation followed by the trade. -/
def attempt (cfg : Config) (inv : Investment) (tx : Tx) (fundWallet : Option String)
    (fundTxSignature : String) (startTime : Int) (retries : Nat) (e : AttemptEnv) :
    List Effect × AttemptEnd :=
  match validate inv tx fundWallet e with
  | (pre, .inl stop) => (pre, stop)
  | (pre, .inr v) =>
    let r := trade cfg inv fundTxSignature startTime retries e v
    (pre ++ r.1, r.2)

/-- The failed record built at lines 1190-1205; `retries` is the counter after `retries++`. -/
def failedRecord (inv : Investment) (tx : Tx) (fundTxSignature : String) (retries : Nat)
    (e : AttemptEnv) (message : String) : TradeRecord :=
  { userId := inv.userId
    fundId := inv.fundId
    type := "buy"
    tokenAddress := orElse ((tx.tokenTransfers.bind List.head?).bind TokenTransfer.mint) ""
    tokenSymbol :=
      orElse ((tx.tokenTransfers.bind List.head?).bind TokenTransfer.tokenSymbol) "UNKNOWN"
    amount := 0
    outputAmount := none
    price := 0
    totalValue := 0
    signature := "failed_" ++ toString e.failedAt
    fundTxSignature := fundTxSignature
    timestamp := e.failedAt
    isSuccess := false
    errorMessage := some message
    executionTimeMs := none
    retries := (retries : Int) - 1 }

/-- The wait before a retry (server.js:1211); `retries` is the counter after `retries++`. -/
def waitTime (retries : Nat) : ℚ :=
  min (200 * (2 : ℚ) ^ ((retries : Int) - 1)) 1000

/-- The `while (retries < MAX_RETRIES)` loop with its `catch` block (server.js:947-1216).
`fuel` bounds the number of passes; `executeCopyTrade` supplies enough of it. -/
def retryLoop (cfg : Config) (inv : Investment) (tx : Tx) (fundWallet : Option String)
    (fundTxSignature : String) (env : RunEnv) : Nat → Nat → RunResult
  | 0, retries => { effects := [], outcome := .outOfFuel, retries := retries }
  | fuel + 1, retries =>
    if (retries : Int) < cfg.maxRetries then
      let e := env.attempts retries
      match attempt cfg inv tx fundWallet fundTxSignature env.startTime retries e with
      | (effs, .succeeded) => { effects := effs, outcome := .succeeded, retries := retries }
      | (effs, .skipped why) => { effects := effs, outcome := .skipped why, retries := retries }
      | (effs, .thrown message) =>
        if ((retries + 1 : Nat) : Int) ≥ cfg.maxRetries then
          let record := failedRecord inv tx fundTxSignature (retries + 1) e message
          match e.failedRecordAdd with
          | .error m =>
            { effects := effs ++ [.recordAdd record false], outcome := .threw m,
              retries := retries + 1 }
          | .ok _ =>
            let rest := retryLoop cfg inv tx fundWallet fundTxSignature env fuel (retries + 1)
            { rest with
              effects := effs ++ [.recordAdd record true, .notifyFailure inv.userId message]
                ++ rest.effects }
        else
          let rest := retryLoop cfg inv tx fundWallet fundTxSignature env fuel (retries + 1)
          { rest with effects := effs ++ [.wait (waitTime (retries + 1))] ++ rest.effects }
    else
      { effects := [], outcome := .exhausted, retries := retries }

/-- The function `executeCopyTrade(investment, tx, fundWallet, fundTxSignature)`. -/
def executeCopyTrade (cfg : Config) (inv : Investment) (tx : Tx) (fundWallet : Option String)
    (fundTxSignature : String) (env : RunEnv) : RunResult :=
  retryLoop cfg inv tx fundWallet fundTxSignature env (cfg.maxRetries.toNat + 1) 0

/-- The records a run stored in the `transactions` collection, oldest first. -/
def appended (effs : List Effect) : List TradeRecord :=
  effs.filterMap fun
    | .recordAdd record true => some record
    | _ => none

/-- The quote requests of a run as (inputMint, outputMint, amount). -/
def quoteRequests (effs : List Effect) : List (String × String × Int) :=
  effs.filterMap fun
    | .quoteRequest i o a _ => some (i, o, a)
    | _ => none

/-- The waits of a run in milliseconds. -/
def waits (effs : List Effect) : List ℚ :=
  effs.filterMap fun
    | .wait ms => some ms
    | _ => none

/-- The number of swap transactions a run submitted to the ledger. -/
def swapSubmits (effs : List Effect) : Nat :=
  effs.count .swapSubmit

/-- The calls of `db.collection('transactions').add` a run made, with whether the store
accepted the record. -/
def recordAdds (effs : List Effect) : List (TradeRecord × Bool) :=
  effs.filterMap fun
    | .recordAdd record stored => some (record, stored)
    | _ => none

/-- The reads of the `users` collection a run made. -/
def userReads (effs : List Effect) : List String :=
  effs.filterMap fun
    | .userRead userId => some userId
    | _ => none

/-- The number of `connection.getBalance` calls a run made. -/
def balanceReads (effs : List Effect) : Nat :=
  (effs.filterMap fun
    | .balanceRead => some ()
    | _ => none).length

/-- The message of the error the quoting step raises, if it raises one (server.js:1079-1091):
the rejection of the request, or the error thrown for an empty answer. -/
def quoteError (e : AttemptEnv) : Option String :=
  match e.quote with
  | .error m => some m
  | .ok none => some "No quote received from Jupiter"
  | .ok (some _) => none

/-- The number of passes through the loop body a run started: the failed ones counted by
`retries`, plus the one that returned. -/
def attemptsStarted (r : RunResult) : Nat :=
  match r.outcome with
  | .succeeded => r.retries + 1
  | .skipped _ => r.retries + 1
  | _ => r.retries

/-! ## The dedup cache and the per-investment task of processTransaction
(server.js:75-91 and 906-933) -/

/-- The map `processedTransactions`: cache key to the time it was first marked, in
insertion order. -/
abbrev ProcessedTransactions := List (String × Int)

/-- The template literal building `txCacheKey` (server.js:922). -/
def txCacheKey (userId fundId signature : String) : String :=
  userId ++ "-" ++ fundId ++ "-" ++ signature

/-- The method `Map.prototype.has`. -/
def cacheHas (cache : ProcessedTransactions) (key : String) : Bool :=
  cache.any fun entry => entry.1 == key

/-- The method `Map.prototype.set`: an existing key keeps its position and gets the new value,
a new key is appended. -/
def cacheSet (cache : ProcessedTransactions) (key : String) (value : Int) :
    ProcessedTransactions :=
  if cacheHas cache key then
    cache.map fun entry => if entry.1 == key then (key, value) else entry
  else cache ++ [(key, value)]

/-- The body of the five-minute interval callback (server.js:78-91) run at clock reading `now`:
every entry with `timestamp < now - 300000` is deleted. -/
def sweepCache (now : Int) (cache : ProcessedTransactions) : ProcessedTransactions :=
  cache.filter fun entry => !decide (entry.2 < now - 300000)

/-- What the task of one investment did (server.js:906-933). -/
inductive TaskAction where
  | skippedInactive
  | approvalNotified
  | cacheHit
  | executed (run : RunResult)
deriving DecidableEq, Repr

/-- The task mapped over `allInvestments` (server.js:906-933) for one investment, at clock
reading `now`. The check of the cache and the marking happen with no `await` in between, so
the task is one atomic step on the cache followed by the run of `executeCopyTrade`. -/
def copyTradeTask (cfg : Config) (cache : ProcessedTransactions) (now : Int)
    (inv : Investment) (tx : Tx) (fundWallet : Option String) (env : RunEnv) :
    ProcessedTransactions × TaskAction :=
  if inv.isActive = some false then (cache, .skippedInactive)
  else if !inv.autoApprove then (cache, .approvalNotified)
  else
    let key := txCacheKey inv.userId inv.fundId tx.signature
    if cacheHas cache key then (cache, .cacheHit)
    else
      (cacheSet cache key now,
        .executed (executeCopyTrade cfg inv tx fundWallet tx.signature env))

/-- One atomic step on the shared cache: the task of one investment for one delivered event
(pushed or polled), or one firing of the sweep. -/
inductive GateOp where
  | dispatch (now : Int) (inv : Investment) (tx : Tx) (fundWallet : Option String)
      (env : RunEnv)
  | sweep (now : Int)

/-- The clock reading of a step. -/
def GateOp.time : GateOp → Int
  | .dispatch now _ _ _ _ => now
  | .sweep now => now

/-- Whether a step is a dispatch of the event with this signature to the investment of this
user in this fund. -/
def GateOp.isDispatchFor (userId fundId signature : String) : GateOp → Bool
  | .dispatch _ inv tx _ _ =>
    inv.userId == userId && inv.fundId == fundId && tx.signature == signature
  | .sweep _ => false

/-- The runs of `executeCopyTrade` started for the triple while the steps are executed in list
order from the given cache. -/
def runsFor (cfg : Config) (userId fundId signature : String) :
    ProcessedTransactions → List GateOp → List RunResult
  | _, [] => []
  | cache, .sweep now :: ops => runsFor cfg userId fundId signature (sweepCache now cache) ops
  | cache, .dispatch now inv tx fundWallet env :: ops =>
    match copyTradeTask cfg cache now inv tx fundWallet env with
    | (next, .executed run) =>
      if inv.userId == userId && inv.fundId == fundId && tx.signature == signature then
        run :: runsFor cfg userId fundId signature next ops
      else runsFor cfg userId fundId signature next ops
    | (next, _) => runsFor cfg userId fundId signature next ops

/-- Whether a transfer carries a mint other than the base asset: its mint field is present,
not empty and different from `SOL_MINT`. -/
def TokenTransfer.isNonBase (t : TokenTransfer) : Bool :=
  match t.mint with
  | some m => m != "" && m != SOL_MINT
  | none => false

/-- The clock reading of the first dispatch to the triple among the steps, if there is one. -/
def firstDispatchTime (userId fundId signature : String) (ops : List GateOp) : Option Int :=
  (ops.find? (GateOp.isDispatchFor userId fundId signature)).map GateOp.time

/-- The successful records stored by a list of runs. -/
def successfulRecords : List RunResult → List TradeRecord
  | [] => []
  | run :: runs =>
    (appended run.effects).filter (fun record => record.isSuccess) ++ successfulRecords runs

/-! ## processTransaction: wallet extraction, fund matching, fan-out (server.js:835-941) -/

/-- The length of a JavaScript string: the number of its UTF-16 code units. -/
def jsLength (s : String) : Nat :=
  (s.data.map fun c => if c.val < 65536 then 1 else 2).sum

/-- The character class `[1-9A-HJ-NP-Za-km-z]` of the two address patterns. -/
def isBase58 (c : Char) : Bool :=
  (decide ('1' ≤ c) && decide (c ≤ '9')) || (decide ('A' ≤ c) && decide (c ≤ 'H')) ||
  (decide ('J' ≤ c) && decide (c ≤ 'N')) || (decide ('P' ≤ c) && decide (c ≤ 'Z')) ||
  (decide ('a' ≤ c) && decide (c ≤ 'k')) || (decide ('m' ≤ c) && decide (c ≤ 'z'))

/-- The test `source.match(/^[1-9A-HJ-NP-Za-km-z]{32,44}$/)` (server.js:853): the whole string
is 32 to 44 characters of the class. -/
def matchesWalletAddress (s : String) : Bool :=
  decide (32 ≤ s.length) && decide (s.length ≤ 44) && s.data.all isBase58

/-- The class `\s` of JavaScript regular expressions. -/
def isJsWhitespace (c : Char) : Bool :=
  let n := c.toNat
  (decide (9 ≤ n) && decide (n ≤ 13)) || n == 32 || n == 160 || n == 5760 ||
  (decide (8192 ≤ n) && decide (n ≤ 8202)) || n == 8232 || n == 8233 || n == 8239 ||
  n == 8287 || n == 12288 || n == 65279

/-- The first group of `description.match(/^([1-9A-HJ-NP-Za-km-z]{32,44})\s/)`
(server.js:860), if the pattern matches: the leading run of class characters, when it is 32 to
44 long and followed by a whitespace character. -/
def leadingAddress (description : String) : Option String :=
  let run := description.data.takeWhile isBase58
  match description.data.dropWhile isBase58 with
  | c :: _ =>
    if decide (32 ≤ run.length) && decide (run.length ≤ 44) && isJsWhitespace c then
      some (String.mk run)
    else none
  | [] => none

/-- The wallet extraction of `processTransaction` (server.js:849-869): the value of
`fundWallet` after the block, `none` standing for `undefined`. -/
def extractFundWallet (tx : Tx) : Option String :=
  match tx.source with
  | none => none
  | some source =>
    if source != "" && (decide (jsLength source < 30) || !matchesWalletAddress source) then
      if truthy tx.feePayer then tx.feePayer
      else
        match tx.description with
        | some description =>
          if description != "" then
            match leadingAddress description with
            | some address => some address
            | none => some source
          else
            match tx.accountData with
            | some (first :: _) => first.account
            | _ => some source
        | none =>
          match tx.accountData with
          | some (first :: _) => first.account
          | _ => some source
    else some source

/-- A document of the `funds` collection; `walletAddresses` may be missing. -/
structure FundDoc where
  id : String
  name : String
  walletAddresses : Option (List String)
deriving DecidableEq, Repr

/-- A document of the `investments` collection with its id. -/
structure InvestmentDoc where
  id : String
  data : Investment
deriving DecidableEq, Repr

/-- The content of the document store as far as the core reads it. -/
structure Store where
  funds : List FundDoc
  investments : List InvestmentDoc
deriving DecidableEq, Repr

/-- The process environment and the state of the outside services: the two environment
variables the core reads, an error message when every call to the store or to the registry
rejects, and the ids the store and the registry hand out for a created document. -/
structure Services where
  heliusApiKey : Option String
  backendUrl : String
  storeError : Option String
  registryError : Option String
  newInvestmentId : String
  newWebhookId : String
deriving DecidableEq, Repr

/-- The test `fund.walletAddresses.includes(fundWallet)` on a wallet list. -/
def includesWallet (wallets : List String) (fundWallet : Option String) : Bool :=
  match fundWallet with
  | some wallet => wallets.contains wallet
  | none => false

/-- The loop building `matchingFunds` (server.js:874-882); a fund document without a wallet
list makes `includes` throw. -/
def matchFunds (fundWallet : Option String) : List FundDoc → Except String (List FundDoc)
  | [] => .ok []
  | fund :: rest =>
    match fund.walletAddresses with
    | none => .error "Cannot read properties of undefined (reading 'includes')"
    | some wallets =>
      match matchFunds fundWallet rest with
      | .error m => .error m
      | .ok more => if includesWallet wallets fundWallet then .ok (fund :: more) else .ok more

/-- The loop building `allInvestments` (server.js:892-901): for every matching fund, in order,
the documents of the query `where('fundId', '==', fund.id)` with the fund's name. -/
def collectInvestments (investments : List InvestmentDoc) :
    List FundDoc → List (InvestmentDoc × String)
  | [] => []
  | fund :: rest =>
    ((investments.filter fun doc => doc.data.fundId == fund.id).map fun doc => (doc, fund.name))
      ++ collectInvestments investments rest

/-- The clock and the collaborators seen by the task of one investment. -/
structure TaskEnv where
  now : Int
  run : RunEnv

/-- The tasks of `allInvestments.map` (server.js:906-933): each task checks and marks the cache
before its first `await`, so the tasks take their steps on the cache in list order. -/
def fanOut (cfg : Config) (tx : Tx) (fundWallet : Option String) (envs : Nat → TaskEnv) :
    ProcessedTransactions → Nat → List (InvestmentDoc × String) →
      ProcessedTransactions × List (Investment × TaskAction)
  | cache, _, [] => (cache, [])
  | cache, i, (doc, _) :: rest =>
    let step := copyTradeTask cfg cache (envs i).now doc.data tx fundWallet (envs i).run
    let more := fanOut cfg tx fundWallet envs step.1 (i + 1) rest
    (more.1, (doc.data, step.2) :: more.2)

/-- How a call of `processTransaction` ends. -/
inductive ProcessOutcome where
  | skippedNonSwap
  | failed (message : String)
  | noFund
  | dispatched
deriving DecidableEq, Repr

/-- What a call of `processTransaction` did: the cache afterwards, how it ended, the wallet it
resolved (when it got that far) and what the task of each collected investment did. -/
structure ProcessResult where
  cache : ProcessedTransactions
  outcome : ProcessOutcome
  fundWallet : Option (Option String)
  tasks : List (Investment × TaskAction)
deriving DecidableEq, Repr

/-- The function `processTransaction(tx)` (server.js:835-941). An error thrown inside the `try`
block is caught and logged. -/
def processTransaction (cfg : Config) (sv : Services) (store : Store)
    (cache : ProcessedTransactions) (tx : Tx) (envs : Nat → TaskEnv) : ProcessResult :=
  if tx.type != some "SWAP" && tx.tokenTransfers.isNone then
    { cache := cache, outcome := .skippedNonSwap, fundWallet := none, tasks := [] }
  else
    let fundWallet := extractFundWallet tx
    match sv.storeError with
    | some m =>
      { cache := cache, outcome := .failed m, fundWallet := some fundWallet, tasks := [] }
    | none =>
      match matchFunds fundWallet store.funds with
      | .error m =>
        { cache := cache, outcome := .failed m, fundWallet := some fundWallet, tasks := [] }
      | .ok [] =>
        { cache := cache, outcome := .noFund, fundWallet := some fundWallet, tasks := [] }
      | .ok (fund :: funds) =>
        let done := fanOut cfg tx fundWallet envs cache 0
          (collectInvestments store.investments (fund :: funds))
        { cache := done.1, outcome := .dispatched, fundWallet := some fundWallet,
          tasks := done.2 }

/-! ## The transaction monitor (transaction-monitor.js) -/

/-- The method `Map.prototype.has` on a map with string keys, kept in insertion order. -/
def jsMapHas {β : Type} (m : List (String × β)) (key : String) : Bool :=
  m.any fun entry => entry.1 == key

/-- The method `Map.prototype.set`: an existing key keeps its position, a new key is
appended. -/
def jsMapSet {β : Type} (m : List (String × β)) (key : String) (value : β) :
    List (String × β) :=
  if jsMapHas m key then m.map fun entry => if entry.1 == key then (key, value) else entry
  else m ++ [(key, value)]

/-- The method `Map.prototype.delete`. -/
def jsMapDelete {β : Type} (m : List (String × β)) (key : String) : List (String × β) :=
  m.filter fun entry => entry.1 != key

/-- The state of a `TransactionMonitor`: `monitoredWallets` maps a wallet to a fund id,
`lastCheckedSignatures` a wallet to its high-water mark. -/
structure Monitor where
  monitoredWallets : List (String × String)
  lastCheckedSignatures : List (String × String)
  processedSignatures : List String
  lastPollTime : List (String × Int)
  isRunning : Bool
deriving DecidableEq, Repr

/-- The wallets the monitor polls: `Array.from(this.monitoredWallets.keys())`. -/
def Monitor.pollSet (monitor : Monitor) : List String :=
  monitor.monitoredWallets.map Prod.fst

/-- Whether the query `where('fundId', '==', fundId).where('isActive', '==', true).limit(1)`
returns a document; a document without the field `isActive` does not match. -/
def hasActiveInvestment (investments : List InvestmentDoc) (fundId : String) : Bool :=
  investments.any fun doc => doc.data.fundId == fundId && doc.data.isActive == some true

/-- The method `addWallet(walletAddress, fundId)` (transaction-monitor.js:302-305). -/
def Monitor.addWallet (monitor : Monitor) (walletAddress fundId : String) : Monitor :=
  { monitor with monitoredWallets := jsMapSet monitor.monitoredWallets walletAddress fundId }

/-- The method `removeWallet(walletAddress)` (transaction-monitor.js:307-311). -/
def Monitor.removeWallet (monitor : Monitor) (walletAddress : String) : Monitor :=
  { monitor with
    monitoredWallets := jsMapDelete monitor.monitoredWallets walletAddress
    lastCheckedSignatures := jsMapDelete monitor.lastCheckedSignatures walletAddress }

/-- The method `loadFundWallets()` (transaction-monitor.js:58-98): for every fund with a
non-empty wallet list and an active investment, every wallet is set in `monitoredWallets`.
A rejected store call is caught and leaves the monitor as it is. -/
def Monitor.loadFundWallets (sv : Services) (store : Store) (monitor : Monitor) : Monitor :=
  match sv.storeError with
  | some _ => monitor
  | none =>
    store.funds.foldl
      (fun m fund =>
        match fund.walletAddresses with
        | none => m
        | some [] => m
        | some (wallet :: wallets) =>
          if hasActiveInvestment store.investments fund.id then
            (wallet :: wallets).foldl (fun m2 w => m2.addWallet w fund.id) m
          else m)
      monitor

/-- The union, over the funds that have an active investment, of their wallet lists, in the
order the funds and wallets are visited. -/
def activeWalletsOf (investments : List InvestmentDoc) : List FundDoc → List String
  | [] => []
  | fund :: funds =>
    (if hasActiveInvestment investments fund.id then fund.walletAddresses.getD [] else [])
      ++ activeWalletsOf investments funds

/-- The desired wallet set of a store: the wallets of its funds with an active investment. -/
def desiredWallets (store : Store) : List String :=
  activeWalletsOf store.investments store.funds

/-! ## The push-subscription registry and the subscription routes (server.js:103-249, 692-833) -/

/-- A webhook of the registry as far as the core reads it. -/
structure Webhook where
  webhookID : String
  webhookURL : String
  accountAddresses : Option (List String)
deriving DecidableEq, Repr

/-- A value of the map `activeSubscriptions`. -/
structure Subscription where
  userId : String
  fundId : String
  allocatedAmount : ℚ
  wallets : Option (List String)
deriving DecidableEq, Repr

/-- The state the routes work on: the store, the registry, the monitor (absent until the
server has started it) and the map `activeSubscriptions`. -/
structure Server where
  store : Store
  registry : List Webhook
  monitor : Option Monitor
  activeSubscriptions : List (String × Subscription)
deriving DecidableEq, Repr

/-- The callback URL the core registers: the template literal of server.js:726 and 795. -/
def webhookUrl (sv : Services) : String :=
  sv.backendUrl ++ "/api/webhooks/helius"

/-- The call `listResponse.data.find(wh => wh.webhookURL === ...)`. -/
def findWebhook (sv : Services) (registry : List Webhook) : Option Webhook :=
  registry.find? fun wh => wh.webhookURL == webhookUrl sv

/-- The registry after a PUT that replaces the address list of the webhook with this id. -/
def putAddresses (registry : List Webhook) (webhookID : String) (addresses : List String) :
    List Webhook :=
  registry.map fun wh =>
    if wh.webhookID == webhookID then { wh with accountAddresses := some addresses } else wh

/-- The registry after a DELETE of the webhook with this id. -/
def deleteWebhook (registry : List Webhook) (webhookID : String) : List Webhook :=
  registry.filter fun wh => wh.webhookID != webhookID

/-- The function `subscribeToWallets(wallets, fundId)` (server.js:768-833). The query for an
active investment is outside the `try` block: when the store rejects, the error reaches the
caller. The registry calls are inside it. -/
def subscribeToWallets (sv : Services) (store : Store) (registry : List Webhook)
    (wallets : Option (List String)) (fundId : String) : Except String (List Webhook) :=
  if !truthy sv.heliusApiKey then .ok registry
  else
    match sv.storeError with
    | some m => .error m
    | none =>
      if !hasActiveInvestment store.investments fundId then .ok registry
      else
        match wallets, sv.registryError with
        | none, _ => .ok registry
        | some _, some _ => .ok registry
        | some ws, none =>
          match findWebhook sv registry with
          | some existing =>
            .ok (putAddresses registry existing.webhookID
              ((existing.accountAddresses.getD [] ++ ws).eraseDups))
          | none =>
            .ok (registry ++ [{ webhookID := sv.newWebhookId, webhookURL := webhookUrl sv,
                                 accountAddresses := some ws }])

/-- The body of a POST to `/api/subscribe`. -/
structure SubscribeRequest where
  userId : Option String
  fundId : Option String
  allocatedAmount : Option ℚ
  purchaseSizePercentage : Option ℚ
  autoApprove : Option Bool
deriving DecidableEq, Repr

/-- The value of `purchaseSizePercentage || 100`. -/
def percentageOrDefault (p : Option ℚ) : ℚ :=
  match p with
  | some v => if v = 0 then 100 else v
  | none => 100

/-- The route POST `/api/subscribe` (server.js:103-174): the state afterwards and the status
of the response. -/
def subscribe (sv : Services) (st : Server) (req : SubscribeRequest) : Server × Nat :=
  match req.userId, req.fundId, req.allocatedAmount with
  | some userId, some fundId, some allocatedAmount =>
    if userId == "" || fundId == "" || allocatedAmount == 0 then (st, 400)
    else
      match sv.storeError with
      | some _ => (st, 500)
      | none =>
        match st.store.funds.find? fun fund => fund.id == fundId with
        | none => (st, 404)
        | some fund =>
          let existing := st.store.investments.filter fun doc =>
            doc.data.userId == userId && doc.data.fundId == fundId
          let investments :=
            match existing with
            | first :: _ =>
              st.store.investments.map fun doc =>
                if doc.id == first.id then
                  { doc with data :=
                    { doc.data with
                      allocatedAmount := allocatedAmount
                      purchaseSizePercentage := percentageOrDefault req.purchaseSizePercentage
                      autoApprove := req.autoApprove.getD true } }
                else doc
            | [] =>
              st.store.investments ++
                [{ id := sv.newInvestmentId
                   data :=
                    { userId := userId, fundId := fundId, allocatedAmount := allocatedAmount
                      purchaseSizePercentage := percentageOrDefault req.purchaseSizePercentage
                      autoApprove := req.autoApprove.getD true, isActive := none } }]
          let store : Store := { st.store with investments := investments }
          let subs := jsMapSet st.activeSubscriptions (userId ++ "-" ++ fundId)
            { userId := userId, fundId := fundId, allocatedAmount := allocatedAmount,
              wallets := fund.walletAddresses }
          match subscribeToWallets sv store st.registry fund.walletAddresses fundId with
          | .error _ => ({ st with store := store, activeSubscriptions := subs }, 500)
          | .ok registry =>
            match st.monitor, fund.walletAddresses with
            | none, _ =>
              ({ store := store, registry := registry, monitor := none,
                 activeSubscriptions := subs }, 200)
            | some _, none =>
              ({ st with store := store, registry := registry, activeSubscriptions := subs },
                500)
            | some monitor, some wallets =>
              ({ store := store, registry := registry
                 monitor := some (wallets.foldl (fun m w => m.addWallet w fundId) monitor)
                 activeSubscriptions := subs }, 200)
  | _, _, _ => (st, 400)

/-- The route POST `/api/unsubscribe` (server.js:177-209). -/
def unsubscribe (sv : Services) (st : Server) (userId fundId : Option String) : Server × Nat :=
  match userId, fundId with
  | some u, some f =>
    if u == "" || f == "" then (st, 400)
    else
      match sv.storeError with
      | some _ => (st, 500)
      | none =>
        ({ st with
           store := { st.store with
             investments := st.store.investments.filter fun doc =>
               !(doc.data.userId == u && doc.data.fundId == f) }
           activeSubscriptions := jsMapDelete st.activeSubscriptions (u ++ "-" ++ f) }, 200)
  | _, _ => (st, 400)

/-- The body of a POST to `/api/update-investment`. -/
structure UpdateRequest where
  userId : Option String
  fundId : Option String
  allocatedAmount : Option ℚ
  purchaseSizePercentage : Option ℚ
  autoApprove : Option Bool
  isActive : Option Bool
deriving DecidableEq, Repr

/-- The route POST `/api/update-investment` (server.js:212-249). -/
def updateInvestment (sv : Services) (st : Server) (req : UpdateRequest) : Server × Nat :=
  match req.userId, req.fundId with
  | some u, some f =>
    if u == "" || f == "" then (st, 400)
    else
      match sv.storeError with
      | some _ => (st, 500)
      | none =>
        match st.store.investments.filter fun doc =>
            doc.data.userId == u && doc.data.fundId == f with
        | [] => (st, 404)
        | first :: _ =>
          ({ st with
             store := { st.store with
               investments := st.store.investments.map fun doc =>
                 if doc.id == first.id then
                   { doc with data :=
                     { doc.data with
                       allocatedAmount := req.allocatedAmount.getD doc.data.allocatedAmount
                       purchaseSizePercentage :=
                         req.purchaseSizePercentage.getD doc.data.purchaseSizePercentage
                       autoApprove := req.autoApprove.getD doc.data.autoApprove
                       isActive :=
                         match req.isActive with
                         | some b => some b
                         | none => doc.data.isActive } }
                 else doc } }, 200)
  | _, _ => (st, 400)

/-- A request `cleanupWebhooks` sends to the registry. -/
inductive RegistryCall where
  | delete (webhookID : String)
  | update (webhookID : String) (accountAddresses : List String)
deriving DecidableEq, Repr

/-- The function `cleanupWebhooks()` (server.js:693-766): the registry afterwards and the
request it sent, if any. Rejected calls are caught and leave the registry as it is. -/
def cleanupWebhooks (sv : Services) (store : Store) (registry : List Webhook) :
    List Webhook × Option RegistryCall :=
  if !truthy sv.heliusApiKey then (registry, none)
  else
    match sv.storeError, sv.registryError with
    | some _, _ => (registry, none)
    | none, some _ => (registry, none)
    | none, none =>
      let activeWallets := desiredWallets store
      match findWebhook sv registry with
      | some existingWebhook =>
        let currentAddresses := existingWebhook.accountAddresses.getD []
        let filteredAddresses := currentAddresses.filter fun addr => activeWallets.contains addr
        if filteredAddresses.length = 0 then
          (deleteWebhook registry existingWebhook.webhookID,
            some (.delete existingWebhook.webhookID))
        else if filteredAddresses.length < currentAddresses.length then
          (putAddresses registry existingWebhook.webhookID filteredAddresses,
            some (.update existingWebhook.webhookID filteredAddresses))
        else (registry, none)
      | none => (registry, none)

/-! ## Polling a wallet (transaction-monitor.js:144-300) -/

/-- The method `Map.prototype.get`. -/
def jsMapGet {β : Type} (m : List (String × β)) (key : String) : Option β :=
  (m.find? fun entry => entry.1 == key).map Prod.snd

/-- The method `Set.prototype.add` on a set of strings kept in insertion order. -/
def jsSetAdd (s : List String) (x : String) : List String :=
  if s.contains x then s else s ++ [x]

/-- One entry of `meta.preTokenBalances` / `meta.postTokenBalances`; `uiAmount` and `symbol`
are the fields of `uiTokenAmount`, a null amount counts as 0 in the subtraction. -/
structure TokenBalance where
  accountIndex : Nat
  mint : String
  uiAmount : Option ℚ
  symbol : Option String
deriving DecidableEq, Repr

/-- The field `meta` of a parsed ledger transaction. -/
structure TxMeta where
  preTokenBalances : Option (List TokenBalance)
  postTokenBalances : Option (List TokenBalance)
deriving DecidableEq, Repr

/-- The answer of `connection.getParsedTransaction`; `signature` is
`transaction.signatures[0]`. -/
structure ParsedTransaction where
  signature : String
  txMeta : Option TxMeta
deriving DecidableEq, Repr

/-- The method `isSwapTransaction(tx)` (transaction-monitor.js:254-263). -/
def isSwapTransaction (tx : ParsedTransaction) : Bool :=
  match tx.txMeta with
  | none => false
  | some m =>
    match m.postTokenBalances, m.preTokenBalances with
    | some post, some pre => decide (post.length > 0) && decide (pre.length > 0)
    | _, _ => false

/-- The transfers `convertToHeliusFormat` derives from the balance changes
(transaction-monitor.js:271-290). -/
def balanceTransfers (walletAddress : String) (pre : List TokenBalance) :
    List TokenBalance → List TokenTransfer
  | [] => []
  | postBalance :: rest =>
    match pre.find? fun p => p.accountIndex == postBalance.accountIndex with
    | none => balanceTransfers walletAddress pre rest
    | some preBalance =>
      let change := postBalance.uiAmount.getD 0 - preBalance.uiAmount.getD 0
      if change ≠ 0 then
        { mint := some postBalance.mint
          tokenSymbol := some (orElse postBalance.symbol "UNKNOWN")
          fromUserAccount := if change < 0 then some walletAddress else none
          toUserAccount := if change > 0 then some walletAddress else none }
          :: balanceTransfers walletAddress pre rest
      else balanceTransfers walletAddress pre rest

/-- The method `convertToHeliusFormat(tx, walletAddress)` (transaction-monitor.js:265-300),
called on transactions that passed `isSwapTransaction`. -/
def convertToHeliusFormat (tx : ParsedTransaction) (walletAddress : String) : Tx :=
  { signature := tx.signature
    type := some "SWAP"
    description := some "Token swap detected"
    source := some walletAddress
    feePayer := none
    tokenTransfers := some
      (match tx.txMeta with
       | some { preTokenBalances := some pre, postTokenBalances := some post } =>
         balanceTransfers walletAddress pre post
       | _ => [])
    accountData := none }

/-- The collaborators of one poll of a wallet: the page of the enhanced API (`response.data`),
the page of `getSignaturesForAddress`, `getParsedTransaction`, and the callback the monitor
was constructed with. -/
structure PollEnv where
  transactions : Except String (Option (List Tx))
  signatures : Except String (List String)
  getParsedTransaction : String → Except String (Option ParsedTransaction)
  callback : Tx → Except String Unit

/-- What a loop over a fetched page did: the processed-signature set afterwards, the events
handed to the callback in order, and the error that ended the loop, if one did. -/
structure Scan where
  processedSignatures : List String
  emitted : List Tx
  error : Option String

/-- The loop over `transactions` in `checkWallet` (transaction-monitor.js:176-193). -/
def scanTransactions (callback : Tx → Except String Unit) (lastSignature : Option String) :
    List String → List Tx → Scan
  | processed, [] => { processedSignatures := processed, emitted := [], error := none }
  | processed, tx :: rest =>
    if some tx.signature = lastSignature then
      { processedSignatures := processed, emitted := [], error := none }
    else if processed.contains tx.signature then
      scanTransactions callback lastSignature processed rest
    else if tx.type = some "SWAP" then
      let marked := jsSetAdd processed tx.signature
      match callback tx with
      | .error m => { processedSignatures := marked, emitted := [tx], error := some m }
      | .ok _ =>
        let more := scanTransactions callback lastSignature marked rest
        { more with emitted := tx :: more.emitted }
    else scanTransactions callback lastSignature processed rest

/-- The loop over `signatures` in `checkWalletPublicRPC` (transaction-monitor.js:221-243). -/
def scanSignatures (walletAddress : String)
    (getParsedTransaction : String → Except String (Option ParsedTransaction))
    (callback : Tx → Except String Unit) (lastSignature : Option String) :
    List String → List String → Scan
  | processed, [] => { processedSignatures := processed, emitted := [], error := none }
  | processed, signature :: rest =>
    if some signature = lastSignature then
      { processedSignatures := processed, emitted := [], error := none }
    else if processed.contains signature then
      scanSignatures walletAddress getParsedTransaction callback lastSignature processed rest
    else
      match getParsedTransaction signature with
      | .error m => { processedSignatures := processed, emitted := [], error := some m }
      | .ok none =>
        scanSignatures walletAddress getParsedTransaction callback lastSignature processed rest
      | .ok (some tx) =>
        if isSwapTransaction tx then
          let enhancedTx := convertToHeliusFormat tx walletAddress
          let marked := jsSetAdd processed signature
          match callback enhancedTx with
          | .error m =>
            { processedSignatures := marked, emitted := [enhancedTx], error := some m }
          | .ok _ =>
            let more := scanSignatures walletAddress getParsedTransaction callback
              lastSignature marked rest
            { more with emitted := enhancedTx :: more.emitted }
        else
          scanSignatures walletAddress getParsedTransaction callback lastSignature processed rest

/-- The method `checkWalletPublicRPC(walletAddress)` (transaction-monitor.js:208-252): the
monitor afterwards and the events handed to the callback. An error is caught; what the loop
did before it stays, the high-water mark is not moved. -/
def Monitor.checkWalletPublicRPC (monitor : Monitor) (walletAddress : String)
    (poll : PollEnv) : Monitor × List Tx :=
  match poll.signatures with
  | .error _ => (monitor, [])
  | .ok signatures =>
    let lastSignature := jsMapGet monitor.lastCheckedSignatures walletAddress
    let scan := scanSignatures walletAddress poll.getParsedTransaction poll.callback
      lastSignature monitor.processedSignatures signatures
    match scan.error, signatures with
    | some _, _ => ({ monitor with processedSignatures := scan.processedSignatures }, scan.emitted)
    | none, [] => ({ monitor with processedSignatures := scan.processedSignatures }, scan.emitted)
    | none, first :: _ =>
      ({ monitor with
         processedSignatures := scan.processedSignatures
         lastCheckedSignatures := jsMapSet monitor.lastCheckedSignatures walletAddress first },
        scan.emitted)

/-- The method `checkWallet(walletAddress)` (transaction-monitor.js:144-206) at clock reading
`now`, for a monitor constructed with `heliusApiKey`: the monitor afterwards and the events
handed to the callback. An error is caught; what the loop did before it stays, the high-water
mark is not moved. -/
def Monitor.checkWallet (monitor : Monitor) (heliusApiKey : Option String)
    (walletAddress : String) (now : Int) (poll : PollEnv) : Monitor × List Tx :=
  let polled := { monitor with lastPollTime := jsMapSet monitor.lastPollTime walletAddress now }
  if !truthy heliusApiKey then polled.checkWalletPublicRPC walletAddress poll
  else
    match poll.transactions with
    | .error _ => (polled, [])
    | .ok none => (polled, [])
    | .ok (some []) => (polled, [])
    | .ok (some (first :: rest)) =>
      let lastSignature := jsMapGet polled.lastCheckedSignatures walletAddress
      let scan := scanTransactions poll.callback lastSignature polled.processedSignatures
        (first :: rest)
      match scan.error with
      | some _ => ({ polled with processedSignatures := scan.processedSignatures }, scan.emitted)
      | none =>
        ({ polled with
           processedSignatures := scan.processedSignatures
           lastCheckedSignatures :=
             jsMapSet polled.lastCheckedSignatures walletAddress first.signature },
          scan.emitted)

/-- The entries of a page that precede the first entry carrying the high-water mark. -/
def beforeMark (lastSignature : Option String) (transactions : List Tx) : List Tx :=
  transactions.takeWhile fun tx => !decide (some tx.signature = lastSignature)

/-! ## The push route and the notifications (server.js:252-276, 1219-1299) -/

/-- The value the push route hands to `processTransaction`: `none` stands for an element of
the body that is `null`, on which the destructuring at line 837 throws inside the `try`
block. -/
def processDelivered (cfg : Config) (sv : Services) (store : Store)
    (cache : ProcessedTransactions) (tx : Option Tx) (envs : Nat → TaskEnv) : ProcessResult :=
  match tx with
  | none =>
    { cache := cache, outcome := .failed "TypeError: Cannot destructure property of null",
      fundWallet := none, tasks := [] }
  | some tx => processTransaction cfg sv store cache tx envs

/-- The loop of the push route (server.js:263-267): every element of the body is handed to
`processTransaction` in order; the result of each call, oldest first. -/
def webhookBatch (cfg : Config) (sv : Services) (store : Store) :
    ProcessedTransactions → List (Option Tx × (Nat → TaskEnv)) → List ProcessResult
  | _, [] => []
  | cache, (tx, envs) :: rest =>
    let result := processDelivered cfg sv store cache tx envs
    result :: webhookBatch cfg sv store result.cache rest

/-- The cache after the loop of the push route. -/
def webhookBatchCache (cfg : Config) (sv : Services) (store : Store) :
    ProcessedTransactions → List (Option Tx × (Nat → TaskEnv)) → ProcessedTransactions
  | cache, [] => cache
  | cache, (tx, envs) :: rest =>
    webhookBatchCache cfg sv store (processDelivered cfg sv store cache tx envs).cache rest

/-- What the collaborators of a notification answer: the read of the user document (the
`fcmToken` of its data, absent when the document or the field is missing) and
`admin.messaging().send`. -/
structure NotifyEnv where
  userDoc : Except String (Option String)
  send : Except String Unit

/-- How a notification function ended. -/
inductive Delivery where
  | sent (type : String)
  | noToken
  | failed (message : String)
deriving DecidableEq, Repr

/-- The `try` block the three notification functions share: read the user, return without a
token, send the message whose `data.type` is given. -/
def notifyTry (type : String) (n : NotifyEnv) : Except String Delivery :=
  match n.userDoc with
  | .error m => .error m
  | .ok token =>
    if !truthy token then .ok .noToken
    else
      match n.send with
      | .error m => .error m
      | .ok _ => .ok (.sent type)

/-- The function `sendTradeNotification` (server.js:1219-1249): the `catch` block logs. -/
def sendTradeNotification (n : NotifyEnv) : Except String Delivery :=
  match notifyTry "copy_trade" n with
  | .error m => .ok (.failed m)
  | .ok d => .ok d

/-- The function `sendSuccessNotification` (server.js:1251-1275): the `catch` block logs. -/
def sendSuccessNotification (n : NotifyEnv) : Except String Delivery :=
  match notifyTry "trade_success" n with
  | .error m => .ok (.failed m)
  | .ok d => .ok d

/-- The function `sendFailureNotification` (server.js:1277-1299): the `catch` block logs. -/
def sendFailureNotification (n : NotifyEnv) : Except String Delivery :=
  match notifyTry "trade_failure" n with
  | .error m => .ok (.failed m)
  | .ok d => .ok d

/-- The notification collaborators of a run, one per pass of the loop for each of the two
calls. -/
structure NotifyRun where
  success : Nat → NotifyEnv
  failure : Nat → NotifyEnv

/-- The `try` block with the awaited call of `sendSuccessNotification` at its end
(server.js:1168): an error of the call would land in the `catch` block of the loop. -/
def attemptNotified (cfg : Config) (inv : Investment) (tx : Tx) (fundWallet : Option String)
    (fundTxSignature : String) (startTime : Int) (retries : Nat) (e : AttemptEnv)
    (n : NotifyEnv) : List Effect × AttemptEnd :=
  match attempt cfg inv tx fundWallet fundTxSignature startTime retries e with
  | (effs, .succeeded) =>
    match sendSuccessNotification n with
    | .ok _ => (effs, .succeeded)
    | .error m => (effs, .thrown m)
  | other => other

/-- The loop of `executeCopyTrade` with the two notification calls made through their
collaborators: an error of `sendFailureNotification`, awaited inside the `catch` block
(server.js:1207), would leave the function. -/
def retryLoopNotified (cfg : Config) (inv : Investment) (tx : Tx) (fundWallet : Option String)
    (fundTxSignature : String) (env : RunEnv) (notify : NotifyRun) : Nat → Nat → RunResult
  | 0, retries => { effects := [], outcome := .outOfFuel, retries := retries }
  | fuel + 1, retries =>
    if (retries : Int) < cfg.maxRetries then
      let e := env.attempts retries
      match attemptNotified cfg inv tx fundWallet fundTxSignature env.startTime retries e
          (notify.success retries) with
      | (effs, .succeeded) => { effects := effs, outcome := .succeeded, retries := retries }
      | (effs, .skipped why) => { effects := effs, outcome := .skipped why, retries := retries }
      | (effs, .thrown message) =>
        if ((retries + 1 : Nat) : Int) ≥ cfg.maxRetries then
          let record := failedRecord inv tx fundTxSignature (retries + 1) e message
          match e.failedRecordAdd with
          | .error m =>
            { effects := effs ++ [.recordAdd record false], outcome := .threw m,
              retries := retries + 1 }
          | .ok _ =>
            match sendFailureNotification (notify.failure retries) with
            | .error m =>
              { effects := effs ++ [.recordAdd record true, .notifyFailure inv.userId message],
                outcome := .threw m, retries := retries + 1 }
            | .ok _ =>
              let rest := retryLoopNotified cfg inv tx fundWallet fundTxSignature env notify
                fuel (retries + 1)
              { rest with
                effects := effs ++ [.recordAdd record true, .notifyFailure inv.userId message]
                  ++ rest.effects }
        else
          let rest := retryLoopNotified cfg inv tx fundWallet fundTxSignature env notify
            fuel (retries + 1)
          { rest with effects := effs ++ [.wait (waitTime (retries + 1))] ++ rest.effects }
    else
      { effects := [], outcome := .exhausted, retries := retries }

/-- The function `executeCopyTrade` run with notification collaborators. -/
def executeCopyTradeNotified (cfg : Config) (inv : Investment) (tx : Tx)
    (fundWallet : Option String) (fundTxSignature : String) (env : RunEnv)
    (notify : NotifyRun) : RunResult :=
  retryLoopNotified cfg inv tx fundWallet fundTxSignature env notify
    (cfg.maxRetries.toNat + 1) 0

/-! ## Key encryption (sodium-encryption.js) -/

/-- A byte array (`Uint8Array`, `Buffer`). -/
abbrev Bytes := List UInt8

/-- The functions of `libsodium-wrappers` and of `Buffer` the module calls:
`Buffer.from(s, 'utf8')`, `toString('utf8')`, `toString('base64')`, `Buffer.from(s, 'base64')`,
`crypto_secretbox_easy(message, nonce, key)` and `crypto_secretbox_open_easy(ciphertext,
nonce, key)`, which throws when the box does not open. -/
structure Sodium where
  utf8Encode : String → Bytes
  utf8Decode : Bytes → String
  base64Encode : Bytes → String
  base64Decode : String → Bytes
  crypto_secretbox_easy : Bytes → Bytes → Bytes → Bytes
  crypto_secretbox_open_easy : Bytes → Bytes → Bytes → Except String Bytes

/-- The constant `KEY_STRING` (sodium-encryption.js:3). -/
def KEY_STRING : String := "pumpfunds_secure_key_32bytes!!@@"

/-- The key the function `initialize()` builds (sodium-encryption.js:9-22): 32 zero bytes
overwritten from the start with the first bytes of `KEY_STRING`. -/
def sodiumKey (lib : Sodium) : Bytes :=
  let sourceBytes := lib.utf8Encode KEY_STRING
  let length := min sourceBytes.length 32
  sourceBytes.take length ++ List.replicate (32 - length) 0

/-- The function `encryptData(plaintext)` (sodium-encryption.js:28-46); `nonce` is the answer
of `randombytes_buf(24)`. -/
def encryptData (lib : Sodium) (nonce : Bytes) (plaintext : String) : String :=
  let plaintextBytes := lib.utf8Encode plaintext
  let ciphertext := lib.crypto_secretbox_easy plaintextBytes nonce (sodiumKey lib)
  let combined := nonce ++ ciphertext
  lib.base64Encode combined

/-- The function `decryptData(encrypted)` (sodium-encryption.js:52-67). -/
def decryptData (lib : Sodium) (encrypted : String) : Except String String :=
  let combined := lib.base64Decode encrypted
  let nonce := combined.take 24
  let ciphertext := combined.drop 24
  match lib.crypto_secretbox_open_easy ciphertext nonce (sodiumKey lib) with
  | .error m => .error m
  | .ok plaintext => .ok (lib.utf8Decode plaintext)

/-! ## Sample inputs -/

/-- A leader wallet of a fund. -/
def leaderWallet : String := "7xKXtg2CW87d97TXJSDpbD5jBkheTqA83TZRuJosgAsU"

/-- A traded token mint. -/
def tokenMintA : String := "EPjFWdd5AufqSSqeM2qN1xzybapC8G4wEGGkZwyTDt1v"

/-- The transfers of a swap in which the leader pays SOL and receives the token. -/
def buyTransfers : List TokenTransfer :=
  [ { mint := some SOL_MINT, tokenSymbol := some "SOL",
      fromUserAccount := some leaderWallet, toUserAccount := some "pool" },
    { mint := some tokenMintA, tokenSymbol := some "USDC",
      fromUserAccount := some "pool", toUserAccount := some leaderWallet } ]

/-- A swap in which the leader pays SOL and receives the token. -/
def buyTx : Tx :=
  { signature := "sig1"
    type := some "SWAP"
    description := none
    source := some leaderWallet
    feePayer := some leaderWallet
    tokenTransfers := some buyTransfers
    accountData := none }

/-- A swap in which the leader gives the token and receives SOL. -/
def sellTx : Tx :=
  { buyTx with
    signature := "sig2"
    tokenTransfers := some
      [ { mint := some tokenMintA, tokenSymbol := some "USDC",
          fromUserAccount := some leaderWallet, toUserAccount := some "pool" },
        { mint := some SOL_MINT, tokenSymbol := some "SOL",
          fromUserAccount := some "pool", toUserAccount := some leaderWallet } ] }

/-- A follower with 10 SOL allocated and a purchase size of 50 percent. -/
def follower : Investment :=
  { userId := "u1", fundId := "f1", allocatedAmount := 10, purchaseSizePercentage := 50,
    autoApprove := true, isActive := some true }

/-- An attempt in which every collaborator answers: 6 SOL of balance, 1000 tokens held. -/
def okAttempt : AttemptEnv :=
  { userDoc := .ok { docExists := true, encryptedPrivateKey := some "nonce+ciphertext" }
    decrypted := .ok "00ff"
    keypair := .ok "FollowerPubkey"
    balance := .ok 6000000000
    tokenAccount := .ok 1000
    quote := .ok (some { inAmount := 5000000000, outAmount := 250000000 })
    swap := .ok (some "AQAB")
    signed := .ok ()
    sent := .ok "copySig"
    confirmation := .ok none
    recordAdd := .ok ()
    failedRecordAdd := .ok ()
    confirmedAt := 1500
    recordedAt := 1501
    failedAt := 1502 }

/-- An attempt in which the quote request is rejected. -/
def quoteFails : AttemptEnv :=
  { okAttempt with quote := .error "Request failed with status code 429" }

/-- A run in which every collaborator answers on every attempt. -/
def okRun : RunEnv := { startTime := 1000, attempts := fun _ => okAttempt }

/-- An attempt in which the swap is confirmed and the store then rejects the record. -/
def recordAddFails : AttemptEnv :=
  { okAttempt with recordAdd := .error "14 UNAVAILABLE: store unreachable" }

/-- A run whose first attempt confirms the swap and fails to store the record, and whose later
attempts go through. -/
def storeFailsOnce : RunEnv :=
  { startTime := 1000, attempts := fun n => if n = 0 then recordAddFails else okAttempt }

/-- The same swap delivered to the same investment by push at 1000 ms, by the poller at
250000 ms and again at 301000 ms, with a sweep firing at 300000 ms. -/
def pushThenPoll : List GateOp :=
  [ .dispatch 1000 follower buyTx (some leaderWallet) okRun,
    .dispatch 250000 follower buyTx (some leaderWallet) okRun,
    .sweep 300000,
    .dispatch 301000 follower buyTx (some leaderWallet) okRun ]

/-- An attempt in which the follower holds only 1 SOL. -/
def lowBalance : AttemptEnv :=
  { okAttempt with balance := .ok 1000000000 }

/-- A run whose first quote request is rejected and whose follower has only 1 SOL left when
the retry starts. -/
def balanceDrops : RunEnv :=
  { startTime := 1000, attempts := fun n => if n = 0 then quoteFails else lowBalance }

/-- A follower with 1 SOL allocated at 100 percent. -/
def smallBuyer : Investment :=
  { follower with allocatedAmount := 1, purchaseSizePercentage := 100 }

/-- A follower selling 25 percent of the holding. -/
def quarterSeller : Investment :=
  { follower with purchaseSizePercentage := 25 }

/-- A run whose follower holds 0.001 SOL. -/
def dustBalance : RunEnv :=
  { startTime := 1000, attempts := fun _ => { okAttempt with balance := .ok 1000000 } }

/-- A run whose follower holds a single smallest unit of the token. -/
def dustHolder : RunEnv :=
  { startTime := 1000, attempts := fun _ => { okAttempt with tokenAccount := .ok 1 } }

/-- A swap whose source is the leader wallet while every other field names another address. -/
def decoyTx : Tx :=
  { buyTx with
    feePayer := some "9WzDXwBbmkg8ZTbNMqUxvQRAyrZzDsGYdLVL9zYtAWWM"
    description := some "9WzDXwBbmkg8ZTbNMqUxvQRAyrZzDsGYdLVL9zYtAWWM swapped 1 SOL for 20 USDC"
    accountData := some [{ account := some "9WzDXwBbmkg8ZTbNMqUxvQRAyrZzDsGYdLVL9zYtAWWM" }] }

/-- A swap without a source field whose fee payer is the leader wallet. -/
def absentSourceTx : Tx :=
  { buyTx with source := none, feePayer := some leaderWallet }

/-- A swap whose source is a protocol name and whose fee payer is the leader wallet. -/
def protocolTx : Tx :=
  { buyTx with source := some "RAYDIUM", feePayer := some leaderWallet }

/-- A swap whose source is a protocol name, without fee payer and description, whose account
list starts with the leader wallet. -/
def accountListTx : Tx :=
  { buyTx with
    source := some "PUMP_AMM"
    feePayer := none
    description := none
    accountData := some [{ account := some leaderWallet }, { account := some "pool" }] }

/-- Services that are configured and reachable. -/
def liveServices : Services :=
  { heliusApiKey := some "helius-key"
    backendUrl := "https://backend.example"
    storeError := none
    registryError := none
    newInvestmentId := "inv-new"
    newWebhookId := "wh-new" }

/-- The fund of the leader wallet. -/
def alphaFund : FundDoc :=
  { id := "f1", name := "Alpha", walletAddresses := some [leaderWallet] }

/-- A store with the fund and one active investment of the follower. -/
def fundStore : Store :=
  { funds := [alphaFund]
    investments := [{ id := "inv1", data := follower }] }

/-- A monitor that polls nothing yet. -/
def emptyMonitor : Monitor :=
  { monitoredWallets := [], lastCheckedSignatures := [], processedSignatures := [],
    lastPollTime := [], isRunning := true }

/-- A monitor that polls the leader wallet for the fund. -/
def leaderMonitor : Monitor :=
  { emptyMonitor with monitoredWallets := [(leaderWallet, "f1")] }

/-- A store whose only investment in the fund has been deactivated. -/
def idleStore : Store :=
  { funds := [alphaFund]
    investments := [{ id := "inv1", data := { follower with isActive := some false } }] }

/-- A server whose fund has no investment yet, with the monitor started and an empty
registry. -/
def freshServer : Server :=
  { store := { funds := [alphaFund], investments := [] }
    registry := []
    monitor := some emptyMonitor
    activeSubscriptions := [] }

/-- The first subscription to the fund: 10 SOL, defaults for the rest. -/
def firstRequest : SubscribeRequest :=
  { userId := some "u1", fundId := some "f1", allocatedAmount := some 10,
    purchaseSizePercentage := none, autoApprove := none }

/-- A wallet that belongs to no fund. -/
def retiredWallet : String := "9WzDXwBbmkg8ZTbNMqUxvQRAyrZzDsGYdLVL9zYtAWWM"

/-- A registry whose webhook for this backend lists only the retired wallet. -/
def staleRegistry : List Webhook :=
  [{ webhookID := "wh1", webhookURL := webhookUrl liveServices,
     accountAddresses := some [retiredWallet] }]

/-- A registry whose webhook for this backend lists the leader wallet and the retired one. -/
def mixedRegistry : List Webhook :=
  [{ webhookID := "wh1", webhookURL := webhookUrl liveServices,
     accountAddresses := some [leaderWallet, retiredWallet] }]

/-- A server with the follower's active investment, the leader wallet polled and registered. -/
def subscribedServer : Server :=
  { store := fundStore
    registry := mixedRegistry
    monitor := some leaderMonitor
    activeSubscriptions := [] }

/-- A registry holding two webhooks for this backend, each listing only the retired wallet. -/
def doubledRegistry : List Webhook :=
  [ { webhookID := "wh1", webhookURL := webhookUrl liveServices,
      accountAddresses := some [retiredWallet] },
    { webhookID := "wh2", webhookURL := webhookUrl liveServices,
      accountAddresses := some [retiredWallet] } ]

/-- An event typed TRANSFER that carries the transfers of the leader's buy. -/
def transferTx : Tx :=
  { buyTx with signature := "sig5", type := some "TRANSFER" }

/-- A later swap of the leader. -/
def newerSwap : Tx :=
  { buyTx with signature := "sig3" }

/-- A monitor whose high-water mark for the leader wallet is the buy. -/
def markedMonitor : Monitor :=
  { leaderMonitor with lastCheckedSignatures := [(leaderWallet, "sig1")] }

/-- A poll that fetches, newest first, a transfer, a new swap, the marked buy and an older
sell; the ledger node knows none of the signatures in parsed form and the callback returns. -/
def leaderPoll : PollEnv :=
  { transactions := .ok (some [transferTx, newerSwap, buyTx, sellTx])
    signatures := .ok ["sig5", "sig3", "sig1", "sig2"]
    getParsedTransaction := fun _ => .ok none
    callback := fun _ => .ok () }

/-- The clock and collaborators of tasks that all start at 1000 ms and go through. -/
def steadyTasks : Nat → TaskEnv :=
  fun _ => { now := 1000, run := okRun }

/-- An investment whose user id contains a hyphen. -/
def hyphenUser : Investment :=
  { follower with userId := "u-1", fundId := "f1" }

/-- An investment of another user in another fund, whose fund id contains a hyphen. -/
def hyphenFund : Investment :=
  { follower with userId := "u", fundId := "1-f1" }

/-- A notification whose message the messaging service rejects. -/
def rejectedDelivery : NotifyEnv :=
  { userDoc := .ok (some "fcm-token"), send := .error "messaging/registration-token-not-registered" }

/-- A notification that is delivered. -/
def acceptedDelivery : NotifyEnv :=
  { userDoc := .ok (some "fcm-token"), send := .ok () }

/-- A run in which no notification is delivered. -/
def undelivered : NotifyRun :=
  { success := fun _ => rejectedDelivery, failure := fun _ => rejectedDelivery }

/-- A run in which every notification is delivered. -/
def delivered : NotifyRun :=
  { success := fun _ => acceptedDelivery, failure := fun _ => acceptedDelivery }

/-- A small stand-in for the two libraries, faithful on ASCII text only: one byte per
character for both codecs and a box that shifts every byte by the first byte of the key and
opens under that key alone. -/
def asciiSodium : Sodium :=
  { utf8Encode := fun s => s.toList.map fun c => c.toNat.toUInt8
    utf8Decode := fun b => String.mk (b.map fun x => Char.ofNat x.toNat)
    base64Encode := fun b => String.mk (b.map fun x => Char.ofNat x.toNat)
    base64Decode := fun s => s.toList.map fun c => c.toNat.toUInt8
    crypto_secretbox_easy := fun message _ key => message.map fun x => x + key.headD 0
    crypto_secretbox_open_easy := fun ciphertext _ key =>
      .ok (ciphertext.map fun x => x - key.headD 0) }

/-- A nonce of 24 bytes. -/
def sampleNonce : Bytes :=
  List.replicate 24 7

/-- A follower with 3 SOL allocated at 67 percent. -/
def oddBuyer : Investment :=
  { follower with allocatedAmount := 3, purchaseSizePercentage := 67 }

/-- A follower with 1 SOL allocated at 10 percent. -/
def tenthBuyer : Investment :=
  { follower with allocatedAmount := 1, purchaseSizePercentage := 10 }

/-- A run whose follower holds 0.103 SOL. -/
def thresholdBalance : RunEnv :=
  { startTime := 1000, attempts := fun _ => { okAttempt with balance := .ok 103000000 } }

/-- A follower selling the whole holding. -/
def wholeSeller : Investment :=
  { follower with purchaseSizePercentage := 100 }

/-- A run whose follower holds 6850587380031161 units of the token. -/
def largeHolder : RunEnv :=
  { startTime := 1000,
    attempts := fun _ => { okAttempt with tokenAccount := .ok 6850587380031161 } }

/-- A follower selling 11.11111111111111 percent of the holding. -/
def ninthSeller : Investment :=
  { follower with purchaseSizePercentage := 11.11111111111111 }

/-- A run whose follower holds 9 units of the token. -/
def nineHolder : RunEnv :=
  { startTime := 1000, attempts := fun _ => { okAttempt with tokenAccount := .ok 9 } }

/-- A store in which a fund document without a wallet list precedes the fund of the leader
wallet, with the follower's active investment in the latter. -/
def draftStore : Store :=
  { funds := [{ id := "f0", name := "Draft", walletAddresses := none }, alphaFund]
    investments := [{ id := "inv1", data := follower }] }

/-- A run in which every quote request is rejected. -/
def quoteAlwaysFails : RunEnv :=
  { startTime := 1000, attempts := fun _ => quoteFails }

end PumpFund

/-! ## Lemmas on the effect projections -/

namespace PumpFund

theorem appended_append (a b : List Effect) :
    appended (a ++ b) = appended a ++ appended b := by
  simp [appended, List.filterMap_append]

theorem appended_nil : appended [] = [] := rfl

theorem appended_wait (ms : ℚ) : appended [.wait ms] = [] := rfl

theorem appended_unstored (record : TradeRecord) : appended [.recordAdd record false] = [] := rfl

theorem sizeTrade_pre (inv : Investment) (e : AttemptEnv) (pubkey : String) (balanceSOL : ℚ)
    (tokenMint tokenSymbol : String) (isBuy : Bool) (pre : List Effect)
    (hpre : appended pre = []) :
    appended (sizeTrade inv e pubkey balanceSOL tokenMint tokenSymbol isBuy pre).1 = [] := by
  unfold sizeTrade
  dsimp only
  repeat' split
  all_goals simp [appended_append, hpre]
  all_goals simp [appended]

theorem validate_appended (inv : Investment) (tx : Tx) (fundWallet : Option String)
    (e : AttemptEnv) : appended (validate inv tx fundWallet e).1 = [] := by
  unfold validate
  repeat' split
  all_goals first
    | exact sizeTrade_pre _ _ _ _ _ _ _ _ (by simp [appended])
    | simp [appended]

theorem sizeTrade_stop (inv : Investment) (e : AttemptEnv) (pubkey : String) (balanceSOL : ℚ)
    (tokenMint tokenSymbol : String) (isBuy : Bool) (pre : List Effect) :
    (sizeTrade inv e pubkey balanceSOL tokenMint tokenSymbol isBuy pre).2
      ≠ .inl .succeeded := by
  unfold sizeTrade
  dsimp only
  repeat' split
  all_goals simp

theorem validate_stop (inv : Investment) (tx : Tx) (fundWallet : Option String)
    (e : AttemptEnv) : (validate inv tx fundWallet e).2 ≠ .inl .succeeded := by
  unfold validate
  repeat' split
  all_goals first
    | exact sizeTrade_stop _ _ _ _ _ _ _ _
    | simp

theorem trade_shape (cfg : Config) (inv : Investment) (fundTxSignature : String)
    (startTime : Int) (retries : Nat) (e : AttemptEnv) (v : Validated) :
    ((trade cfg inv fundTxSignature startTime retries e v).2 = .succeeded ∧
      ∃ body rec, (trade cfg inv fundTxSignature startTime retries e v).1
          = body ++ [.recordAdd rec true, .notifySuccess inv.userId] ∧
        appended body = [] ∧ rec.isSuccess = true) ∨
    ((∃ m, (trade cfg inv fundTxSignature startTime retries e v).2 = .thrown m) ∧
      appended (trade cfg inv fundTxSignature startTime retries e v).1 = []) := by
  unfold trade
  dsimp only
  repeat' split
  all_goals first
    | (right; refine ⟨⟨_, rfl⟩, ?_⟩; simp [appended])
    | (left; refine ⟨rfl, ?_⟩
       refine ⟨[.quoteRequest v.inputMint v.outputMint v.amountInSmallestUnit cfg.slippageBps,
          .swapBuild, .sign, .swapSubmit, .confirmed ‹String›],
          successRecord inv fundTxSignature startTime retries e v ‹Quote› ‹String›, ?_, ?_, ?_⟩
       · simp
       · simp [appended]
       · simp [successRecord])

theorem attempt_shape (cfg : Config) (inv : Investment) (tx : Tx) (fundWallet : Option String)
    (fundTxSignature : String) (startTime : Int) (retries : Nat) (e : AttemptEnv) :
    ((attempt cfg inv tx fundWallet fundTxSignature startTime retries e).2 = .succeeded ∧
      ∃ body rec, (attempt cfg inv tx fundWallet fundTxSignature startTime retries e).1
          = body ++ [.recordAdd rec true, .notifySuccess inv.userId] ∧
        appended body = [] ∧ rec.isSuccess = true) ∨
    ((attempt cfg inv tx fundWallet fundTxSignature startTime retries e).2 ≠ .succeeded ∧
      appended (attempt cfg inv tx fundWallet fundTxSignature startTime retries e).1 = []) := by
  have hv := validate_appended inv tx fundWallet e
  unfold attempt
  rcases hval : validate inv tx fundWallet e with ⟨pre, stop | v⟩
  · have hs := validate_stop inv tx fundWallet e
    rw [hval] at hv hs
    right
    exact ⟨fun h => hs (by simp only at h ⊢; rw [h]), hv⟩
  · rw [hval] at hv
    simp only at hv ⊢
    rcases trade_shape cfg inv fundTxSignature startTime retries e v with
      ⟨h1, body, rec, h2, h3, h4⟩ | ⟨⟨m, h1⟩, h2⟩
    · left
      refine ⟨h1, pre ++ body, rec, ?_, ?_, h4⟩
      · rw [h2]; simp
      · simp [appended_append, hv, h3]
    · right
      refine ⟨by simp [h1], ?_⟩
      simp [appended_append, hv, h2]

theorem retryLoop_exit (cfg : Config) (inv : Investment) (tx : Tx)
    (fundWallet : Option String) (fundTxSignature : String) (env : RunEnv) (fuel retries : Nat)
    (h : ¬ (retries : Int) < cfg.maxRetries) :
    retryLoop cfg inv tx fundWallet fundTxSignature env (fuel + 1) retries
      = { effects := [], outcome := .exhausted, retries := retries } := by
  simp [retryLoop, h]

theorem retryLoop_shape (cfg : Config) (inv : Investment) (tx : Tx)
    (fundWallet : Option String) (fundTxSignature : String) (env : RunEnv) :
    ∀ (fuel retries : Nat), (cfg.maxRetries - (retries : Int)).toNat < fuel →
    ∀ r, retryLoop cfg inv tx fundWallet fundTxSignature env fuel retries = r →
      (r.outcome = .succeeded ∧ ∃ body rec,
          r.effects = body ++ [.recordAdd rec true, .notifySuccess inv.userId] ∧
          appended body = [] ∧ rec.isSuccess = true)
      ∨ (∃ why, r.outcome = .skipped why ∧ appended r.effects = [])
      ∨ (r.outcome = .exhausted ∧ r.retries = retries ∧ r.effects = [] ∧
          ¬ (retries : Int) < cfg.maxRetries)
      ∨ (r.outcome = .exhausted ∧ retries < r.retries ∧ ∃ body rec m,
          r.effects = body ++ [.recordAdd rec true, .notifyFailure inv.userId m] ∧
          appended body = [] ∧ rec.isSuccess = false)
      ∨ (∃ m, r.outcome = .threw m ∧ appended r.effects = []) := by
  intro fuel
  induction fuel with
  | zero => intro retries h; omega
  | succ fuel ih =>
    intro retries hfuel r hr
    by_cases hlt : (retries : Int) < cfg.maxRetries
    · have hsh := attempt_shape cfg inv tx fundWallet fundTxSignature env.startTime retries
        (env.attempts retries)
      rcases hatt : attempt cfg inv tx fundWallet fundTxSignature env.startTime retries
        (env.attempts retries) with ⟨effs, stop⟩
      rw [hatt] at hsh
      simp only at hsh
      cases stop with
      | succeeded =>
        simp only [retryLoop, hlt, if_true, hatt] at hr
        subst hr
        rcases hsh with ⟨_, body, rec, h1, h2, h3⟩ | ⟨h, _⟩
        · exact Or.inl ⟨rfl, body, rec, h1, h2, h3⟩
        · exact absurd rfl h
      | skipped why =>
        simp only [retryLoop, hlt, if_true, hatt] at hr
        subst hr
        rcases hsh with ⟨h, _⟩ | ⟨_, h⟩
        · cases h
        · exact Or.inr (Or.inl ⟨why, rfl, h⟩)
      | thrown message =>
        have heffs : appended effs = [] := by
          rcases hsh with ⟨h, _⟩ | ⟨_, h⟩
          · cases h
          · exact h
        by_cases hge : ((retries + 1 : Nat) : Int) ≥ cfg.maxRetries
        · cases hadd : (env.attempts retries).failedRecordAdd with
          | error m =>
            simp only [retryLoop, hlt, if_true, hatt, hge, hadd] at hr
            subst hr
            refine Or.inr (Or.inr (Or.inr (Or.inr ⟨m, rfl, ?_⟩)))
            simp only [appended_append, heffs, appended_unstored, List.append_nil]
          | ok u =>
            obtain ⟨fuel2, rfl⟩ : ∃ k, fuel = k + 1 := ⟨fuel - 1, by omega⟩
            have hexit := retryLoop_exit cfg inv tx fundWallet fundTxSignature env fuel2
              (retries + 1) (by omega)
            simp only [retryLoop, hlt, if_true, hatt, hge, hadd] at hr
            simp only [retryLoop] at hexit
            rw [hexit] at hr
            subst hr
            refine Or.inr (Or.inr (Or.inr (Or.inl ⟨rfl, by simp, effs,
              failedRecord inv tx fundTxSignature (retries + 1) (env.attempts retries) message,
              message, ?_, heffs, ?_⟩)))
            · simp
            · simp [failedRecord]
        · have hrec := ih (retries + 1) (by omega) _ rfl
          simp only [retryLoop, hlt, if_true, hatt, hge, if_false] at hr
          subst hr
          rcases hrec with ⟨h1, body, rec, h2, h3, h4⟩ | ⟨why, h1, h2⟩ | ⟨_, _, _, h4⟩ |
            ⟨h1, h2, body, rec, m, h3, h4, h5⟩ | ⟨m, h1, h2⟩
          · refine Or.inl ⟨h1, effs ++ [.wait (waitTime (retries + 1))] ++ body, rec, ?_, ?_, h4⟩
            · simp [h2]
            · simp only [appended_append, heffs, h3, appended_wait, List.append_nil]
          · refine Or.inr (Or.inl ⟨why, h1, ?_⟩)
            simp only [appended_append, heffs, h2, appended_wait, List.append_nil]
          · exact absurd (by omega) h4
          · refine Or.inr (Or.inr (Or.inr (Or.inl ⟨h1, by simp only; omega,
              effs ++ [.wait (waitTime (retries + 1))] ++ body, rec, m, ?_, ?_, h5⟩)))
            · simp [h3]
            · simp only [appended_append, heffs, h4, appended_wait, List.append_nil]
          · refine Or.inr (Or.inr (Or.inr (Or.inr ⟨m, h1, ?_⟩)))
            simp only [appended_append, heffs, h2, appended_wait, List.append_nil]
    · rw [retryLoop_exit _ _ _ _ _ _ _ _ hlt] at hr
      subst hr
      exact Or.inr (Or.inr (Or.inl ⟨rfl, rfl, rfl, hlt⟩))

theorem record_is_last (rec rec2 : TradeRecord) (n : Effect) (hn : appended [n] = []) :
    ∀ (body pre post : List Effect), appended body = [] →
      body ++ [.recordAdd rec true, n] = pre ++ .recordAdd rec2 true :: post → post = [n] := by
  intro body
  induction body with
  | nil =>
    intro pre post _ h
    rcases pre with _ | ⟨x, pre⟩
    · simp at h
      exact h.2.symm
    · rcases pre with _ | ⟨y, pre⟩
      · simp at h
        rw [h.2.1] at hn
        simp [appended] at hn
      · have := congrArg List.length h
        simp at this
  | cons b body ih =>
    intro pre post hb h
    rcases pre with _ | ⟨x, pre⟩
    · simp at h
      rw [h.1] at hb
      simp [appended] at hb
    · simp only [List.cons_append, List.cons.injEq] at h
      refine ih pre post ?_ h.2
      have hb2 : appended ([b] ++ body) = [] := hb
      rw [appended_append] at hb2
      exact (List.append_eq_nil.mp hb2).2

theorem no_record_of_appended_nil (effs pre post : List Effect) (rec : TradeRecord)
    (h : appended effs = []) (he : effs = pre ++ .recordAdd rec true :: post) : False := by
  subst he
  have h2 : appended (pre ++ ([.recordAdd rec true] ++ post)) = [] := h
  rw [appended_append, appended_append] at h2
  simp [appended] at h2

theorem executeCopyTrade_shape (cfg : Config) (inv : Investment) (tx : Tx)
    (fundWallet : Option String) (fundTxSignature : String) (env : RunEnv) (r : RunResult)
    (hr : executeCopyTrade cfg inv tx fundWallet fundTxSignature env = r) :
    (r.outcome = .succeeded ∧ ∃ body rec,
        r.effects = body ++ [.recordAdd rec true, .notifySuccess inv.userId] ∧
        appended body = [] ∧ rec.isSuccess = true)
    ∨ (∃ why, r.outcome = .skipped why ∧ appended r.effects = [])
    ∨ (r.outcome = .exhausted ∧ r.retries = 0 ∧ r.effects = [])
    ∨ (r.outcome = .exhausted ∧ 0 < r.retries ∧ ∃ body rec m,
        r.effects = body ++ [.recordAdd rec true, .notifyFailure inv.userId m] ∧
        appended body = [] ∧ rec.isSuccess = false)
    ∨ (∃ m, r.outcome = .threw m ∧ appended r.effects = []) := by
  have h := retryLoop_shape cfg inv tx fundWallet fundTxSignature env
    (cfg.maxRetries.toNat + 1) 0 (by simp) r hr
  rcases h with h | h | ⟨h1, h2, h3, _⟩ | h | h
  · exact Or.inl h
  · exact Or.inr (Or.inl h)
  · exact Or.inr (Or.inr (Or.inl ⟨h1, h2, h3⟩))
  · exact Or.inr (Or.inr (Or.inr (Or.inl h)))
  · exact Or.inr (Or.inr (Or.inr (Or.inr h)))

theorem appended_body_record (body : List Effect) (rec : TradeRecord) (n : Effect)
    (hb : appended body = []) (hn : appended [n] = []) :
    appended (body ++ [.recordAdd rec true, n]) = [rec] := by
  have h : appended (body ++ ([.recordAdd rec true] ++ [n])) = [rec] := by
    rw [appended_append, appended_append, hb, hn]
    rfl
  exact h

theorem executeCopyTrade_appended_le_one (cfg : Config) (inv : Investment) (tx : Tx)
    (fundWallet : Option String) (fundTxSignature : String) (env : RunEnv) :
    (appended (executeCopyTrade cfg inv tx fundWallet fundTxSignature env).effects).length
      ≤ 1 := by
  rcases executeCopyTrade_shape cfg inv tx fundWallet fundTxSignature env _ rfl with
    ⟨_, body, rec, h, hb, _⟩ | ⟨_, _, h⟩ | ⟨_, _, h⟩ | ⟨_, _, body, rec, m, h, hb, _⟩ | ⟨_, _, h⟩
  · rw [h, appended_body_record body rec (.notifySuccess inv.userId) hb rfl]; simp
  · rw [h]; simp
  · rw [h]; simp [appended]
  · rw [h, appended_body_record body rec (.notifyFailure inv.userId m) hb rfl]; simp
  · rw [h]; simp

/-! ## The dedup gate -/

theorem copyTradeTask_cases (cfg : Config) (cache : ProcessedTransactions) (now : Int)
    (inv : Investment) (tx : Tx) (fundWallet : Option String) (env : RunEnv) :
    (∃ a, copyTradeTask cfg cache now inv tx fundWallet env = (cache, a) ∧
        ∀ run, a ≠ .executed run) ∨
    (cacheHas cache (txCacheKey inv.userId inv.fundId tx.signature) = false ∧
      copyTradeTask cfg cache now inv tx fundWallet env
        = (cache ++ [(txCacheKey inv.userId inv.fundId tx.signature, now)],
            .executed (executeCopyTrade cfg inv tx fundWallet tx.signature env))) := by
  unfold copyTradeTask
  by_cases h1 : inv.isActive = some false
  · left; exact ⟨.skippedInactive, by simp [h1], by simp⟩
  · by_cases h2 : inv.autoApprove = true
    · by_cases h3 : cacheHas cache (txCacheKey inv.userId inv.fundId tx.signature) = true
      · left; exact ⟨.cacheHit, by simp [h1, h2, h3], by simp⟩
      · right
        have h3f : cacheHas cache (txCacheKey inv.userId inv.fundId tx.signature) = false := by
          simpa using h3
        exact ⟨h3f, by simp [h1, h2, h3f, cacheSet]⟩
    · left; exact ⟨.approvalNotified, by simp [h1, h2], by simp⟩

theorem runsFor_dispatch (cfg : Config) (userId fundId signature : String)
    (cache : ProcessedTransactions) (now : Int) (inv : Investment) (tx : Tx)
    (fundWallet : Option String) (env : RunEnv) (ops : List GateOp) :
    (runsFor cfg userId fundId signature cache (.dispatch now inv tx fundWallet env :: ops)
        = runsFor cfg userId fundId signature cache ops) ∨
    (cacheHas cache (txCacheKey inv.userId inv.fundId tx.signature) = false ∧
      ((GateOp.dispatch now inv tx fundWallet env).isDispatchFor userId fundId signature = false ∧
        runsFor cfg userId fundId signature cache (.dispatch now inv tx fundWallet env :: ops)
          = runsFor cfg userId fundId signature
              (cache ++ [(txCacheKey inv.userId inv.fundId tx.signature, now)]) ops
      ∨ (GateOp.dispatch now inv tx fundWallet env).isDispatchFor userId fundId signature = true ∧
        runsFor cfg userId fundId signature cache (.dispatch now inv tx fundWallet env :: ops)
          = executeCopyTrade cfg inv tx fundWallet tx.signature env ::
            runsFor cfg userId fundId signature
              (cache ++ [(txCacheKey inv.userId inv.fundId tx.signature, now)]) ops)) := by
  rcases copyTradeTask_cases cfg cache now inv tx fundWallet env with ⟨a, h, hne⟩ | ⟨hc, h⟩
  · left
    cases a with
    | executed run => exact absurd rfl (hne run)
    | skippedInactive => simp [runsFor, h]
    | approvalNotified => simp [runsFor, h]
    | cacheHit => simp [runsFor, h]
  · right
    refine ⟨hc, ?_⟩
    by_cases hd : (inv.userId == userId && inv.fundId == fundId && tx.signature == signature)
        = true
    · right
      exact ⟨hd, by simp only [runsFor, h, hd, if_true]⟩
    · left
      have hdf : (inv.userId == userId && inv.fundId == fundId && tx.signature == signature)
          = false := by simpa using hd
      refine ⟨hdf, ?_⟩
      simp only [runsFor, h, hdf]
      simp

theorem runsFor_no_dispatch (cfg : Config) (userId fundId signature : String) :
    ∀ (ops : List GateOp) (cache : ProcessedTransactions),
      (∀ op ∈ ops, op.isDispatchFor userId fundId signature = false) →
      runsFor cfg userId fundId signature cache ops = [] := by
  intro ops
  induction ops with
  | nil => intro cache _; rfl
  | cons op ops ih =>
    intro cache h
    have hrest : ∀ o ∈ ops, o.isDispatchFor userId fundId signature = false :=
      fun o ho => h o (List.mem_cons_of_mem _ ho)
    cases op with
    | sweep now => simpa [runsFor] using ih _ hrest
    | dispatch now inv tx fundWallet env =>
      have hop := h _ (List.mem_cons_self _ _)
      rcases runsFor_dispatch cfg userId fundId signature cache now inv tx fundWallet env ops
        with h1 | ⟨_, ⟨_, h1⟩ | ⟨hd, _⟩⟩
      · rw [h1]; exact ih _ hrest
      · rw [h1]; exact ih _ hrest
      · rw [hop] at hd; cases hd

theorem cacheHas_of_mem (cache : ProcessedTransactions) (key : String) (ts : Int)
    (h : (key, ts) ∈ cache) : cacheHas cache key = true := by
  simp only [cacheHas, List.any_eq_true]
  exact ⟨(key, ts), h, by simp⟩

theorem runsFor_marked (cfg : Config) (userId fundId signature : String) (t0 : Int) :
    ∀ (ops : List GateOp) (cache : ProcessedTransactions),
      ops.Pairwise (fun a b => a.time ≤ b.time) →
      (∀ op ∈ ops, op.isDispatchFor userId fundId signature = true →
        op.time ≤ t0 + 300000) →
      (∃ ts, (txCacheKey userId fundId signature, ts) ∈ cache ∧ t0 ≤ ts) →
      runsFor cfg userId fundId signature cache ops = [] := by
  intro ops
  induction ops with
  | nil => intro cache _ _ _; rfl
  | cons op ops ih =>
    intro cache hsorted hwin hmark
    obtain ⟨ts, hmem, hts⟩ := hmark
    have hsorted2 := (List.pairwise_cons.mp hsorted).2
    have hfirst := (List.pairwise_cons.mp hsorted).1
    have hwin2 : ∀ o ∈ ops, o.isDispatchFor userId fundId signature = true →
        o.time ≤ t0 + 300000 := fun o ho => hwin o (List.mem_cons_of_mem _ ho)
    cases op with
    | sweep now =>
      simp only [runsFor]
      by_cases hnow : now ≤ t0 + 300000
      · refine ih _ hsorted2 hwin2 ⟨ts, ?_, hts⟩
        simp only [sweepCache, List.mem_filter]
        refine ⟨hmem, ?_⟩
        simp only [Bool.not_eq_true', decide_eq_false_iff_not]
        omega
      · apply runsFor_no_dispatch
        intro o ho
        by_contra hd
        have hd2 : o.isDispatchFor userId fundId signature = true := by simpa using hd
        have h1 := hwin2 o ho hd2
        have h2 : now ≤ o.time := hfirst o ho
        omega
    | dispatch now inv tx fundWallet env =>
      rcases runsFor_dispatch cfg userId fundId signature cache now inv tx fundWallet env ops
        with h1 | ⟨hc, ⟨_, h1⟩ | ⟨hd, _⟩⟩
      · rw [h1]; exact ih _ hsorted2 hwin2 ⟨ts, hmem, hts⟩
      · rw [h1]
        exact ih _ hsorted2 hwin2 ⟨ts, List.mem_append_left _ hmem, hts⟩
      · simp only [GateOp.isDispatchFor, Bool.and_eq_true, beq_iff_eq] at hd
        obtain ⟨⟨hu, hf⟩, hs⟩ := hd
        rw [hu, hf, hs, cacheHas_of_mem cache _ ts hmem] at hc
        cases hc

theorem runsFor_window (cfg : Config) (userId fundId signature : String) (t0 : Int) :
    ∀ (ops : List GateOp) (cache : ProcessedTransactions),
      ops.Pairwise (fun a b => a.time ≤ b.time) →
      (∀ op ∈ ops, op.isDispatchFor userId fundId signature = true →
        t0 ≤ op.time ∧ op.time ≤ t0 + 300000) →
      runsFor cfg userId fundId signature cache ops = [] ∨
      ∃ inv tx fundWallet env, runsFor cfg userId fundId signature cache ops
        = [executeCopyTrade cfg inv tx fundWallet tx.signature env] := by
  intro ops
  induction ops with
  | nil => intro cache _ _; left; rfl
  | cons op ops ih =>
    intro cache hsorted hwin
    have hsorted2 := (List.pairwise_cons.mp hsorted).2
    have hwin2 : ∀ o ∈ ops, o.isDispatchFor userId fundId signature = true →
        t0 ≤ o.time ∧ o.time ≤ t0 + 300000 := fun o ho => hwin o (List.mem_cons_of_mem _ ho)
    cases op with
    | sweep now =>
      simp only [runsFor]
      exact ih _ hsorted2 hwin2
    | dispatch now inv tx fundWallet env =>
      rcases runsFor_dispatch cfg userId fundId signature cache now inv tx fundWallet env ops
        with h1 | ⟨_, ⟨_, h1⟩ | ⟨hd, h1⟩⟩
      · rw [h1]; exact ih _ hsorted2 hwin2
      · rw [h1]; exact ih _ hsorted2 hwin2
      · right
        refine ⟨inv, tx, fundWallet, env, ?_⟩
        rw [h1]
        have hnow : t0 ≤ now := (hwin _ (List.mem_cons_self _ _) hd).1
        simp only [GateOp.isDispatchFor, Bool.and_eq_true, beq_iff_eq] at hd
        obtain ⟨⟨hu, hf⟩, hs⟩ := hd
        rw [runsFor_marked cfg userId fundId signature t0 ops _ hsorted2
          (fun o ho h => (hwin2 o ho h).2) ⟨now, ?_, hnow⟩]
        rw [hu, hf, hs]
        simp

theorem firstDispatchTime_le (userId fundId signature : String) :
    ∀ (ops : List GateOp) (t0 : Int),
      ops.Pairwise (fun a b => a.time ≤ b.time) →
      firstDispatchTime userId fundId signature ops = some t0 →
      ∀ op ∈ ops, op.isDispatchFor userId fundId signature = true → t0 ≤ op.time := by
  intro ops
  induction ops with
  | nil => intro t0 _ h; simp [firstDispatchTime] at h
  | cons o ops ih =>
    intro t0 hsorted hfirst op hop hd
    have hsorted2 := (List.pairwise_cons.mp hsorted).2
    have hle := (List.pairwise_cons.mp hsorted).1
    by_cases ho : o.isDispatchFor userId fundId signature = true
    · have ht : o.time = t0 := by
        simpa [firstDispatchTime, List.find?, ho] using hfirst
      rcases List.mem_cons.mp hop with rfl | hmem
      · omega
      · have := hle op hmem
        omega
    · have hof : o.isDispatchFor userId fundId signature = false := by simpa using ho
      have hfirst2 : firstDispatchTime userId fundId signature ops = some t0 := by
        simpa [firstDispatchTime, List.find?, hof] using hfirst
      rcases List.mem_cons.mp hop with rfl | hmem
      · rw [hof] at hd; cases hd
      · exact ih t0 hsorted2 hfirst2 op hmem hd

theorem firstDispatchTime_none (userId fundId signature : String) (ops : List GateOp)
    (h : firstDispatchTime userId fundId signature ops = none) :
    ∀ op ∈ ops, op.isDispatchFor userId fundId signature = false := by
  intro op hop
  simp only [firstDispatchTime, Option.map_eq_none', List.find?_eq_none] at h
  simpa using h op hop

/-! ## What the validation part and the trade part emit -/

theorem sizeTrade_reads (inv : Investment) (e : AttemptEnv) (pubkey : String) (balanceSOL : ℚ)
    (tokenMint tokenSymbol : String) (isBuy : Bool) (uid : String) :
    ∃ tail, (sizeTrade inv e pubkey balanceSOL tokenMint tokenSymbol isBuy
        [.userRead uid, .decrypt, .balanceRead]).1 = .userRead uid :: tail ∧
      (tail = [] ∨ tail = [.decrypt] ∨ tail = [.decrypt, .balanceRead] ∨
        ∃ m, tail = [.decrypt, .balanceRead, .tokenAccountRead m]) := by
  unfold sizeTrade
  dsimp only
  repeat' split
  all_goals first
    | exact ⟨[.decrypt, .balanceRead], rfl, Or.inr (Or.inr (Or.inl rfl))⟩
    | exact ⟨[.decrypt, .balanceRead, .tokenAccountRead tokenMint], rfl,
        Or.inr (Or.inr (Or.inr ⟨_, rfl⟩))⟩

theorem validate_reads (inv : Investment) (tx : Tx) (fundWallet : Option String)
    (e : AttemptEnv) :
    ∃ tail, (validate inv tx fundWallet e).1 = .userRead inv.userId :: tail ∧
      (tail = [] ∨ tail = [.decrypt] ∨ tail = [.decrypt, .balanceRead] ∨
        ∃ m, tail = [.decrypt, .balanceRead, .tokenAccountRead m]) := by
  unfold validate
  repeat' split
  all_goals first
    | exact ⟨[], rfl, Or.inl rfl⟩
    | exact ⟨[.decrypt], rfl, Or.inr (Or.inl rfl)⟩
    | exact ⟨[.decrypt, .balanceRead], rfl, Or.inr (Or.inr (Or.inl rfl))⟩
    | exact sizeTrade_reads _ _ _ _ _ _ _ _

theorem validate_projections (inv : Investment) (tx : Tx) (fundWallet : Option String)
    (e : AttemptEnv) :
    quoteRequests (validate inv tx fundWallet e).1 = [] ∧
    waits (validate inv tx fundWallet e).1 = [] ∧
    recordAdds (validate inv tx fundWallet e).1 = [] ∧
    userReads (validate inv tx fundWallet e).1 = [inv.userId] := by
  rcases validate_reads inv tx fundWallet e with ⟨tail, h, rfl | rfl | rfl | ⟨m, rfl⟩⟩
  all_goals rw [h]
  all_goals simp [quoteRequests, waits, recordAdds, userReads]

theorem trade_quote_error (cfg : Config) (inv : Investment) (fundTxSignature : String)
    (startTime : Int) (retries : Nat) (e : AttemptEnv) (v : Validated) (m : String)
    (h : quoteError e = some m) :
    trade cfg inv fundTxSignature startTime retries e v
      = ([.quoteRequest v.inputMint v.outputMint v.amountInSmallestUnit cfg.slippageBps],
          .thrown m) := by
  unfold quoteError at h
  unfold trade
  cases hq : e.quote with
  | error m2 => rw [hq] at h; simp only at h ⊢; cases h; rfl
  | ok q =>
    cases q with
    | none => rw [hq] at h; simp only at h ⊢; cases h; rfl
    | some q => rw [hq] at h; simp at h

theorem attempt_quote_error (cfg : Config) (inv : Investment) (tx : Tx)
    (fundWallet : Option String) (fundTxSignature : String) (startTime : Int) (retries : Nat)
    (e : AttemptEnv) (pre : List Effect) (v : Validated) (m : String)
    (hv : validate inv tx fundWallet e = (pre, .inr v)) (h : quoteError e = some m) :
    attempt cfg inv tx fundWallet fundTxSignature startTime retries e
      = (pre ++ [.quoteRequest v.inputMint v.outputMint v.amountInSmallestUnit cfg.slippageBps],
          .thrown m) := by
  unfold attempt
  rw [hv]
  simp only [trade_quote_error cfg inv fundTxSignature startTime retries e v m h]

/-! ## Reads per attempt -/

theorem userReads_append (a b : List Effect) :
    userReads (a ++ b) = userReads a ++ userReads b := by
  simp [userReads, List.filterMap_append]

theorem balanceReads_append (a b : List Effect) :
    balanceReads (a ++ b) = balanceReads a + balanceReads b := by
  simp [balanceReads, List.filterMap_append]

theorem quoteRequests_append (a b : List Effect) :
    quoteRequests (a ++ b) = quoteRequests a ++ quoteRequests b := by
  simp [quoteRequests, List.filterMap_append]

theorem sizeTrade_balanceReads (inv : Investment) (e : AttemptEnv) (pubkey : String)
    (balanceSOL : ℚ) (tokenMint tokenSymbol : String) (isBuy : Bool) (uid : String) :
    balanceReads (sizeTrade inv e pubkey balanceSOL tokenMint tokenSymbol isBuy
      [.userRead uid, .decrypt, .balanceRead]).1 = 1 := by
  unfold sizeTrade
  dsimp only
  repeat' split
  all_goals simp [balanceReads]

theorem validate_balanceReads (inv : Investment) (tx : Tx) (fundWallet : Option String)
    (e : AttemptEnv) :
    balanceReads (validate inv tx fundWallet e).1 ≤ 1 ∧
    ∀ v, (validate inv tx fundWallet e).2 = .inr v →
      balanceReads (validate inv tx fundWallet e).1 = 1 := by
  unfold validate
  repeat' split
  all_goals first
    | exact ⟨le_of_eq (sizeTrade_balanceReads _ _ _ _ _ _ _ _),
        fun _ _ => sizeTrade_balanceReads _ _ _ _ _ _ _ _⟩
    | simp [balanceReads]

theorem trade_counts (cfg : Config) (inv : Investment) (fundTxSignature : String)
    (startTime : Int) (retries : Nat) (e : AttemptEnv) (v : Validated) :
    userReads (trade cfg inv fundTxSignature startTime retries e v).1 = [] ∧
    balanceReads (trade cfg inv fundTxSignature startTime retries e v).1 = 0 ∧
    (quoteRequests (trade cfg inv fundTxSignature startTime retries e v).1).length = 1 := by
  unfold trade
  dsimp only
  repeat' split
  all_goals simp [userReads, balanceReads, quoteRequests]

theorem attempt_counts (cfg : Config) (inv : Investment) (tx : Tx) (fundWallet : Option String)
    (fundTxSignature : String) (startTime : Int) (retries : Nat) (e : AttemptEnv) :
    userReads (attempt cfg inv tx fundWallet fundTxSignature startTime retries e).1
      = [inv.userId] ∧
    balanceReads (attempt cfg inv tx fundWallet fundTxSignature startTime retries e).1 ≤ 1 ∧
    (quoteRequests (attempt cfg inv tx fundWallet fundTxSignature startTime retries e).1).length
      ≤ balanceReads (attempt cfg inv tx fundWallet fundTxSignature startTime retries e).1 := by
  have hp := validate_projections inv tx fundWallet e
  have hb := validate_balanceReads inv tx fundWallet e
  unfold attempt
  rcases hval : validate inv tx fundWallet e with ⟨pre, stop | v⟩
  · rw [hval] at hp hb
    simp only at hp hb ⊢
    refine ⟨hp.2.2.2, hb.1, ?_⟩
    rw [hp.1]
    simp
  · rw [hval] at hp hb
    simp only at hp hb ⊢
    have ht := trade_counts cfg inv fundTxSignature startTime retries e v
    rw [userReads_append, balanceReads_append, quoteRequests_append, hp.2.2.2, hp.1, ht.1,
      ht.2.1, hb.2 v rfl, List.length_append, ht.2.2]
    simp

theorem retryLoop_counts (cfg : Config) (inv : Investment) (tx : Tx)
    (fundWallet : Option String) (fundTxSignature : String) (env : RunEnv) :
    ∀ (fuel retries : Nat), (cfg.maxRetries - (retries : Int)).toNat < fuel →
    ∀ r, retryLoop cfg inv tx fundWallet fundTxSignature env fuel retries = r →
      (userReads r.effects).length + retries = attemptsStarted r ∧
      balanceReads r.effects + retries ≤ attemptsStarted r ∧
      (quoteRequests r.effects).length ≤ balanceReads r.effects := by
  intro fuel
  induction fuel with
  | zero => intro retries h; omega
  | succ fuel ih =>
    intro retries hfuel r hr
    by_cases hlt : (retries : Int) < cfg.maxRetries
    · have hc := attempt_counts cfg inv tx fundWallet fundTxSignature env.startTime retries
        (env.attempts retries)
      rcases hatt : attempt cfg inv tx fundWallet fundTxSignature env.startTime retries
        (env.attempts retries) with ⟨effs, stop⟩
      rw [hatt] at hc
      simp only at hc
      obtain ⟨hu, hb, hq⟩ := hc
      cases stop with
      | succeeded =>
        simp only [retryLoop, hlt, if_true, hatt] at hr
        subst hr
        simp only [attemptsStarted, hu, List.length_singleton]
        omega
      | skipped why =>
        simp only [retryLoop, hlt, if_true, hatt] at hr
        subst hr
        simp only [attemptsStarted, hu, List.length_singleton]
        omega
      | thrown message =>
        by_cases hge : ((retries + 1 : Nat) : Int) ≥ cfg.maxRetries
        · cases hadd : (env.attempts retries).failedRecordAdd with
          | error m =>
            simp only [retryLoop, hlt, if_true, hatt, hge, hadd] at hr
            subst hr
            have e1 : ∀ x, userReads [Effect.recordAdd x false] = [] := fun _ => rfl
            have e2 : ∀ x, balanceReads [Effect.recordAdd x false] = 0 := fun _ => rfl
            have e3 : ∀ x, quoteRequests [Effect.recordAdd x false] = [] := fun _ => rfl
            simp only [attemptsStarted, userReads_append, balanceReads_append,
              quoteRequests_append, hu, List.length_append, List.length_singleton, e1, e2, e3,
              List.length_nil]
            omega
          | ok u =>
            obtain ⟨fuel2, rfl⟩ : ∃ k, fuel = k + 1 := ⟨fuel - 1, by omega⟩
            have hexit := retryLoop_exit cfg inv tx fundWallet fundTxSignature env fuel2
              (retries + 1) (by omega)
            simp only [retryLoop, hlt, if_true, hatt, hge, hadd] at hr
            simp only [retryLoop] at hexit
            rw [hexit] at hr
            subst hr
            have e1 : ∀ x y z, userReads [Effect.recordAdd x true, Effect.notifyFailure y z]
                = [] := fun _ _ _ => rfl
            have e2 : ∀ x y z, balanceReads [Effect.recordAdd x true, Effect.notifyFailure y z]
                = 0 := fun _ _ _ => rfl
            have e3 : ∀ x y z, quoteRequests [Effect.recordAdd x true, Effect.notifyFailure y z]
                = [] := fun _ _ _ => rfl
            have e4 : userReads [] = [] := rfl
            have e5 : balanceReads [] = 0 := rfl
            have e6 : quoteRequests [] = [] := rfl
            simp only [attemptsStarted, userReads_append, balanceReads_append,
              quoteRequests_append, hu, List.length_append, List.length_singleton, e1, e2, e3,
              e4, e5, e6, List.length_nil]
            omega
        · have hrec := ih (retries + 1) (by omega) _ rfl
          simp only [retryLoop, hlt, if_true, hatt, hge, if_false] at hr
          subst hr
          obtain ⟨h1, h2, h3⟩ := hrec
          have hA : attemptsStarted
              { retryLoop cfg inv tx fundWallet fundTxSignature env fuel (retries + 1) with
                effects := effs ++ [.wait (waitTime (retries + 1))] ++
                  (retryLoop cfg inv tx fundWallet fundTxSignature env fuel
                    (retries + 1)).effects }
              = attemptsStarted
                (retryLoop cfg inv tx fundWallet fundTxSignature env fuel (retries + 1)) := rfl
          rw [hA]
          simp only [userReads_append, balanceReads_append, quoteRequests_append, hu,
            List.length_append, List.length_singleton]
          have e1 : userReads [Effect.wait (waitTime (retries + 1))] = [] := rfl
          have e2 : balanceReads [Effect.wait (waitTime (retries + 1))] = 0 := rfl
          have e3 : quoteRequests [Effect.wait (waitTime (retries + 1))] = [] := rfl
          rw [e1, e2, e3]
          simp only [List.length_nil]
          omega
    · rw [retryLoop_exit _ _ _ _ _ _ _ _ hlt] at hr
      subst hr
      simp [attemptsStarted, userReads, balanceReads, quoteRequests]

/-! ## What a passed validation tells -/

theorem sizeTrade_inr (inv : Investment) (e : AttemptEnv) (pubkey : String) (balanceSOL : ℚ)
    (tokenMint tokenSymbol : String) (isBuy : Bool) (pre p : List Effect) (v : Validated)
    (h : sizeTrade inv e pubkey balanceSOL tokenMint tokenSymbol isBuy pre = (p, .inr v)) :
    v.tokenMint = tokenMint ∧ v.tokenSymbol = tokenSymbol ∧ v.isBuy = isBuy ∧
    ((isBuy = true ∧ ¬ balanceSOL < requiredBalance inv ∧ p = pre ∧
        v.inputMint = SOL_MINT ∧ v.outputMint = tokenMint ∧
        v.amountInSmallestUnit = buyAmount inv) ∨
     (isBuy = false ∧ ¬ balanceSOL < minBalanceForFees ∧ p = pre ++ [.tokenAccountRead tokenMint] ∧
        v.inputMint = tokenMint ∧ v.outputMint = SOL_MINT ∧
        ∃ B : Nat, e.tokenAccount = .ok B ∧
          v.amountInSmallestUnit = sellAmount inv B ∧
          v.amountInSmallestUnit ≠ 0)) := by
  unfold sizeTrade at h
  dsimp only at h
  split at h
  · rename_i hb
    split at h
    · simp at h
    · rename_i hbal
      simp only [Prod.mk.injEq, Sum.inr.injEq] at h
      obtain ⟨rfl, rfl⟩ := h
      exact ⟨rfl, rfl, hb.symm, Or.inl ⟨hb, hbal, rfl, rfl, rfl, rfl⟩⟩
  · rename_i hb
    have hb2 : isBuy = false := by simpa using hb
    split at h
    · simp at h
    · rename_i hbal
      split at h
      · simp at h
      · rename_i B hacc
        split at h
        · simp at h
        · rename_i hne
          simp only [Prod.mk.injEq, Sum.inr.injEq] at h
          obtain ⟨rfl, rfl⟩ := h
          exact ⟨rfl, rfl, hb2.symm, Or.inr ⟨hb2, hbal, rfl, rfl, rfl, B, hacc, rfl, hne⟩⟩

theorem validate_inr (inv : Investment) (tx : Tx) (fundWallet : Option String)
    (e : AttemptEnv) (p : List Effect) (v : Validated)
    (h : validate inv tx fundWallet e = (p, .inr v)) :
    ∃ doc hex pk b ts,
      e.userDoc = .ok doc ∧ doc.docExists = true ∧ truthy doc.encryptedPrivateKey = true ∧
      e.decrypted = .ok hex ∧ e.keypair = .ok pk ∧ e.balance = .ok b ∧
      tx.tokenTransfers = some ts ∧
      findTradedToken fundWallet ts = some (v.tokenMint, v.tokenSymbol, v.isBuy) ∧
      sizeTrade inv e pk (solBalance b) v.tokenMint v.tokenSymbol v.isBuy
        [.userRead inv.userId, .decrypt, .balanceRead] = (p, .inr v) := by
  unfold validate at h
  split at h
  · simp at h
  · rename_i doc hdoc
    split at h
    · simp at h
    · rename_i hex
      split at h
      · simp at h
      · rename_i hkey
        split at h
        · simp at h
        · rename_i hexs hdec
          split at h
          · simp at h
          · rename_i pk hkp
            split at h
            · simp at h
            · rename_i b hbal
              dsimp only at h
              split at h
              · simp at h
              · simp at h
              · rename_i t ts hts
                split at h
                · simp at h
                · rename_i mint sym isBuy hfind
                  have hs := sizeTrade_inr inv e pk _ mint sym isBuy _ p v h
                  obtain ⟨h1, h2, h3, _⟩ := hs
                  subst h1 h2 h3
                  exact ⟨doc, hexs, pk, b, t :: ts, hdoc, by simpa using hex,
                    by simpa using hkey, hdec, hkp, hbal, hts, hfind, h⟩

theorem validate_of_reads (inv : Investment) (tx : Tx) (fundWallet : Option String)
    (e : AttemptEnv) (doc : UserDoc) (hex pk : String) (b : Nat) (ts : List TokenTransfer)
    (mint sym : String) (isBuy : Bool)
    (hdoc : e.userDoc = .ok doc) (hex1 : doc.docExists = true)
    (hkey : truthy doc.encryptedPrivateKey = true) (hdec : e.decrypted = .ok hex)
    (hkp : e.keypair = .ok pk) (hbal : e.balance = .ok b) (hts : tx.tokenTransfers = some ts)
    (hfind : findTradedToken fundWallet ts = some (mint, sym, isBuy)) :
    validate inv tx fundWallet e
      = sizeTrade inv e pk (solBalance b) mint sym isBuy
          [.userRead inv.userId, .decrypt, .balanceRead] := by
  cases ts with
  | nil => simp [findTradedToken] at hfind
  | cons t ts =>
    unfold validate
    simp only [hdoc, hex1, hkey, hdec, hkp, hbal, hts, hfind]
    simp

theorem trade_quoteRequest_mem (cfg : Config) (inv : Investment) (fundTxSignature : String)
    (startTime : Int) (retries : Nat) (e : AttemptEnv) (v : Validated) (i o : String)
    (a s : Int)
    (h : Effect.quoteRequest i o a s ∈ (trade cfg inv fundTxSignature startTime retries e v).1) :
    i = v.inputMint ∧ o = v.outputMint ∧ a = v.amountInSmallestUnit := by
  unfold trade at h
  dsimp only at h
  repeat' split at h
  all_goals simp at h
  all_goals exact ⟨h.1, h.2.1, h.2.2.1⟩

theorem attempt_quoteRequest_mem (cfg : Config) (inv : Investment) (tx : Tx)
    (fundWallet : Option String) (fundTxSignature : String) (startTime : Int) (retries : Nat)
    (e : AttemptEnv) (i o : String) (a s : Int)
    (h : Effect.quoteRequest i o a s
      ∈ (attempt cfg inv tx fundWallet fundTxSignature startTime retries e).1) :
    ∃ pre v, validate inv tx fundWallet e = (pre, .inr v) ∧
      i = v.inputMint ∧ o = v.outputMint ∧ a = v.amountInSmallestUnit := by
  have hr := validate_reads inv tx fundWallet e
  unfold attempt at h
  rcases hval : validate inv tx fundWallet e with ⟨pre, stop | v⟩
  · rw [hval] at h hr
    simp only at h hr
    rcases hr with ⟨tail, rfl, rfl | rfl | rfl | ⟨m, rfl⟩⟩ <;> simp at h
  · rw [hval] at h hr
    simp only at h hr
    rcases List.mem_append.mp h with h1 | h1
    · rcases hr with ⟨tail, rfl, rfl | rfl | rfl | ⟨m, rfl⟩⟩ <;> simp at h1
    · exact ⟨pre, v, rfl, trade_quoteRequest_mem cfg inv fundTxSignature startTime retries e v
        i o a s h1⟩

theorem executeCopyTrade_first (cfg : Config) (inv : Investment) (tx : Tx)
    (fundWallet : Option String) (fundTxSignature : String) (env : RunEnv)
    (hmax : 0 < cfg.maxRetries) :
    (∀ why, (attempt cfg inv tx fundWallet fundTxSignature env.startTime 0
          (env.attempts 0)).2 = .skipped why →
      executeCopyTrade cfg inv tx fundWallet fundTxSignature env
        = { effects := (attempt cfg inv tx fundWallet fundTxSignature env.startTime 0
              (env.attempts 0)).1, outcome := .skipped why, retries := 0 }) ∧
    ∃ rest, (executeCopyTrade cfg inv tx fundWallet fundTxSignature env).effects
      = (attempt cfg inv tx fundWallet fundTxSignature env.startTime 0 (env.attempts 0)).1
        ++ rest := by
  have hlt : ((0 : Nat) : Int) < cfg.maxRetries := by simpa using hmax
  unfold executeCopyTrade
  rcases hatt : attempt cfg inv tx fundWallet fundTxSignature env.startTime 0
    (env.attempts 0) with ⟨effs, stop⟩
  cases stop with
  | succeeded =>
    simp only [retryLoop, hlt, if_true, hatt]
    exact ⟨fun _ hc => (by cases hc), [], by simp⟩
  | skipped why =>
    simp only [retryLoop, hlt, if_true, hatt]
    exact ⟨fun w hc => (by cases hc; rfl), [], by simp⟩
  | thrown message =>
    refine ⟨fun _ hc => (by cases hc), ?_⟩
    by_cases hge : ((0 + 1 : Nat) : Int) ≥ cfg.maxRetries
    · cases hadd : (env.attempts 0).failedRecordAdd with
      | error m =>
        simp only [retryLoop, hlt, if_true, hatt, hge, hadd]
        exact ⟨_, rfl⟩
      | ok u =>
        simp only [retryLoop, hlt, if_true, hatt, hge, hadd]
        exact ⟨_, by rw [List.append_assoc]⟩
    · simp only [retryLoop, hlt, if_true, hatt, hge, if_false]
      exact ⟨_, by rw [List.append_assoc]⟩

/-! ## Claims -/

/-- C1: for a triple (userId, fundId, signature) and any time-ordered sequence of atomic steps
on the shared cache (dispatches of any event to any investment, pushed or polled, and sweeps),
started from any cache: if every dispatch to the triple happens at most 300000 ms after the
first one, then `executeCopyTrade` is started for at most one of them, and the runs started for
the triple store at most one successful TradeRecord. -/
theorem dedup_window_at_most_one_run (cfg : Config) (userId fundId signature : String)
    (cache : ProcessedTransactions) (ops : List GateOp)
    (hsorted : ops.Pairwise (fun a b => a.time ≤ b.time))
    (hwindow : ∀ t0, firstDispatchTime userId fundId signature ops = some t0 →
      ∀ op ∈ ops, op.isDispatchFor userId fundId signature = true →
        op.time ≤ t0 + 300000) :
    (runsFor cfg userId fundId signature cache ops).length ≤ 1 ∧
    (successfulRecords (runsFor cfg userId fundId signature cache ops)).length ≤ 1 := by
  have hruns : runsFor cfg userId fundId signature cache ops = [] ∨
      ∃ inv tx fundWallet env, runsFor cfg userId fundId signature cache ops
        = [executeCopyTrade cfg inv tx fundWallet tx.signature env] := by
    cases hfirst : firstDispatchTime userId fundId signature ops with
    | none =>
      left
      exact runsFor_no_dispatch cfg userId fundId signature ops cache
        (firstDispatchTime_none userId fundId signature ops hfirst)
    | some t0 =>
      refine runsFor_window cfg userId fundId signature t0 ops cache hsorted ?_
      intro op hop hd
      exact ⟨firstDispatchTime_le userId fundId signature ops t0 hsorted hfirst op hop hd,
        hwindow t0 hfirst op hop hd⟩
  rcases hruns with h | ⟨inv, tx, fundWallet, env, h⟩
  · rw [h]; simp [successfulRecords]
  · rw [h]
    refine ⟨by simp, ?_⟩
    simp only [successfulRecords, List.append_nil]
    exact le_trans (List.length_filter_le _ _)
      (executeCopyTrade_appended_le_one cfg inv tx fundWallet tx.signature env)

/-- Witness for C1: push at 1000 ms, poll at 250000 ms, sweep at 300000 ms, poll at 301000 ms:
every dispatch is within the window and exactly one run is started. -/
theorem dedup_window_at_most_one_run_witness :
    (pushThenPoll.Pairwise (fun a b => a.time ≤ b.time)) ∧
    firstDispatchTime "u1" "f1" "sig1" pushThenPoll = some 1000 ∧
    (runsFor defaultConfig "u1" "f1" "sig1" [] pushThenPoll).length ≤ 1 ∧
    (successfulRecords (runsFor defaultConfig "u1" "f1" "sig1" [] pushThenPoll)).length ≤ 1 :=
  have hsorted : pushThenPoll.Pairwise (fun a b => a.time ≤ b.time) := by decide!
  have hfirst : firstDispatchTime "u1" "f1" "sig1" pushThenPoll = some 1000 := by decide!
  ⟨hsorted, hfirst,
    dedup_window_at_most_one_run defaultConfig "u1" "f1" "sig1" [] pushThenPoll hsorted
      (fun t0 h => by
        have ht : t0 = 1000 := by
          rw [hfirst] at h
          exact (Option.some.inj h).symm
        subst ht
        decide!)⟩

/-- C2: in every run of `executeCopyTrade`, whatever the collaborators answer, at most one
TradeRecord is stored: exactly one (a successful one) when the run ends in success, exactly one
(a failed one) when the run leaves the loop with the retries exhausted, none when it ends in a
validation skip or when an error escapes the catch block; a stored record is followed by
nothing but the notification that ends the run, so no non-final attempt stores a record. The
run always ends (the fuel of the embedding suffices). -/
theorem executeCopyTrade_stores_at_most_one (cfg : Config) (inv : Investment) (tx : Tx)
    (fundWallet : Option String) (fundTxSignature : String) (env : RunEnv) :
    (appended (executeCopyTrade cfg inv tx fundWallet fundTxSignature env).effects).length ≤ 1 ∧
    ((executeCopyTrade cfg inv tx fundWallet fundTxSignature env).outcome = .succeeded →
      ∃ rec, appended (executeCopyTrade cfg inv tx fundWallet fundTxSignature env).effects
        = [rec] ∧ rec.isSuccess = true) ∧
    ((executeCopyTrade cfg inv tx fundWallet fundTxSignature env).outcome = .exhausted →
      0 < (executeCopyTrade cfg inv tx fundWallet fundTxSignature env).retries →
      ∃ rec, appended (executeCopyTrade cfg inv tx fundWallet fundTxSignature env).effects
        = [rec] ∧ rec.isSuccess = false) ∧
    (∀ why, (executeCopyTrade cfg inv tx fundWallet fundTxSignature env).outcome
        = .skipped why →
      appended (executeCopyTrade cfg inv tx fundWallet fundTxSignature env).effects = []) ∧
    (∀ m, (executeCopyTrade cfg inv tx fundWallet fundTxSignature env).outcome = .threw m →
      appended (executeCopyTrade cfg inv tx fundWallet fundTxSignature env).effects = []) ∧
    (∀ pre rec post, (executeCopyTrade cfg inv tx fundWallet fundTxSignature env).effects
        = pre ++ .recordAdd rec true :: post →
      post = [.notifySuccess inv.userId] ∨ ∃ m, post = [.notifyFailure inv.userId m]) ∧
    (executeCopyTrade cfg inv tx fundWallet fundTxSignature env).outcome ≠ .outOfFuel := by
  refine ⟨executeCopyTrade_appended_le_one cfg inv tx fundWallet fundTxSignature env, ?_⟩
  rcases executeCopyTrade_shape cfg inv tx fundWallet fundTxSignature env _ rfl with
    ⟨ho, body, rec, h, hb, hs⟩ | ⟨why, ho, h⟩ | ⟨ho, hz, h⟩ | ⟨ho, hz, body, rec, m, h, hb, hs⟩ |
    ⟨m, ho, h⟩
  · have happ := appended_body_record body rec (.notifySuccess inv.userId) hb rfl
    rw [← h] at happ
    refine ⟨fun _ => ⟨rec, happ, hs⟩, ?_, ?_, ?_, ?_, ?_⟩
    · intro hc; rw [ho] at hc; cases hc
    · intro w hc; rw [ho] at hc; cases hc
    · intro w hc; rw [ho] at hc; cases hc
    · intro pre rec2 post hp
      rw [h] at hp
      exact Or.inl (record_is_last rec rec2 (.notifySuccess inv.userId) rfl body pre post hb hp)
    · rw [ho]; simp
  · refine ⟨?_, ?_, fun _ _ => h, ?_, ?_, ?_⟩
    · intro hc; rw [ho] at hc; cases hc
    · intro hc; rw [ho] at hc; cases hc
    · intro w hc; rw [ho] at hc; cases hc
    · intro pre rec2 post hp
      exact (no_record_of_appended_nil _ pre post rec2 h hp).elim
    · rw [ho]; simp
  · have happ : appended (executeCopyTrade cfg inv tx fundWallet fundTxSignature env).effects
        = [] := by rw [h]; rfl
    refine ⟨?_, ?_, ?_, ?_, ?_, ?_⟩
    · intro hc; rw [ho] at hc; cases hc
    · intro _ hc; rw [hz] at hc; exact absurd hc (by simp)
    · intro w hc; rw [ho] at hc; cases hc
    · intro w hc; rw [ho] at hc; cases hc
    · intro pre rec2 post hp
      exact (no_record_of_appended_nil _ pre post rec2 happ hp).elim
    · rw [ho]; simp
  · have happ := appended_body_record body rec (.notifyFailure inv.userId m) hb rfl
    rw [← h] at happ
    refine ⟨?_, fun _ _ => ⟨rec, happ, hs⟩, ?_, ?_, ?_, ?_⟩
    · intro hc; rw [ho] at hc; cases hc
    · intro w hc; rw [ho] at hc; cases hc
    · intro w hc; rw [ho] at hc; cases hc
    · intro pre rec2 post hp
      rw [h] at hp
      exact Or.inr ⟨m, record_is_last rec rec2 (.notifyFailure inv.userId m) rfl body pre post hb hp⟩
    · rw [ho]; simp
  · refine ⟨?_, ?_, ?_, fun _ _ => h, ?_, ?_⟩
    · intro hc; rw [ho] at hc; cases hc
    · intro hc; rw [ho] at hc; cases hc
    · intro w hc; rw [ho] at hc; cases hc
    · intro pre rec2 post hp
      exact (no_record_of_appended_nil _ pre post rec2 h hp).elim
    · rw [ho]; simp

/-- Witness for C2: a run in which every quote request is rejected leaves the loop with the
retries exhausted and stores exactly one record, a failed one. -/
theorem executeCopyTrade_stores_at_most_one_witness :
    (executeCopyTrade defaultConfig follower buyTx (some leaderWallet) "sig1"
        { startTime := 1000, attempts := fun _ => quoteFails }).outcome = .exhausted ∧
    0 < (executeCopyTrade defaultConfig follower buyTx (some leaderWallet) "sig1"
        { startTime := 1000, attempts := fun _ => quoteFails }).retries ∧
    ∃ rec, appended (executeCopyTrade defaultConfig follower buyTx (some leaderWallet) "sig1"
        { startTime := 1000, attempts := fun _ => quoteFails }).effects = [rec] ∧
      rec.isSuccess = false :=
  ⟨by decide!, by decide!,
    (executeCopyTrade_stores_at_most_one defaultConfig follower buyTx (some leaderWallet) "sig1"
      { startTime := 1000, attempts := fun _ => quoteFails }).2.2.1 (by decide!) (by decide!)⟩

/-- C3, evaluated at the failing input: the first attempt submits a swap that is confirmed
without error, the store rejects the record, and the retry submits a second swap that is
confirmed too; the run ends in success with one stored record and two executed swaps. -/
theorem executeCopyTrade_resubmits_after_confirmation :
    (executeCopyTrade defaultConfig follower buyTx (some leaderWallet) "sig1"
        storeFailsOnce).outcome = .succeeded ∧
    swapSubmits (executeCopyTrade defaultConfig follower buyTx (some leaderWallet) "sig1"
        storeFailsOnce).effects = 2 ∧
    (executeCopyTrade defaultConfig follower buyTx (some leaderWallet) "sig1"
        storeFailsOnce).effects.filter
        (fun eff => decide (eff = .swapSubmit) || decide (eff = .confirmed "copySig"))
      = [.swapSubmit, .confirmed "copySig", .swapSubmit, .confirmed "copySig"] ∧
    (appended (executeCopyTrade defaultConfig follower buyTx (some leaderWallet) "sig1"
        storeFailsOnce).effects).length = 1 := by
  decide!

/-- C4: with the default cap (MAX_RETRIES = 3), for every buy run whose three attempts pass
validation and whose quote request fails in each of them (rejected, or answered without data):
exactly 3 quote requests are made, the waits between the attempts are min(200*2^(k-1), 1000) ms
for k = 1, 2, that is 200 ms and 400 ms, and then the run issues exactly one record append,
of a record with isSuccess false, amount 0, price 0, totalValue 0 and the message of the last
error; when the store accepts it, it is the one record the run stored. -/
theorem quote_failure_exhausts_three_attempts (cfg : Config) (inv : Investment) (tx : Tx)
    (fundWallet : Option String) (fundTxSignature : String) (env : RunEnv) (msg : Nat → String)
    (hcfg : cfg.maxRetries = MAX_RETRIES none)
    (hbuy : ∀ n, n < 3 → ∃ pre v,
      validate inv tx fundWallet (env.attempts n) = (pre, .inr v) ∧ v.isBuy = true)
    (hquote : ∀ n, n < 3 → quoteError (env.attempts n) = some (msg n)) :
    (quoteRequests (executeCopyTrade cfg inv tx fundWallet fundTxSignature env).effects).length
      = 3 ∧
    waits (executeCopyTrade cfg inv tx fundWallet fundTxSignature env).effects
      = [min (200 * 2 ^ ((1 : ℤ) - 1)) 1000, min (200 * 2 ^ ((2 : ℤ) - 1)) 1000] ∧
    waits (executeCopyTrade cfg inv tx fundWallet fundTxSignature env).effects = [200, 400] ∧
    (∃ stored, recordAdds (executeCopyTrade cfg inv tx fundWallet fundTxSignature env).effects
      = [(failedRecord inv tx fundTxSignature 3 (env.attempts 2) (msg 2), stored)]) ∧
    (failedRecord inv tx fundTxSignature 3 (env.attempts 2) (msg 2)).isSuccess = false ∧
    (failedRecord inv tx fundTxSignature 3 (env.attempts 2) (msg 2)).amount = 0 ∧
    (failedRecord inv tx fundTxSignature 3 (env.attempts 2) (msg 2)).price = 0 ∧
    (failedRecord inv tx fundTxSignature 3 (env.attempts 2) (msg 2)).totalValue = 0 ∧
    (failedRecord inv tx fundTxSignature 3 (env.attempts 2) (msg 2)).errorMessage
      = some (msg 2) ∧
    ((env.attempts 2).failedRecordAdd = .ok () →
      appended (executeCopyTrade cfg inv tx fundWallet fundTxSignature env).effects
        = [failedRecord inv tx fundTxSignature 3 (env.attempts 2) (msg 2)] ∧
      (executeCopyTrade cfg inv tx fundWallet fundTxSignature env).outcome = .exhausted) := by
  obtain ⟨pre0, v0, hv0, _⟩ := hbuy 0 (by omega)
  obtain ⟨pre1, v1, hv1, _⟩ := hbuy 1 (by omega)
  obtain ⟨pre2, v2, hv2, _⟩ := hbuy 2 (by omega)
  have h0 := attempt_quote_error cfg inv tx fundWallet fundTxSignature env.startTime 0
    (env.attempts 0) pre0 v0 (msg 0) hv0 (hquote 0 (by omega))
  have h1 := attempt_quote_error cfg inv tx fundWallet fundTxSignature env.startTime 1
    (env.attempts 1) pre1 v1 (msg 1) hv1 (hquote 1 (by omega))
  have h2 := attempt_quote_error cfg inv tx fundWallet fundTxSignature env.startTime 2
    (env.attempts 2) pre2 v2 (msg 2) hv2 (hquote 2 (by omega))
  have p0 := validate_projections inv tx fundWallet (env.attempts 0)
  have p1 := validate_projections inv tx fundWallet (env.attempts 1)
  have p2 := validate_projections inv tx fundWallet (env.attempts 2)
  have a0 := validate_appended inv tx fundWallet (env.attempts 0)
  have a1 := validate_appended inv tx fundWallet (env.attempts 1)
  have a2 := validate_appended inv tx fundWallet (env.attempts 2)
  rw [hv0] at p0 a0
  rw [hv1] at p1 a1
  rw [hv2] at p2 a2
  obtain ⟨q0, w0, r0, _⟩ := p0
  obtain ⟨q1, w1, r1, _⟩ := p1
  obtain ⟨q2, w2, r2, _⟩ := p2
  simp only [quoteRequests, waits, recordAdds, appended] at q0 q1 q2 w0 w1 w2 r0 r1 r2 a0 a1 a2
  have hfuel : cfg.maxRetries.toNat + 1 = 4 := by rw [hcfg]; rfl
  have hmax : cfg.maxRetries = 3 := by rw [hcfg]; rfl
  have hw1 : waitTime 1 = 200 := by decide!
  have hw2 : waitTime 2 = 400 := by decide!
  have hm1 : min (200 * 2 ^ ((1 : ℤ) - 1)) 1000 = (200 : ℚ) := by norm_num
  have hm2 : min (200 * 2 ^ ((2 : ℤ) - 1)) 1000 = (400 : ℚ) := by norm_num
  rw [hm1, hm2]
  unfold executeCopyTrade
  rw [hfuel]
  cases hadd : (env.attempts 2).failedRecordAdd with
  | error m =>
    simp [retryLoop, hmax, h0, h1, h2, hadd, quoteRequests, waits, recordAdds, appended,
      List.filterMap_append, q0, q1, q2, w0, w1, w2, r0, r1, r2, a0, a1, a2, hw1, hw2,
      failedRecord]
  | ok u =>
    simp [retryLoop, hmax, h0, h1, h2, hadd, quoteRequests, waits, recordAdds, appended,
      List.filterMap_append, q0, q1, q2, w0, w1, w2, r0, r1, r2, a0, a1, a2, hw1, hw2,
      failedRecord]

/-- Witness for C4: the follower with 10 SOL at 50 percent copies a buy while every quote
request is rejected with the same message. -/
theorem quote_failure_exhausts_three_attempts_witness :
    (quoteRequests (executeCopyTrade defaultConfig follower buyTx (some leaderWallet) "sig1"
      quoteAlwaysFails).effects).length = 3 ∧
    waits (executeCopyTrade defaultConfig follower buyTx (some leaderWallet) "sig1"
      quoteAlwaysFails).effects = [200, 400] ∧
    appended (executeCopyTrade defaultConfig follower buyTx (some leaderWallet) "sig1"
      quoteAlwaysFails).effects
      = [failedRecord follower buyTx "sig1" 3 quoteFails
          "Request failed with status code 429"] :=
  have h := quote_failure_exhausts_three_attempts defaultConfig follower buyTx
    (some leaderWallet) "sig1" quoteAlwaysFails (fun _ => "Request failed with status code 429")
    rfl
    (fun _ _ => ⟨[.userRead "u1", .decrypt, .balanceRead],
      { userPublicKey := "FollowerPubkey", tokenMint := tokenMintA, tokenSymbol := "USDC",
        isBuy := true, inputMint := SOL_MINT, outputMint := tokenMintA,
        amountInSmallestUnit := 5000000000 },
      (by decide! : validate follower buyTx (some leaderWallet) quoteFails
        = ([.userRead "u1", .decrypt, .balanceRead], .inr
            { userPublicKey := "FollowerPubkey", tokenMint := tokenMintA, tokenSymbol := "USDC",
              isBuy := true, inputMint := SOL_MINT, outputMint := tokenMintA,
              amountInSmallestUnit := 5000000000 })), rfl⟩)
    (fun _ _ => (by decide! : quoteError quoteFails
      = some "Request failed with status code 429"))
  ⟨h.1, h.2.2.1, (h.2.2.2.2.2.2.2.2.2 rfl).1⟩

/-- C5, counterexample: the first attempt passes validation and fails at the quote, a retry
follows after 200 ms, and the retry reads the user record, decrypts the secret and reads the
balance again; the balance has dropped to 1 SOL, so the retry ends in a validation skip. -/
theorem retry_checks_balance_again :
    executeCopyTrade defaultConfig follower buyTx (some leaderWallet) "sig1" balanceDrops
      = { effects := [.userRead "u1", .decrypt, .balanceRead,
            .quoteRequest SOL_MINT tokenMintA 5000000000 500, .wait 200,
            .userRead "u1", .decrypt, .balanceRead],
          outcome := .skipped .insufficientBalance, retries := 1 } := by
  decide!

/-- C5, amended: a retry restarts from the top of the loop body. In every run the user record
is read once in every attempt started, the balance is read at most once per attempt, and every
quote request has a balance read of its own: validation runs again before each retry quotes. -/
theorem every_attempt_validates_again (cfg : Config) (inv : Investment) (tx : Tx)
    (fundWallet : Option String) (fundTxSignature : String) (env : RunEnv) :
    (userReads (executeCopyTrade cfg inv tx fundWallet fundTxSignature env).effects).length
      = attemptsStarted (executeCopyTrade cfg inv tx fundWallet fundTxSignature env) ∧
    balanceReads (executeCopyTrade cfg inv tx fundWallet fundTxSignature env).effects
      ≤ attemptsStarted (executeCopyTrade cfg inv tx fundWallet fundTxSignature env) ∧
    (quoteRequests (executeCopyTrade cfg inv tx fundWallet fundTxSignature env).effects).length
      ≤ balanceReads (executeCopyTrade cfg inv tx fundWallet fundTxSignature env).effects := by
  have h := retryLoop_counts cfg inv tx fundWallet fundTxSignature env
    (cfg.maxRetries.toNat + 1) 0 (by simp) _ rfl
  exact ⟨by simpa using h.1, by simpa using h.2.1, h.2.2⟩

/-! ## Rounding to the nearest double -/

theorem log2Fuel_spec : ∀ (fuel n : Nat), 0 < n → n ≤ fuel →
    2 ^ log2Fuel fuel n ≤ n ∧ n < 2 ^ (log2Fuel fuel n + 1) := by
  intro fuel
  induction fuel with
  | zero => intro n h0 h1; omega
  | succ fuel ih =>
    intro n h0 h1
    unfold log2Fuel
    by_cases h2 : n < 2
    · rw [if_pos h2]
      constructor
      · simpa using h0
      · simpa using h2
    · rw [if_neg h2]
      have hhalf := ih (n / 2) (by omega) (by omega)
      have hd : 2 * (n / 2) ≤ n := Nat.mul_div_le n 2
      have hu : n < 2 * (n / 2) + 2 := by omega
      constructor
      · rw [pow_succ]
        omega
      · rw [pow_succ]
        omega

theorem floorLog2_spec (n : Nat) (h : 0 < n) :
    2 ^ floorLog2 n ≤ n ∧ n < 2 ^ (floorLog2 n + 1) :=
  log2Fuel_spec n n h (le_refl n)

theorem twoPow_eq (e : Int) : twoPow e = (2 : ℚ) ^ e := by
  unfold twoPow
  split
  · rename_i h
    have : e = (e.toNat : Int) := (Int.toNat_of_nonneg h).symm
    conv_rhs => rw [this]
    rw [zpow_natCast]
    push_cast
    rfl
  · rename_i h
    have h2 : -e = ((-e).toNat : Int) := (Int.toNat_of_nonneg (by omega)).symm
    have h3 : e = -((-e).toNat : Int) := by omega
    conv_rhs => rw [h3]
    rw [zpow_neg, zpow_natCast]
    push_cast
    rw [one_div]

theorem twoPow_pos (e : Int) : 0 < twoPow e := by
  rw [twoPow_eq]
  positivity

theorem twoPow_mono {a b : Int} (h : a ≤ b) : twoPow a ≤ twoPow b := by
  rw [twoPow_eq, twoPow_eq]
  exact zpow_le_zpow_right₀ (by norm_num) h

theorem twoPow_lt_iff {a b : Int} : twoPow a < twoPow b ↔ a < b := by
  rw [twoPow_eq, twoPow_eq]
  exact zpow_lt_zpow_iff_right₀ (by norm_num)

theorem twoPow_add (a b : Int) : twoPow (a + b) = twoPow a * twoPow b := by
  rw [twoPow_eq, twoPow_eq, twoPow_eq]
  exact zpow_add₀ (by norm_num) a b

theorem twoPow_natCast (n : Nat) : twoPow (n : Int) = ((2 ^ n : Nat) : ℚ) := by
  rw [twoPow_eq, zpow_natCast]
  push_cast
  rfl

theorem abs_eq_natAbs_div_den (x : ℚ) : |x| = (x.num.natAbs : ℚ) / (x.den : ℚ) := by
  have h := Rat.num_div_den x
  conv_lhs => rw [← h]
  rw [abs_div, Nat.abs_cast, Nat.cast_natAbs, Int.cast_abs]

theorem binade_spec (x : ℚ) (hx : x ≠ 0) :
    twoPow (binade x) ≤ |x| ∧ |x| < twoPow (binade x + 1) := by
  have hn0 : 0 < x.num.natAbs := Int.natAbs_pos.mpr (Rat.num_ne_zero.mpr hx)
  have hd0 : 0 < x.den := x.den_pos
  obtain ⟨hn1, hn2⟩ := floorLog2_spec x.num.natAbs hn0
  obtain ⟨hd1, hd2⟩ := floorLog2_spec x.den hd0
  have hn1q : twoPow (floorLog2 x.num.natAbs : Int) ≤ (x.num.natAbs : ℚ) := by
    rw [twoPow_natCast]; exact_mod_cast hn1
  have hn2q : (x.num.natAbs : ℚ) < twoPow ((floorLog2 x.num.natAbs : Int) + 1) := by
    have : ((floorLog2 x.num.natAbs : Int) + 1) = ((floorLog2 x.num.natAbs + 1 : Nat) : Int) := by
      push_cast; rfl
    rw [this, twoPow_natCast]; exact_mod_cast hn2
  have hd1q : twoPow (floorLog2 x.den : Int) ≤ (x.den : ℚ) := by
    rw [twoPow_natCast]; exact_mod_cast hd1
  have hd2q : (x.den : ℚ) < twoPow ((floorLog2 x.den : Int) + 1) := by
    have : ((floorLog2 x.den : Int) + 1) = ((floorLog2 x.den + 1 : Nat) : Int) := by
      push_cast; rfl
    rw [this, twoPow_natCast]; exact_mod_cast hd2
  have hdq : (0 : ℚ) < (x.den : ℚ) := by exact_mod_cast hd0
  have habs := abs_eq_natAbs_div_den x
  -- bounds on |x| in terms of k0
  have hup : |x| < twoPow ((floorLog2 x.num.natAbs : Int) - (floorLog2 x.den : Int) + 1) := by
    rw [habs, div_lt_iff₀ hdq]
    have e1 : twoPow ((floorLog2 x.num.natAbs : Int) - (floorLog2 x.den : Int) + 1)
        * twoPow (floorLog2 x.den : Int) = twoPow ((floorLog2 x.num.natAbs : Int) + 1) := by
      rw [← twoPow_add]; congr 1; ring
    calc (x.num.natAbs : ℚ) < twoPow ((floorLog2 x.num.natAbs : Int) + 1) := hn2q
      _ = twoPow ((floorLog2 x.num.natAbs : Int) - (floorLog2 x.den : Int) + 1)
            * twoPow (floorLog2 x.den : Int) := e1.symm
      _ ≤ twoPow ((floorLog2 x.num.natAbs : Int) - (floorLog2 x.den : Int) + 1) * (x.den : ℚ) :=
          mul_le_mul_of_nonneg_left hd1q (le_of_lt (twoPow_pos _))
  have hlo : twoPow ((floorLog2 x.num.natAbs : Int) - (floorLog2 x.den : Int) - 1) ≤ |x| := by
    rw [habs, le_div_iff₀ hdq]
    have e1 : twoPow ((floorLog2 x.num.natAbs : Int) - (floorLog2 x.den : Int) - 1)
        * twoPow ((floorLog2 x.den : Int) + 1) = twoPow (floorLog2 x.num.natAbs : Int) := by
      rw [← twoPow_add]; congr 1; ring
    calc twoPow ((floorLog2 x.num.natAbs : Int) - (floorLog2 x.den : Int) - 1) * (x.den : ℚ)
        ≤ twoPow ((floorLog2 x.num.natAbs : Int) - (floorLog2 x.den : Int) - 1)
            * twoPow ((floorLog2 x.den : Int) + 1) :=
          mul_le_mul_of_nonneg_left (le_of_lt hd2q) (le_of_lt (twoPow_pos _))
      _ = twoPow (floorLog2 x.num.natAbs : Int) := e1
      _ ≤ (x.num.natAbs : ℚ) := hn1q
  unfold binade
  simp only
  split
  · rename_i hlt
    refine ⟨hlo, ?_⟩
    have : (floorLog2 x.num.natAbs : Int) - (floorLog2 x.den : Int) - 1 + 1
        = (floorLog2 x.num.natAbs : Int) - (floorLog2 x.den : Int) := by ring
    rw [this]
    exact hlt
  · rename_i hge
    exact ⟨not_lt.mp hge, hup⟩

theorem roundHalfEven_error (m : ℚ) : |(roundHalfEven m : ℚ) - m| ≤ 1 / 2 := by
  have h1 : (⌊m⌋ : ℚ) ≤ m := Int.floor_le m
  have h2 : m < (⌊m⌋ : ℚ) + 1 := Int.lt_floor_add_one m
  unfold roundHalfEven
  simp only
  rw [abs_le]
  split
  · constructor <;> linarith
  · split
    · push_cast
      constructor <;> linarith
    · split
      · constructor <;> linarith
      · push_cast
        constructor <;> linarith

theorem roundHalfEven_intCast (z : Int) : roundHalfEven (z : ℚ) = z := by
  unfold roundHalfEven
  simp

theorem toDouble_error (x : ℚ) (hx : x ≠ 0) :
    |toDouble x - x| ≤ twoPow (max (binade x - 52) (-1074)) / 2 := by
  unfold toDouble
  rw [if_neg hx]
  simp only
  have hp := twoPow_pos (max (binade x - 52) (-1074))
  have he := roundHalfEven_error (x / twoPow (max (binade x - 52) (-1074)))
  have hrw : (roundHalfEven (x / twoPow (max (binade x - 52) (-1074))) : ℚ)
        * twoPow (max (binade x - 52) (-1074)) - x
      = ((roundHalfEven (x / twoPow (max (binade x - 52) (-1074))) : ℚ)
          - x / twoPow (max (binade x - 52) (-1074)))
        * twoPow (max (binade x - 52) (-1074)) := by
    field_simp
  rw [hrw, abs_mul, abs_of_pos hp]
  calc |(roundHalfEven (x / twoPow (max (binade x - 52) (-1074))) : ℚ)
          - x / twoPow (max (binade x - 52) (-1074))| * twoPow (max (binade x - 52) (-1074))
      ≤ 1 / 2 * twoPow (max (binade x - 52) (-1074)) :=
        mul_le_mul_of_nonneg_right he (le_of_lt hp)
    _ = twoPow (max (binade x - 52) (-1074)) / 2 := by ring

theorem binade_lt_of_abs_lt (x : ℚ) (hx : x ≠ 0) (k : Int) (h : |x| < twoPow k) :
    binade x < k := by
  have h1 := (binade_spec x hx).1
  exact twoPow_lt_iff.mp (lt_of_le_of_lt h1 h)

theorem toDouble_intCast (z : Int) (h : |(z : ℚ)| < twoPow 53) : toDouble (z : ℚ) = z := by
  by_cases hz : (z : ℚ) = 0
  · rw [hz]; rfl
  · have hb := binade_lt_of_abs_lt (z : ℚ) hz 53 h
    unfold toDouble
    rw [if_neg hz]
    simp only
    have he : max (binade (z : ℚ) - 52) (-1074) ≤ 0 := by
      apply max_le <;> omega
    obtain ⟨n, hn⟩ : ∃ n : Nat, max (binade (z : ℚ) - 52) (-1074) = -(n : Int) :=
      ⟨(-(max (binade (z : ℚ) - 52) (-1074))).toNat, by omega⟩
    rw [hn]
    have hpow : twoPow (-(n : Int)) = 1 / ((2 ^ n : Nat) : ℚ) := by
      rw [twoPow_eq, zpow_neg, zpow_natCast]
      push_cast
      rw [one_div]
    have hpos : (0 : ℚ) < ((2 ^ n : Nat) : ℚ) := by positivity
    have hdiv : (z : ℚ) / twoPow (-(n : Int)) = ((z * (2 ^ n : Nat) : Int) : ℚ) := by
      rw [hpow]
      push_cast
      field_simp
    rw [hdiv, roundHalfEven_intCast, hpow]
    push_cast
    field_simp

theorem toDouble_natCast (n : Nat) (h : n < 2 ^ 53) : toDouble (n : ℚ) = n := by
  have := toDouble_intCast (n : Int) (by
    rw [twoPow_eq]
    have : ((n : Int) : ℚ) = (n : ℚ) := by push_cast; rfl
    rw [this, abs_of_nonneg (Nat.cast_nonneg n)]
    have h2 : (n : ℚ) < ((2 ^ 53 : Nat) : ℚ) := by exact_mod_cast h
    calc (n : ℚ) < ((2 ^ 53 : Nat) : ℚ) := h2
      _ = (2 : ℚ) ^ (53 : Int) := by norm_num)
  simpa using this

theorem toDouble_zero : toDouble 0 = 0 := rfl

theorem toDouble_rel_error (x : ℚ) (h : twoPow (-1022) ≤ |x|) :
    |toDouble x - x| ≤ |x| / 2 ^ 53 := by
  have hx : x ≠ 0 := by
    intro h0
    rw [h0, abs_zero] at h
    exact absurd h (not_le.mpr (twoPow_pos _))
  obtain ⟨hlo, hhi⟩ := binade_spec x hx
  have hb : -1022 < binade x + 1 := twoPow_lt_iff.mp (lt_of_le_of_lt h hhi)
  have he : max (binade x - 52) (-1074) = binade x - 52 := max_eq_left (by omega)
  have herr := toDouble_error x hx
  rw [he] at herr
  have hsplit : twoPow (binade x - 52) = twoPow (binade x) / 2 ^ 52 := by
    have : binade x - 52 = binade x + (-52) := by ring
    rw [this, twoPow_add]
    have h52 : twoPow (-52) = 1 / 2 ^ 52 := by
      rw [twoPow_eq, zpow_neg, one_div]
      norm_num
    rw [h52]
    ring
  rw [hsplit] at herr
  calc |toDouble x - x| ≤ twoPow (binade x) / 2 ^ 52 / 2 := herr
    _ = twoPow (binade x) / 2 ^ 53 := by ring
    _ ≤ |x| / 2 ^ 53 := by
        apply div_le_div_of_nonneg_right hlo
        positivity

theorem floor_toDouble_div_hundred (n : Nat) (h : n < 2 ^ 53) :
    ⌊toDouble ((n : ℚ) / 100)⌋ = ((n / 100 : Nat) : Int) := by
  by_cases h0 : n % 100 = 0
  · -- the quotient is a whole number
    have hq : (n : ℚ) / 100 = ((n / 100 : Nat) : ℚ) := by
      have hn : n = 100 * (n / 100) := by omega
      conv_lhs => rw [hn]
      push_cast
      field_simp
    rw [hq, toDouble_natCast _ (by omega)]
    exact Int.floor_natCast _
  · have hn0 : n ≠ 0 := by
      intro hz
      rw [hz] at h0
      exact h0 rfl
    have hx : (n : ℚ) / 100 ≠ 0 := by
      have : (0 : ℚ) < n := by exact_mod_cast Nat.pos_of_ne_zero hn0
      positivity
    have hxpos : (0 : ℚ) ≤ (n : ℚ) / 100 := by positivity
    have hlt : |(n : ℚ) / 100| < twoPow 47 := by
      rw [abs_of_nonneg hxpos, twoPow_eq]
      have h1 : (n : ℚ) < ((2 ^ 53 : Nat) : ℚ) := by exact_mod_cast h
      have h2 : ((2 ^ 53 : Nat) : ℚ) = 2 ^ 53 := by norm_num
      rw [h2] at h1
      have h3 : (2 : ℚ) ^ (47 : Int) = 2 ^ 47 := by norm_num
      rw [h3, div_lt_iff₀ (by norm_num)]
      calc (n : ℚ) < 2 ^ 53 := h1
        _ ≤ 2 ^ 47 * 100 := by norm_num
    have hb := binade_lt_of_abs_lt _ hx 47 hlt
    have he : max (binade ((n : ℚ) / 100) - 52) (-1074) ≤ -6 := by
      apply max_le <;> omega
    have herr := toDouble_error _ hx
    have hpow : twoPow (max (binade ((n : ℚ) / 100) - 52) (-1074)) ≤ 1 / 64 := by
      calc twoPow (max (binade ((n : ℚ) / 100) - 52) (-1074)) ≤ twoPow (-6) := twoPow_mono he
        _ = 1 / 64 := by
            rw [twoPow_eq, zpow_neg, one_div]
            norm_num
    have herr2 : |toDouble ((n : ℚ) / 100) - (n : ℚ) / 100| ≤ 1 / 128 := by
      calc |toDouble ((n : ℚ) / 100) - (n : ℚ) / 100|
          ≤ twoPow (max (binade ((n : ℚ) / 100) - 52) (-1074)) / 2 := herr
        _ ≤ 1 / 64 / 2 := by
            apply div_le_div_of_nonneg_right hpow
            norm_num
        _ = 1 / 128 := by norm_num
    rw [abs_le] at herr2
    -- the exact quotient lies between q + 1/100 and q + 99/100
    have hdm : (n : ℚ) = 100 * ((n / 100 : Nat) : ℚ) + ((n % 100 : Nat) : ℚ) := by
      have := Nat.div_add_mod n 100
      exact_mod_cast this.symm
    have hr1 : (1 : ℚ) ≤ ((n % 100 : Nat) : ℚ) := by
      exact_mod_cast Nat.one_le_iff_ne_zero.mpr h0
    have hr2 : ((n % 100 : Nat) : ℚ) ≤ 99 := by
      have : n % 100 ≤ 99 := by omega
      exact_mod_cast this
    have hxq : (n : ℚ) / 100 = ((n / 100 : Nat) : ℚ) + ((n % 100 : Nat) : ℚ) / 100 := by
      field_simp
      linarith [hdm]
    rw [Int.floor_eq_iff, Int.cast_natCast]
    constructor
    · have : ((n / 100 : Nat) : ℚ) + 1 / 100 ≤ (n : ℚ) / 100 := by
        rw [hxq]; linarith
      linarith [herr2.1]
    · have : (n : ℚ) / 100 ≤ ((n / 100 : Nat) : ℚ) + 99 / 100 := by
        rw [hxq]; linarith
      linarith [herr2.2]

theorem sellAmount_whole_percentage (inv : Investment) (amount percentage : Nat)
    (hp : inv.purchaseSizePercentage = percentage) (h : amount * percentage < 2 ^ 53) :
    sellAmount inv amount = ((amount * percentage / 100 : Nat) : Int) := by
  unfold sellAmount jsDiv jsMul
  rw [hp]
  by_cases hp0 : percentage = 0
  · subst hp0
    simp [toDouble_zero]
  · by_cases ha0 : amount = 0
    · subst ha0
      simp [toDouble_zero]
    · have hpp : percentage < 2 ^ 53 := by
        calc percentage = 1 * percentage := (Nat.one_mul _).symm
          _ ≤ amount * percentage :=
              Nat.mul_le_mul_right _ (Nat.one_le_iff_ne_zero.mpr ha0)
          _ < 2 ^ 53 := h
      have ha : amount < 2 ^ 53 := by
        calc amount = amount * 1 := (Nat.mul_one _).symm
          _ ≤ amount * percentage :=
              Nat.mul_le_mul_left _ (Nat.one_le_iff_ne_zero.mpr hp0)
          _ < 2 ^ 53 := h
      rw [toDouble_natCast amount ha, toDouble_natCast percentage hpp]
      have hprod : (amount : ℚ) * (percentage : ℚ) = ((amount * percentage : Nat) : ℚ) := by
        push_cast; rfl
      rw [hprod, toDouble_natCast _ h]
      exact floor_toDouble_div_hundred _ h

theorem jsDiv_jsMul_rel_error (a p : ℚ) (h : twoPow (-1000) ≤ |a * p|) :
    |jsDiv (jsMul a p) 100 - a * p / 100| ≤ |a * p / 100| / 2 ^ 51 := by
  unfold jsDiv jsMul
  have hA : (0 : ℚ) < |a * p| := lt_of_lt_of_le (twoPow_pos _) h
  have h1022 : twoPow (-1022) ≤ |a * p| :=
    le_trans (twoPow_mono (by norm_num)) h
  have hr1 := toDouble_rel_error (a * p) h1022
  -- the rounded product is between half and twice the exact one
  have hup : |toDouble (a * p)| ≤ 2 * |a * p| := by
    have e : toDouble (a * p) = (toDouble (a * p) - a * p) + a * p := by ring
    calc |toDouble (a * p)| = |(toDouble (a * p) - a * p) + a * p| := by rw [← e]
      _ ≤ |toDouble (a * p) - a * p| + |a * p| := abs_add _ _
      _ ≤ |a * p| / 2 ^ 53 + |a * p| := by linarith
      _ ≤ 2 * |a * p| := by
          have : |a * p| / 2 ^ 53 ≤ |a * p| := div_le_self (le_of_lt hA) (by norm_num)
          linarith
  have hlow : |a * p| / 2 ≤ |toDouble (a * p)| := by
    have e : a * p = (a * p - toDouble (a * p)) + toDouble (a * p) := by ring
    have h2 : |a * p| ≤ |a * p - toDouble (a * p)| + |toDouble (a * p)| := by
      calc |a * p| = |(a * p - toDouble (a * p)) + toDouble (a * p)| := by rw [← e]
        _ ≤ |a * p - toDouble (a * p)| + |toDouble (a * p)| := abs_add _ _
    rw [abs_sub_comm] at h2
    have h3 : |a * p| / 2 ^ 53 ≤ |a * p| / 2 :=
      div_le_div_of_nonneg_left (le_of_lt hA) (by norm_num) (by norm_num)
    linarith
  have habs : |toDouble (a * p) / 100| = |toDouble (a * p)| / 100 := by
    rw [abs_div]
    norm_num
  have h2range : twoPow (-1022) ≤ |toDouble (a * p) / 100| := by
    rw [habs]
    have e1 : twoPow (-1000) = twoPow (-1022) * twoPow 22 := by
      rw [← twoPow_add]; norm_num
    have e2 : twoPow 22 = 4194304 := by
      rw [twoPow_eq]; norm_num
    have hpos := twoPow_pos (-1022)
    rw [e1, e2] at h
    rw [le_div_iff₀ (by norm_num)]
    nlinarith
  have hr2 := toDouble_rel_error (toDouble (a * p) / 100) h2range
  rw [habs] at hr2
  have habs2 : |a * p / 100| = |a * p| / 100 := by
    rw [abs_div]
    norm_num
  rw [habs2]
  have e : toDouble (toDouble (a * p) / 100) - a * p / 100
      = (toDouble (toDouble (a * p) / 100) - toDouble (a * p) / 100)
        + (toDouble (a * p) - a * p) / 100 := by ring
  have h4 : |(toDouble (a * p) - a * p) / 100| = |toDouble (a * p) - a * p| / 100 := by
    rw [abs_div]
    norm_num
  calc |toDouble (toDouble (a * p) / 100) - a * p / 100|
      = |(toDouble (toDouble (a * p) / 100) - toDouble (a * p) / 100)
          + (toDouble (a * p) - a * p) / 100| := by rw [← e]
    _ ≤ |toDouble (toDouble (a * p) / 100) - toDouble (a * p) / 100|
          + |(toDouble (a * p) - a * p) / 100| := abs_add _ _
    _ ≤ |toDouble (a * p)| / 100 / 2 ^ 53 + |a * p| / 2 ^ 53 / 100 := by
        rw [h4]
        have : |toDouble (a * p) - a * p| / 100 ≤ |a * p| / 2 ^ 53 / 100 :=
          div_le_div_of_nonneg_right hr1 (by norm_num)
        linarith
    _ ≤ 2 * |a * p| / 100 / 2 ^ 53 + |a * p| / 2 ^ 53 / 100 := by
        have : |toDouble (a * p)| / 100 / 2 ^ 53 ≤ 2 * |a * p| / 100 / 2 ^ 53 := by
          apply div_le_div_of_nonneg_right _ (by norm_num)
          apply div_le_div_of_nonneg_right hup (by norm_num)
        linarith
    _ ≤ |a * p| / 100 / 2 ^ 51 := by
        have e3 : 2 * |a * p| / 100 / 2 ^ 53 + |a * p| / 2 ^ 53 / 100
            = 3 / 4 * (|a * p| / 100 / 2 ^ 51) := by
          field_simp
          ring
        rw [e3]
        have : (0 : ℚ) ≤ |a * p| / 100 / 2 ^ 51 := by positivity
        linarith

/-! ## Sizing of a trade -/

/-- C6: with 3 SOL allocated at 67 percent the exact share is 2.01 SOL and 2010000000
lamports; the trade amount the executor computes is the double below 2.01, and the buy asks
for a quote of 2009999999 lamports. -/
theorem rounded_share_differs_from_exact_share :
    oddBuyer.allocatedAmount * oddBuyer.purchaseSizePercentage / 100 = 201 / 100 ∧
    tradeAmount oddBuyer ≠ oddBuyer.allocatedAmount * oddBuyer.purchaseSizePercentage / 100 ∧
    ⌊oddBuyer.allocatedAmount * oddBuyer.purchaseSizePercentage / 100 * 1000000000⌋
      = 2010000000 ∧
    quoteRequests (executeCopyTrade defaultConfig oddBuyer buyTx (some leaderWallet) "sig1"
      okRun).effects = [(SOL_MINT, tokenMintA, 2009999999)] := by
  decide!

/-- C6, amended: for an investment whose two amounts are doubles with a product below the
overflow range, the trade amount is allocatedAmount * purchaseSizePercentage / 100 evaluated in
double arithmetic, the product and the quotient each rounded to the nearest double: it equals
the exact value when the exact product and quotient are doubles (10 and 50 give 5), it lies
within a relative error of 2^-51 of the exact value when the product is not below 2^-1000, and
a buy asks the router to quote floor(tradeAmount * 1e9) lamports, the product rounded again. -/
theorem tradeAmount_is_rounded_share_of_allocation (inv : Investment)
    (ha : toDouble inv.allocatedAmount = inv.allocatedAmount)
    (hp : toDouble inv.purchaseSizePercentage = inv.purchaseSizePercentage)
    (_hfinite : |inv.allocatedAmount * inv.purchaseSizePercentage| < twoPow 990) :
    tradeAmount inv
      = toDouble (toDouble (inv.allocatedAmount * inv.purchaseSizePercentage) / 100) ∧
    (toDouble (inv.allocatedAmount * inv.purchaseSizePercentage)
        = inv.allocatedAmount * inv.purchaseSizePercentage →
      toDouble (inv.allocatedAmount * inv.purchaseSizePercentage / 100)
        = inv.allocatedAmount * inv.purchaseSizePercentage / 100 →
      tradeAmount inv = inv.allocatedAmount * inv.purchaseSizePercentage / 100) ∧
    (twoPow (-1000) ≤ |inv.allocatedAmount * inv.purchaseSizePercentage| →
      |tradeAmount inv - inv.allocatedAmount * inv.purchaseSizePercentage / 100|
        ≤ |inv.allocatedAmount * inv.purchaseSizePercentage / 100| / 2 ^ 51) ∧
    (inv.allocatedAmount = 10 → inv.purchaseSizePercentage = 50 → tradeAmount inv = 5) ∧
    (∀ tx fundWallet e pre v, validate inv tx fundWallet e = (pre, .inr v) → v.isBuy = true →
      v.amountInSmallestUnit = ⌊toDouble (tradeAmount inv * 1000000000)⌋) := by
  have hdef : tradeAmount inv
      = toDouble (toDouble (inv.allocatedAmount * inv.purchaseSizePercentage) / 100) := by
    unfold tradeAmount jsDiv jsMul
    rw [ha, hp]
  refine ⟨hdef, ?_, ?_, ?_, ?_⟩
  · intro h1 h2
    rw [hdef, h1, h2]
  · intro hrange
    rw [hdef]
    exact jsDiv_jsMul_rel_error _ _ hrange
  · intro h10 h50
    unfold tradeAmount
    rw [h10, h50]
    exact (by decide! : jsDiv (jsMul (toDouble 10) (toDouble 50)) 100 = 5)
  · intro tx fundWallet e pre v hv hbuy
    obtain ⟨doc, hex, pk, b, ts, _, _, _, _, _, _, _, _, hs⟩ :=
      validate_inr inv tx fundWallet e pre v hv
    rcases (sizeTrade_inr inv e pk _ _ _ _ _ pre v hs).2.2.2 with h | h
    · exact h.2.2.2.2.2
    · rw [hbuy] at h
      exact absurd h.1 (by simp)

/-- Witness for C6: 10 SOL allocated at 50 percent trade 5 SOL, quoted as 5000000000
lamports. -/
theorem tradeAmount_is_rounded_share_of_allocation_witness :
    tradeAmount follower = 5 ∧
    quoteRequests (executeCopyTrade defaultConfig follower buyTx (some leaderWallet) "sig1"
      okRun).effects = [(SOL_MINT, tokenMintA, 5000000000)] :=
  ⟨(tradeAmount_is_rounded_share_of_allocation follower (by decide!) (by decide!)
      (by decide!)).2.2.2.1 rfl rfl, by decide!⟩

/-- C7: a follower holding 6850587380031161 units who sells 100 percent asks for a quote of
6850587380031162 units, one more than floor(B * p / 100) and one more than is held. -/
theorem sell_amount_exceeds_holdings :
    (largeHolder.attempts 0).tokenAccount = .ok 6850587380031161 ∧
    ⌊((6850587380031161 : Nat) : ℚ) * wholeSeller.purchaseSizePercentage / 100⌋
      = 6850587380031161 ∧
    quoteRequests (executeCopyTrade defaultConfig wholeSeller sellTx (some leaderWallet) "sig2"
      largeHolder).effects = [(tokenMintA, SOL_MINT, 6850587380031162)] :=
  ⟨rfl, by decide!, by decide!⟩

/-- C7, amended: on the sell path, for a token balance B that fits 64 bits and a percentage p
below the overflow range, the amount an attempt asks the router to quote is
floor((Number(B) * p) / 100) evaluated in double arithmetic, where B is the follower's own
token balance read in that attempt; for a whole-number percentage with B * p below 2^53 this
is exactly B * p / 100 rounded down; the sold token is the input of the quote and the base
asset its output. -/
theorem sell_amount_is_rounded_share_of_holdings (cfg : Config) (inv : Investment) (tx : Tx)
    (fundWallet : Option String) (fundTxSignature : String) (startTime : Int) (retries : Nat)
    (e : AttemptEnv) (ts : List TokenTransfer) (mint sym i o : String) (a s : Int)
    (hts : tx.tokenTransfers = some ts)
    (hsell : findTradedToken fundWallet ts = some (mint, sym, false))
    (_hbits : ∀ B, e.tokenAccount = .ok B → B < 2 ^ 64)
    (_hfinite : |inv.purchaseSizePercentage| < twoPow 900)
    (hq : Effect.quoteRequest i o a s
      ∈ (attempt cfg inv tx fundWallet fundTxSignature startTime retries e).1) :
    ∃ B : Nat, e.tokenAccount = .ok B ∧
      a = ⌊toDouble (toDouble (toDouble (B : ℚ) * toDouble inv.purchaseSizePercentage)
            / 100)⌋ ∧
      (∀ P : Nat, inv.purchaseSizePercentage = P → B * P < 2 ^ 53 →
        a = ((B * P / 100 : Nat) : Int)) ∧
      i = mint ∧ o = SOL_MINT := by
  obtain ⟨pre, v, hv, hi, ho, ha⟩ := attempt_quoteRequest_mem cfg inv tx fundWallet
    fundTxSignature startTime retries e i o a s hq
  obtain ⟨doc, hex, pk, b, ts2, _, _, _, _, _, _, hts2, hfind, hs⟩ :=
    validate_inr inv tx fundWallet e pre v hv
  rw [hts] at hts2
  cases hts2
  rw [hsell] at hfind
  simp only [Option.some.injEq, Prod.mk.injEq] at hfind
  obtain ⟨hm, _, hb⟩ := hfind
  rcases (sizeTrade_inr inv e pk _ _ _ _ _ pre v hs).2.2.2 with h | h
  · rw [← hb] at h
    exact absurd h.1 (by simp)
  · obtain ⟨_, _, _, hin, hout, B, hacc, hamt, _⟩ := h
    refine ⟨B, hacc, by rw [ha, hamt]; rfl, ?_, by rw [hi, hin, hm], by rw [ho, hout]⟩
    intro P hP hlt
    rw [ha, hamt]
    exact sellAmount_whole_percentage inv B P hP hlt

/-- Witness for C7: a follower holding 1000 units who sells 25 percent asks for a quote of
250 units. -/
theorem sell_amount_is_rounded_share_of_holdings_witness :
    Effect.quoteRequest tokenMintA SOL_MINT 250 500
      ∈ (attempt defaultConfig quarterSeller sellTx (some leaderWallet) "sig2" 1000 0
          okAttempt).1 ∧
    ∃ B : Nat, okAttempt.tokenAccount = .ok B ∧
      (250 : Int) = ⌊toDouble (toDouble (toDouble (B : ℚ)
            * toDouble quarterSeller.purchaseSizePercentage) / 100)⌋ ∧
      (∀ P : Nat, quarterSeller.purchaseSizePercentage = P → B * P < 2 ^ 53 →
        (250 : Int) = ((B * P / 100 : Nat) : Int)) ∧
      tokenMintA = tokenMintA ∧ SOL_MINT = SOL_MINT :=
  ⟨by decide!,
    sell_amount_is_rounded_share_of_holdings defaultConfig quarterSeller sellTx
      (some leaderWallet) "sig2" 1000 0 okAttempt _ tokenMintA "USDC" tokenMintA SOL_MINT 250
      500 rfl (by decide!)
      (fun B hB => by
        have h : B = 1000 := by
          have := hB
          simp only [okAttempt, Except.ok.injEq] at this
          exact this.symm
        rw [h]
        norm_num)
      (by decide!) (by decide!)⟩

/-- C8: a follower with 1 SOL allocated at 10 percent and a balance of 103000000 lamports
holds exactly the exact trade amount plus 0.003 SOL, yet the run is skipped for insufficient
balance: in double arithmetic 0.1 + 0.003 is the double above 0.103. -/
theorem balance_at_exact_threshold_is_skipped :
    tenthBuyer.allocatedAmount * tenthBuyer.purchaseSizePercentage / 100 + 3 / 1000
      ≤ ((103000000 : Nat) : ℚ) / 1000000000 ∧
    (thresholdBalance.attempts 0).balance = .ok 103000000 ∧
    solBalance 103000000 < requiredBalance tenthBuyer ∧
    executeCopyTrade defaultConfig tenthBuyer buyTx (some leaderWallet) "sig1" thresholdBalance
      = { effects := [.userRead tenthBuyer.userId, .decrypt, .balanceRead],
          outcome := .skipped .insufficientBalance, retries := 0 } :=
  ⟨by decide!, rfl, by decide!, by decide!⟩

/-- C8, amended: on the buy path (the first attempt has read the user record, the secret and a
balance of b lamports that fits 64 bits, and the event is classified as a buy) the run makes a
quote request if and only if the double b / 1e9 is not less than the double sum
tradeAmount + 0.003; otherwise the run ends at once, having made the three reads only: no quote
request, no record, no wait and no further attempt. -/
theorem buy_proceeds_iff_rounded_balance_covers_buffer (cfg : Config) (inv : Investment)
    (tx : Tx) (fundWallet : Option String) (fundTxSignature : String) (env : RunEnv)
    (doc : UserDoc) (hex pk : String) (b : Nat) (ts : List TokenTransfer) (mint sym : String)
    (hmax : 0 < cfg.maxRetries)
    (hdoc : (env.attempts 0).userDoc = .ok doc) (hex1 : doc.docExists = true)
    (hkey : truthy doc.encryptedPrivateKey = true)
    (hdec : (env.attempts 0).decrypted = .ok hex) (hkp : (env.attempts 0).keypair = .ok pk)
    (hbal : (env.attempts 0).balance = .ok b) (_hbits : b < 2 ^ 64)
    (hts : tx.tokenTransfers = some ts)
    (hbuy : findTradedToken fundWallet ts = some (mint, sym, true)) :
    (quoteRequests (executeCopyTrade cfg inv tx fundWallet fundTxSignature env).effects ≠ []
      ↔ toDouble (tradeAmount inv + toDouble (3 / 1000))
          ≤ toDouble (toDouble (b : ℚ) / 1000000000)) ∧
    (toDouble (toDouble (b : ℚ) / 1000000000)
        < toDouble (tradeAmount inv + toDouble (3 / 1000)) →
      executeCopyTrade cfg inv tx fundWallet fundTxSignature env
        = { effects := [.userRead inv.userId, .decrypt, .balanceRead],
            outcome := .skipped .insufficientBalance, retries := 0 }) := by
  show (quoteRequests (executeCopyTrade cfg inv tx fundWallet fundTxSignature env).effects ≠ []
      ↔ requiredBalance inv ≤ solBalance b) ∧
    (solBalance b < requiredBalance inv →
      executeCopyTrade cfg inv tx fundWallet fundTxSignature env
        = { effects := [.userRead inv.userId, .decrypt, .balanceRead],
            outcome := .skipped .insufficientBalance, retries := 0 })
  have hval := validate_of_reads inv tx fundWallet (env.attempts 0) doc hex pk b ts mint sym
    true hdoc hex1 hkey hdec hkp hbal hts hbuy
  obtain ⟨hskip, rest, hrest⟩ := executeCopyTrade_first cfg inv tx fundWallet fundTxSignature
    env hmax
  have hlow : solBalance b < requiredBalance inv →
      executeCopyTrade cfg inv tx fundWallet fundTxSignature env
        = { effects := [.userRead inv.userId, .decrypt, .balanceRead],
            outcome := .skipped .insufficientBalance, retries := 0 } := by
    intro hb
    have hatt : attempt cfg inv tx fundWallet fundTxSignature env.startTime 0 (env.attempts 0)
        = ([.userRead inv.userId, .decrypt, .balanceRead],
            .skipped .insufficientBalance) := by
      unfold attempt
      rw [hval]
      simp [sizeTrade, hb]
    have h := hskip .insufficientBalance (by rw [hatt])
    rw [hatt] at h
    exact h
  refine ⟨⟨?_, ?_⟩, hlow⟩
  · intro hq
    by_contra hb
    rw [hlow (not_le.mp hb)] at hq
    exact hq rfl
  · intro hb
    have hnb : ¬ solBalance b < requiredBalance inv := not_lt.mpr hb
    have hatt : ∃ v, (attempt cfg inv tx fundWallet fundTxSignature env.startTime 0
        (env.attempts 0)).1 = [.userRead inv.userId, .decrypt, .balanceRead]
          ++ (trade cfg inv fundTxSignature env.startTime 0 (env.attempts 0) v).1 := by
      unfold attempt
      rw [hval]
      simp only [sizeTrade, hnb, if_true, if_false]
      exact ⟨_, rfl⟩
    obtain ⟨v, hatt⟩ := hatt
    have hone := (trade_counts cfg inv fundTxSignature env.startTime 0 (env.attempts 0) v).2.2
    intro hq
    rw [hrest, hatt, quoteRequests_append, quoteRequests_append] at hq
    have hlen := congrArg List.length hq
    simp only [List.length_append, hone, List.length_nil] at hlen
    omega

/-- Witness for C8: a follower with 0.001 SOL whose trade amount is 1 SOL is skipped. -/
theorem buy_proceeds_iff_rounded_balance_covers_buffer_witness :
    tradeAmount smallBuyer = 1 ∧
    executeCopyTrade defaultConfig smallBuyer buyTx (some leaderWallet) "sig1" dustBalance
      = { effects := [.userRead smallBuyer.userId, .decrypt, .balanceRead],
          outcome := .skipped .insufficientBalance, retries := 0 } :=
  ⟨by decide!,
    (buy_proceeds_iff_rounded_balance_covers_buffer defaultConfig smallBuyer buyTx
      (some leaderWallet) "sig1" dustBalance
      { docExists := true, encryptedPrivateKey := some "nonce+ciphertext" }
      "00ff" "FollowerPubkey" 1000000 buyTransfers tokenMintA "USDC" (by decide!) rfl rfl rfl
      rfl rfl rfl (by norm_num) rfl (by decide!)).2 (by decide!)⟩

/-- C9, counterexample: the follower's fee buffer is covered, the token account exists and
holds 1 unit, the purchase size is 50 percent: the holding is not zero, yet the run is skipped
for lack of tokens and no quote request is made. -/
theorem dust_holding_is_skipped :
    (executeCopyTrade defaultConfig follower sellTx (some leaderWallet) "sig2"
        dustHolder).outcome = .skipped .noTokensToSell ∧
    quoteRequests (executeCopyTrade defaultConfig follower sellTx (some leaderWallet) "sig2"
        dustHolder).effects = [] ∧
    (dustHolder.attempts 0).tokenAccount = .ok 1 := by
  refine ⟨by decide!, by decide!, rfl⟩

/-- C9, amended: on the sell path, when the follower's balance covers the fee buffer (the
double b / 1e9 is at least 0.001) and the token account exists with a 64-bit balance B, the run is
skipped for lack of tokens exactly when the amount to sell, floor((Number(B) * p) / 100)
evaluated in double arithmetic, is zero, which includes the zero holding; the run makes a quote
request exactly when that amount is not zero. -/
theorem sell_skipped_iff_rounded_amount_is_zero (cfg : Config) (inv : Investment) (tx : Tx)
    (fundWallet : Option String) (fundTxSignature : String) (env : RunEnv)
    (doc : UserDoc) (hex pk : String) (b B : Nat) (ts : List TokenTransfer) (mint sym : String)
    (hmax : 0 < cfg.maxRetries)
    (hdoc : (env.attempts 0).userDoc = .ok doc) (hex1 : doc.docExists = true)
    (hkey : truthy doc.encryptedPrivateKey = true)
    (hdec : (env.attempts 0).decrypted = .ok hex) (hkp : (env.attempts 0).keypair = .ok pk)
    (hbal : (env.attempts 0).balance = .ok b) (hts : tx.tokenTransfers = some ts)
    (hsell : findTradedToken fundWallet ts = some (mint, sym, false))
    (hfee : toDouble (1 / 1000) ≤ toDouble (toDouble (b : ℚ) / 1000000000))
    (hacc : (env.attempts 0).tokenAccount = .ok B) (_hbits : B < 2 ^ 64) :
    (⌊toDouble (toDouble (toDouble (B : ℚ) * toDouble inv.purchaseSizePercentage) / 100)⌋ = 0 →
      executeCopyTrade cfg inv tx fundWallet fundTxSignature env
        = { effects := [.userRead inv.userId, .decrypt, .balanceRead, .tokenAccountRead mint],
            outcome := .skipped .noTokensToSell, retries := 0 }) ∧
    (quoteRequests (executeCopyTrade cfg inv tx fundWallet fundTxSignature env).effects ≠ []
      ↔ ⌊toDouble (toDouble (toDouble (B : ℚ) * toDouble inv.purchaseSizePercentage)
            / 100)⌋ ≠ 0) ∧
    (B = 0 →
      ⌊toDouble (toDouble (toDouble (B : ℚ) * toDouble inv.purchaseSizePercentage) / 100)⌋
        = 0) := by
  show (sellAmount inv B = 0 →
      executeCopyTrade cfg inv tx fundWallet fundTxSignature env
        = { effects := [.userRead inv.userId, .decrypt, .balanceRead, .tokenAccountRead mint],
            outcome := .skipped .noTokensToSell, retries := 0 }) ∧
    (quoteRequests (executeCopyTrade cfg inv tx fundWallet fundTxSignature env).effects ≠ []
      ↔ sellAmount inv B ≠ 0) ∧
    (B = 0 → sellAmount inv B = 0)
  have hval := validate_of_reads inv tx fundWallet (env.attempts 0) doc hex pk b ts mint sym
    false hdoc hex1 hkey hdec hkp hbal hts hsell
  have hnf : ¬ solBalance b < minBalanceForFees := not_lt.mpr hfee
  obtain ⟨hskip, rest, hrest⟩ := executeCopyTrade_first cfg inv tx fundWallet fundTxSignature
    env hmax
  have hzero : sellAmount inv B = 0 →
      executeCopyTrade cfg inv tx fundWallet fundTxSignature env
        = { effects := [.userRead inv.userId, .decrypt, .balanceRead, .tokenAccountRead mint],
            outcome := .skipped .noTokensToSell, retries := 0 } := by
    intro hz
    have hatt : attempt cfg inv tx fundWallet fundTxSignature env.startTime 0 (env.attempts 0)
        = ([.userRead inv.userId, .decrypt, .balanceRead, .tokenAccountRead mint],
            .skipped .noTokensToSell) := by
      unfold attempt
      rw [hval]
      simp only [sizeTrade, hnf, hacc, hz, if_true, if_false, Bool.false_eq_true]
      rfl
    have h := hskip .noTokensToSell (by rw [hatt])
    rw [hatt] at h
    exact h
  refine ⟨hzero, ⟨?_, ?_⟩, ?_⟩
  · intro hq hz
    rw [hzero hz] at hq
    exact hq rfl
  · intro hnz
    have hatt : ∃ v, (attempt cfg inv tx fundWallet fundTxSignature env.startTime 0
        (env.attempts 0)).1
          = [.userRead inv.userId, .decrypt, .balanceRead, .tokenAccountRead mint]
          ++ (trade cfg inv fundTxSignature env.startTime 0 (env.attempts 0) v).1 := by
      unfold attempt
      rw [hval]
      simp only [sizeTrade, hnf, hacc, hnz, if_false, Bool.false_eq_true]
      exact ⟨_, rfl⟩
    obtain ⟨v, hatt⟩ := hatt
    have hone := (trade_counts cfg inv fundTxSignature env.startTime 0 (env.attempts 0) v).2.2
    intro hq
    rw [hrest, hatt, quoteRequests_append, quoteRequests_append] at hq
    have hlen := congrArg List.length hq
    simp only [List.length_append, hone, List.length_nil] at hlen
    omega
  · intro hB
    rw [hB]
    simp [sellAmount, jsDiv, jsMul, toDouble_zero]

/-- Witness for C9: the follower holding 1 unit at 50 percent has a rounded amount of 0 and is
skipped after the four reads; a follower holding 9 units at 11.11111111111111 percent has a
rounded amount of 1, where the exact floor is 0, and asks for a quote. -/
theorem sell_skipped_iff_rounded_amount_is_zero_witness :
    executeCopyTrade defaultConfig follower sellTx (some leaderWallet) "sig2" dustHolder
      = { effects := [.userRead follower.userId, .decrypt, .balanceRead,
            .tokenAccountRead tokenMintA],
          outcome := .skipped .noTokensToSell, retries := 0 } ∧
    ⌊((9 : Nat) : ℚ) * ninthSeller.purchaseSizePercentage / 100⌋ = 0 ∧
    quoteRequests (executeCopyTrade defaultConfig ninthSeller sellTx (some leaderWallet) "sig2"
      nineHolder).effects = [(tokenMintA, SOL_MINT, 1)] :=
  ⟨(sell_skipped_iff_rounded_amount_is_zero defaultConfig follower sellTx (some leaderWallet)
      "sig2" dustHolder { docExists := true, encryptedPrivateKey := some "nonce+ciphertext" }
      "00ff" "FollowerPubkey" 6000000000 1 _ tokenMintA "USDC" (by decide!) rfl rfl rfl
      rfl rfl rfl rfl (by decide!) (by decide!) rfl (by norm_num)).1 (by decide!),
    by decide!, by decide!⟩

/-- C10: for every event with at least one transfer whose mint is not the base asset, the
traded token is the mint of the first such transfer in list order, and the direction is buy if
and only if that transfer's destination account equals the resolved source wallet, sell
otherwise; a validation that passes hands exactly this token and direction to the quoting
step. -/
theorem traded_token_is_first_non_base_transfer (fundWallet : Option String)
    (ts : List TokenTransfer) (h : ∃ t ∈ ts, t.isNonBase = true) :
    ∃ t m isBuy, ts.find? TokenTransfer.isNonBase = some t ∧ t.mint = some m ∧
      findTradedToken fundWallet ts = some (m, orElse t.tokenSymbol "UNKNOWN", isBuy) ∧
      (isBuy = true ↔ t.toUserAccount = fundWallet) ∧
      ∀ inv tx e pre v, tx.tokenTransfers = some ts →
        validate inv tx fundWallet e = (pre, .inr v) →
        v.tokenMint = m ∧ v.isBuy = isBuy := by
  have hfind : ∃ t m isBuy, ts.find? TokenTransfer.isNonBase = some t ∧ t.mint = some m ∧
      findTradedToken fundWallet ts = some (m, orElse t.tokenSymbol "UNKNOWN", isBuy) ∧
      (isBuy = true ↔ t.toUserAccount = fundWallet) := by
    induction ts with
    | nil => obtain ⟨t, ht, _⟩ := h; cases ht
    | cons x xs ih =>
      by_cases hx : x.isNonBase = true
      · cases hm : x.mint with
        | none => simp [TokenTransfer.isNonBase, hm] at hx
        | some m =>
          have hc : (m != "" && m != SOL_MINT) = true := by
            simpa [TokenTransfer.isNonBase, hm] using hx
          refine ⟨x, m, decide (x.toUserAccount = fundWallet), ?_, hm, ?_, by simp⟩
          · simp [List.find?, hx]
          · simp only [findTradedToken, hm, hc, if_true]
      · have hxf : x.isNonBase = false := by simpa using hx
        obtain ⟨t, ht, htn⟩ := h
        have htxs : t ∈ xs := by
          rcases List.mem_cons.mp ht with rfl | h2
          · rw [hxf] at htn; cases htn
          · exact h2
        obtain ⟨t2, m, isBuy, h1, h2, h3, h4⟩ := ih ⟨t, htxs, htn⟩
        refine ⟨t2, m, isBuy, ?_, h2, ?_, h4⟩
        · simp [List.find?, hxf, h1]
        · cases hm : x.mint with
          | none => simp only [findTradedToken, hm]; exact h3
          | some m2 =>
            have hc : (m2 != "" && m2 != SOL_MINT) = false := by
              simpa [TokenTransfer.isNonBase, hm] using hxf
            simp only [findTradedToken, hm, hc]
            exact h3
  obtain ⟨t, m, isBuy, h1, h2, h3, h4⟩ := hfind
  refine ⟨t, m, isBuy, h1, h2, h3, h4, ?_⟩
  intro inv tx e pre v hts hv
  obtain ⟨doc, hex, pk, b, ts2, _, _, _, _, _, _, hts2, hf, _⟩ :=
    validate_inr inv tx fundWallet e pre v hv
  rw [hts] at hts2
  cases hts2
  rw [h3] at hf
  simp only [Option.some.injEq, Prod.mk.injEq] at hf
  exact ⟨hf.1.symm, hf.2.2.symm⟩

/-- Witness for C10: in the sample buy the SOL transfer comes first, the token transfer is the
first one with a non-base mint and its destination is the leader wallet. -/
theorem traded_token_is_first_non_base_transfer_witness :
    (∃ t ∈ buyTransfers, t.isNonBase = true) ∧
    findTradedToken (some leaderWallet) buyTransfers = some (tokenMintA, "USDC", true) ∧
    ∃ t m isBuy, buyTransfers.find? TokenTransfer.isNonBase = some t ∧ t.mint = some m ∧
      findTradedToken (some leaderWallet) buyTransfers
        = some (m, orElse t.tokenSymbol "UNKNOWN", isBuy) ∧
      (isBuy = true ↔ t.toUserAccount = some leaderWallet) ∧
      ∀ inv tx e pre v, tx.tokenTransfers = some buyTransfers →
        validate inv tx (some leaderWallet) e = (pre, .inr v) →
        v.tokenMint = m ∧ v.isBuy = isBuy :=
  have hex : ∃ t ∈ buyTransfers, t.isNonBase = true := by decide!
  ⟨hex, by decide!, traded_token_is_first_non_base_transfer (some leaderWallet) buyTransfers hex⟩

/-! ## Wallet extraction -/

theorem isBase58_small (c : Char) (h : isBase58 c = true) : c.val < 65536 := by
  simp only [isBase58, Bool.or_eq_true, Bool.and_eq_true, decide_eq_true_eq] at h
  have hz : c ≤ 'z' := by
    rcases h with ((((h | h) | h) | h) | h) | h
    · exact le_trans h.2 (by decide)
    · exact le_trans h.2 (by decide)
    · exact le_trans h.2 (by decide)
    · exact le_trans h.2 (by decide)
    · exact le_trans h.2 (by decide)
    · exact h.2
  have h2 : c.val.toNat ≤ 122 := hz
  show c.val.toNat < 65536
  omega

theorem jsLength_base58 (l : List Char) (h : l.all isBase58 = true) :
    (l.map fun c => if c.val < 65536 then 1 else 2).sum = l.length := by
  induction l with
  | nil => rfl
  | cons c cs ih =>
    simp only [List.all_cons, Bool.and_eq_true] at h
    simp only [List.map_cons, List.sum_cons, List.length_cons, ih h.2, isBase58_small c h.1,
      if_true]
    omega

theorem matchesWalletAddress_length (s : String) (h : matchesWalletAddress s = true) :
    s ≠ "" ∧ ¬ jsLength s < 30 := by
  simp only [matchesWalletAddress, Bool.and_eq_true, decide_eq_true_eq] at h
  obtain ⟨⟨h1, _⟩, h3⟩ := h
  constructor
  · intro he
    rw [he] at h1
    simp at h1
  · have hl : jsLength s = s.length := jsLength_base58 s.data h3
    rw [hl]
    omega

theorem extractFundWallet_of_address (tx : Tx) (source : String) (hs : tx.source = some source)
    (hm : matchesWalletAddress source = true) : extractFundWallet tx = some source := by
  have hl := (matchesWalletAddress_length source hm).2
  simp [extractFundWallet, hs, hm, hl]

theorem extractFundWallet_of_name (tx : Tx) (source : String) (hs : tx.source = some source)
    (hne : source ≠ "") (hm : matchesWalletAddress source = false) :
    extractFundWallet tx =
      if truthy tx.feePayer then tx.feePayer
      else
        match tx.description with
        | some description =>
          if description != "" then
            match leadingAddress description with
            | some address => some address
            | none => some source
          else
            match tx.accountData with
            | some (first :: _) => first.account
            | _ => some source
        | none =>
          match tx.accountData with
          | some (first :: _) => first.account
          | _ => some source := by
  simp [extractFundWallet, hs, hm, hne]

theorem processTransaction_fundWallet (cfg : Config) (sv : Services) (store : Store)
    (cache : ProcessedTransactions) (tx : Tx) (envs : Nat → TaskEnv)
    (h : (processTransaction cfg sv store cache tx envs).outcome ≠ .skippedNonSwap) :
    (processTransaction cfg sv store cache tx envs).fundWallet
      = some (extractFundWallet tx) := by
  unfold processTransaction at h ⊢
  split
  · rename_i hc
    simp [hc] at h
  · dsimp only
    repeat' split
    all_goals rfl

/-- C11: for every event whose source field matches the wallet-address shape (32 to 44 base58
characters), the wallet resolved is that source field, whatever the fee payer, the description
and the account list contain; it is the wallet `processTransaction` works with whenever it
does not skip the event as a non-swap. -/
theorem source_address_is_resolved (tx : Tx) (source : String) (hs : tx.source = some source)
    (hm : matchesWalletAddress source = true) :
    extractFundWallet tx = some source ∧
    ∀ cfg sv store cache envs,
      (processTransaction cfg sv store cache tx envs).outcome ≠ .skippedNonSwap →
      (processTransaction cfg sv store cache tx envs).fundWallet = some (some source) := by
  have h := extractFundWallet_of_address tx source hs hm
  refine ⟨h, ?_⟩
  intro cfg sv store cache envs hne
  rw [processTransaction_fundWallet cfg sv store cache tx envs hne, h]

/-- Witness for C11: the source is the leader wallet while fee payer, description and account
list all name another address. -/
theorem source_address_is_resolved_witness :
    matchesWalletAddress leaderWallet = true ∧
    extractFundWallet decoyTx = some leaderWallet :=
  ⟨by decide!, (source_address_is_resolved decoyTx leaderWallet rfl (by decide!)).1⟩

/-- C12, counterexample: the source field is absent (or empty) and the fee payer is present,
yet the resolved wallet is the source field itself, not the fee payer. -/
theorem absent_source_ignores_fee_payer :
    absentSourceTx.source = none ∧ absentSourceTx.feePayer = some leaderWallet ∧
    extractFundWallet absentSourceTx = none ∧
    extractFundWallet { absentSourceTx with source := some "" } = some "" ∧
    (processTransaction defaultConfig liveServices fundStore [] absentSourceTx
      (fun _ => { now := 1000, run := okRun })).fundWallet = some none := by
  decide!

/-- C12, amended: for every event whose source field is present, not empty and not a valid
wallet address (a protocol name) and whose fee payer is present and not empty, the resolved
wallet is the fee payer; with an absent or empty source field no other field is tried and the
resolved wallet is the source field itself. -/
theorem fee_payer_replaces_protocol_name (tx : Tx) :
    (∀ source, tx.source = some source → source ≠ "" → matchesWalletAddress source = false →
      truthy tx.feePayer = true → extractFundWallet tx = tx.feePayer) ∧
    (tx.source = none → extractFundWallet tx = none) ∧
    (tx.source = some "" → extractFundWallet tx = some "") := by
  refine ⟨?_, ?_, ?_⟩
  · intro source hs hne hm hf
    rw [extractFundWallet_of_name tx source hs hne hm, hf]
    rfl
  · intro hs
    simp [extractFundWallet, hs]
  · intro hs
    simp [extractFundWallet, hs]

/-- Witness for C12: the source is the protocol name RAYDIUM and the fee payer is the leader
wallet. -/
theorem fee_payer_replaces_protocol_name_witness :
    matchesWalletAddress "RAYDIUM" = false ∧
    extractFundWallet protocolTx = some leaderWallet :=
  ⟨by decide!,
    (fee_payer_replaces_protocol_name protocolTx).1 "RAYDIUM" rfl (by decide) (by decide!)
      (by decide!)⟩

/-- C13, counterexample: the source field is absent, there is no fee payer and no
description, and the account list is not empty, yet the resolved wallet is the absent source
field, not the first account. -/
theorem absent_source_ignores_account_list :
    extractFundWallet
      { absentSourceTx with feePayer := none, accountData := some [{ account := some leaderWallet }] }
      = none := by
  decide!

/-- C13, amended: for every event whose source field is present, not empty and not a valid
wallet address, that has no fee payer and no description (absent or empty), and whose account
list is not empty, the resolved wallet is the account of the first account-list entry. -/
theorem first_account_replaces_protocol_name (tx : Tx) (source : String) (first : AccountData)
    (others : List AccountData) (hs : tx.source = some source) (hne : source ≠ "")
    (hm : matchesWalletAddress source = false) (hf : truthy tx.feePayer = false)
    (hd : truthy tx.description = false) (ha : tx.accountData = some (first :: others)) :
    extractFundWallet tx = first.account := by
  rw [extractFundWallet_of_name tx source hs hne hm, hf, ha]
  cases hdesc : tx.description with
  | none => simp
  | some d =>
    have : d = "" := by simpa [truthy, hdesc] using hd
    simp [this]

/-- Witness for C13: source PUMP_AMM, no fee payer, no description, first account the leader
wallet. -/
theorem first_account_replaces_protocol_name_witness :
    extractFundWallet accountListTx = some leaderWallet :=
  first_account_replaces_protocol_name accountListTx "PUMP_AMM" { account := some leaderWallet }
    [{ account := some "pool" }] rfl (by decide) (by decide!) rfl rfl rfl

/-! ## Fund matching and fan-out -/

theorem matchFunds_ok (fundWallet : Option String) :
    ∀ (funds : List FundDoc), (∀ f ∈ funds, f.walletAddresses ≠ none) →
      matchFunds fundWallet funds
        = .ok (funds.filter fun f => includesWallet (f.walletAddresses.getD []) fundWallet) := by
  intro funds
  induction funds with
  | nil => intro _; rfl
  | cons f fs ih =>
    intro h
    have hf := h f (List.mem_cons_self _ _)
    have hrest := ih (fun g hg => h g (List.mem_cons_of_mem _ hg))
    cases hw : f.walletAddresses with
    | none => exact absurd hw hf
    | some ws =>
      simp only [matchFunds, hw, hrest, List.filter_cons, Option.getD_some]
      split <;> rfl

theorem includesWallet_iff (ws : List String) (fundWallet : Option String) :
    includesWallet ws fundWallet = true ↔ ∃ wallet, fundWallet = some wallet ∧ wallet ∈ ws := by
  cases fundWallet with
  | none => simp [includesWallet]
  | some w => simp [includesWallet]

theorem mem_collectInvestments (investments : List InvestmentDoc) (doc : InvestmentDoc)
    (name : String) :
    ∀ (matching : List FundDoc), (doc, name) ∈ collectInvestments investments matching ↔
      doc ∈ investments ∧ ∃ f ∈ matching, doc.data.fundId = f.id ∧ name = f.name := by
  intro matching
  induction matching with
  | nil => simp [collectInvestments]
  | cons f fs ih =>
    simp only [collectInvestments, List.mem_append, List.mem_map, List.mem_filter, beq_iff_eq,
      Prod.mk.injEq, ih, List.mem_cons, exists_eq_or_imp]
    constructor
    · rintro (⟨d, ⟨hd, hf⟩, rfl, rfl⟩ | ⟨hd, hex⟩)
      · exact ⟨hd, Or.inl ⟨hf, rfl⟩⟩
      · exact ⟨hd, Or.inr hex⟩
    · rintro ⟨hd, (⟨hf, hn⟩ | hex)⟩
      · exact Or.inl ⟨doc, ⟨hd, hf⟩, rfl, hn.symm⟩
      · exact Or.inr ⟨hd, hex⟩

theorem fanOut_investments (cfg : Config) (tx : Tx) (fundWallet : Option String)
    (envs : Nat → TaskEnv) :
    ∀ (l : List (InvestmentDoc × String)) (cache : ProcessedTransactions) (i : Nat),
      (fanOut cfg tx fundWallet envs cache i l).2.map Prod.fst = l.map fun p => p.1.data := by
  intro l
  induction l with
  | nil => intro _ _; rfl
  | cons p ps ih =>
    intro cache i
    obtain ⟨doc, name⟩ := p
    simp only [fanOut, List.map_cons, ih]

theorem fanOut_actions (cfg : Config) (tx : Tx) (fundWallet : Option String)
    (envs : Nat → TaskEnv) :
    ∀ (l : List (InvestmentDoc × String)) (cache : ProcessedTransactions) (i : Nat),
      ∀ p ∈ (fanOut cfg tx fundWallet envs cache i l).2,
        ∃ c now env, p.2 = (copyTradeTask cfg c now p.1 tx fundWallet env).2 := by
  intro l
  induction l with
  | nil => intro _ _ p hp; simp [fanOut] at hp
  | cons q qs ih =>
    intro cache i p hp
    obtain ⟨doc, name⟩ := q
    simp only [fanOut, List.mem_cons] at hp
    rcases hp with rfl | hp
    · exact ⟨cache, (envs i).now, (envs i).run, rfl⟩
    · exact ih _ _ p hp

theorem processTransaction_tasks (cfg : Config) (sv : Services) (store : Store)
    (cache : ProcessedTransactions) (tx : Tx) (envs : Nat → TaskEnv) :
    ∀ p ∈ (processTransaction cfg sv store cache tx envs).tasks,
      ∃ c now env, p.2 = (copyTradeTask cfg c now p.1 tx (extractFundWallet tx) env).2 := by
  intro p hp
  unfold processTransaction at hp
  split at hp
  · simp at hp
  · dsimp only at hp
    split at hp
    · simp at hp
    · split at hp
      · simp at hp
      · simp at hp
      · exact fanOut_actions cfg tx _ envs _ _ _ p hp

theorem copyTradeTask_executed (cfg : Config) (cache : ProcessedTransactions) (now : Int)
    (inv : Investment) (tx : Tx) (fundWallet : Option String) (env : RunEnv) (run : RunResult)
    (h : (copyTradeTask cfg cache now inv tx fundWallet env).2 = .executed run) :
    inv.isActive ≠ some false ∧ inv.autoApprove = true ∧
    cacheHas cache (txCacheKey inv.userId inv.fundId tx.signature) = false := by
  unfold copyTradeTask at h
  split at h
  · simp at h
  · rename_i ha
    split at h
    · simp at h
    · rename_i hb
      dsimp only at h
      split at h
      · simp at h
      · rename_i hc
        exact ⟨ha, by simpa using hb, by simpa using hc⟩

/-- On a store whose fund documents all have a wallet list, for every resolved source wallet the
fund matcher selects exactly the funds whose wallet list contains the wallet, all of them and
in store order, and then collects exactly the investments of those funds, whatever their
isActive; these are the investments `processTransaction` fans out to. -/
theorem fund_matcher_selects_every_fund_of_wallet (store : Store) (fundWallet : Option String)
    (hwf : ∀ f ∈ store.funds, f.walletAddresses ≠ none) :
    ∃ matching, matchFunds fundWallet store.funds = .ok matching ∧
      matching = (store.funds.filter fun f =>
        includesWallet (f.walletAddresses.getD []) fundWallet) ∧
      (∀ f, f ∈ matching ↔ f ∈ store.funds ∧
        ∃ wallet ws, fundWallet = some wallet ∧ f.walletAddresses = some ws ∧ wallet ∈ ws) ∧
      (∀ doc name, (doc, name) ∈ collectInvestments store.investments matching ↔
        doc ∈ store.investments ∧ ∃ f ∈ matching, doc.data.fundId = f.id ∧ name = f.name) ∧
      (∀ cfg sv cache tx envs, sv.storeError = none → extractFundWallet tx = fundWallet →
        (processTransaction cfg sv store cache tx envs).outcome ≠ .skippedNonSwap →
        (processTransaction cfg sv store cache tx envs).tasks.map Prod.fst
          = (collectInvestments store.investments matching).map fun p => p.1.data) := by
  have hok := matchFunds_ok fundWallet store.funds hwf
  refine ⟨_, hok, rfl, ?_, ?_, ?_⟩
  · intro f
    simp only [List.mem_filter, includesWallet_iff]
    constructor
    · rintro ⟨hf, wallet, hw, hmem⟩
      cases hws : f.walletAddresses with
      | none => exact absurd hws (hwf f hf)
      | some ws =>
        rw [hws] at hmem
        exact ⟨hf, wallet, ws, hw, rfl, hmem⟩
    · rintro ⟨hf, wallet, ws, hw, hws, hmem⟩
      refine ⟨hf, wallet, hw, ?_⟩
      rw [hws]
      exact hmem
  · intro doc name
    exact mem_collectInvestments store.investments doc name _
  · intro cfg sv cache tx envs hstore hfw hne
    unfold processTransaction at hne ⊢
    split
    · rename_i hc
      simp [hc] at hne
    · dsimp only
      rw [hstore, hfw, hok]
      cases hm : (store.funds.filter fun f =>
        includesWallet (f.walletAddresses.getD []) fundWallet) with
      | nil => rfl
      | cons a b => exact fanOut_investments cfg tx fundWallet envs _ cache 0

/-- An instance on the sample store: the leader wallet belongs to its one fund, whose
investment is collected. -/
theorem fund_matcher_selects_every_fund_of_wallet_witness :
    matchFunds (some leaderWallet) fundStore.funds = .ok [alphaFund] ∧
    collectInvestments fundStore.investments [alphaFund]
      = [({ id := "inv1", data := follower }, "Alpha")] ∧
    ∃ matching, matchFunds (some leaderWallet) fundStore.funds = .ok matching ∧
      matching = (fundStore.funds.filter fun f =>
        includesWallet (f.walletAddresses.getD []) (some leaderWallet)) ∧
      (∀ f, f ∈ matching ↔ f ∈ fundStore.funds ∧
        ∃ wallet ws, some leaderWallet = some wallet ∧ f.walletAddresses = some ws ∧
          wallet ∈ ws) ∧
      (∀ doc name, (doc, name) ∈ collectInvestments fundStore.investments matching ↔
        doc ∈ fundStore.investments ∧ ∃ f ∈ matching, doc.data.fundId = f.id ∧ name = f.name) ∧
      (∀ cfg sv cache tx envs, sv.storeError = none →
        extractFundWallet tx = some leaderWallet →
        (processTransaction cfg sv fundStore cache tx envs).outcome ≠ .skippedNonSwap →
        (processTransaction cfg sv fundStore cache tx envs).tasks.map Prod.fst
          = (collectInvestments fundStore.investments matching).map fun p => p.1.data) :=
  ⟨rfl, by decide!,
    fund_matcher_selects_every_fund_of_wallet fundStore (some leaderWallet) (by decide!)⟩

/-- C15: the task of an investment starts `executeCopyTrade` only if the investment's
isActive is not false and its autoApprove is set (and the cache has no entry for its key); an
investment that is not inactive and has autoApprove off gets the approval notification and
nothing else, an inactive investment gets nothing, and in both cases the dedup map is left as
it was. The same holds for every task `processTransaction` starts. -/
theorem only_active_auto_approved_investments_execute (cfg : Config)
    (cache : ProcessedTransactions) (now : Int) (inv : Investment) (tx : Tx)
    (fundWallet : Option String) (env : RunEnv) :
    (∀ run, (copyTradeTask cfg cache now inv tx fundWallet env).2 = .executed run →
      inv.isActive ≠ some false ∧ inv.autoApprove = true) ∧
    (inv.isActive ≠ some false → inv.autoApprove = false →
      copyTradeTask cfg cache now inv tx fundWallet env = (cache, .approvalNotified)) ∧
    (inv.isActive = some false →
      copyTradeTask cfg cache now inv tx fundWallet env = (cache, .skippedInactive)) ∧
    (∀ sv store envs, ∀ p ∈ (processTransaction cfg sv store cache tx envs).tasks,
      ∀ run, p.2 = .executed run → p.1.isActive ≠ some false ∧ p.1.autoApprove = true) := by
  refine ⟨?_, ?_, ?_, ?_⟩
  · intro run h
    have := copyTradeTask_executed cfg cache now inv tx fundWallet env run h
    exact ⟨this.1, this.2.1⟩
  · intro ha hb
    simp [copyTradeTask, ha, hb]
  · intro ha
    simp [copyTradeTask, ha]
  · intro sv store envs p hp run hrun
    obtain ⟨c, n, e, hpe⟩ := processTransaction_tasks cfg sv store cache tx envs p hp
    rw [hrun] at hpe
    have := copyTradeTask_executed cfg c n p.1 tx (extractFundWallet tx) e run hpe.symm
    exact ⟨this.1, this.2.1⟩

/-- Witness for C15: a follower with autoApprove off gets the approval notification and the
cache stays empty; an inactive follower is skipped. -/
theorem only_active_auto_approved_investments_execute_witness :
    copyTradeTask defaultConfig [] 1000 { follower with autoApprove := false } buyTx
      (some leaderWallet) okRun = ([], .approvalNotified) ∧
    copyTradeTask defaultConfig [] 1000 { follower with isActive := some false } buyTx
      (some leaderWallet) okRun = ([], .skippedInactive) :=
  ⟨(only_active_auto_approved_investments_execute defaultConfig [] 1000
      { follower with autoApprove := false } buyTx (some leaderWallet) okRun).2.1
      (by decide) rfl,
    (only_active_auto_approved_investments_execute defaultConfig [] 1000
      { follower with isActive := some false } buyTx (some leaderWallet) okRun).2.2.1 rfl⟩

/-! ## Monitor, routes and registry cleanup -/

/-- C16, evaluated at the failing input: the monitor polls the leader wallet, the fund's only
investment has been deactivated, so no wallet is desired; `loadFundWallets` completes and the
leader wallet is still polled. -/
theorem loadFundWallets_keeps_stale_wallet :
    hasActiveInvestment idleStore.investments "f1" = false ∧
    desiredWallets idleStore = [] ∧
    (Monitor.loadFundWallets liveServices idleStore leaderMonitor).pollSet
      = [leaderWallet] := by
  decide!

/-- C17, evaluated at the failing input: the first subscription to the fund is answered with
200 and creates an investment without the field isActive; the leader wallet is added to the
poll set, but the fund has no investment with isActive true, so `subscribeToWallets` returns
before it calls the registry, which stays empty. -/
theorem first_subscription_is_not_registered :
    (subscribe liveServices freshServer firstRequest).2 = 200 ∧
    (subscribe liveServices freshServer firstRequest).1.store.investments
      = [{ id := "inv-new"
           data := { userId := "u1", fundId := "f1", allocatedAmount := 10,
                     purchaseSizePercentage := 100, autoApprove := true, isActive := none } }] ∧
    hasActiveInvestment (subscribe liveServices freshServer firstRequest).1.store.investments
      "f1" = false ∧
    (subscribe liveServices freshServer firstRequest).1.monitor.map Monitor.pollSet
      = some [leaderWallet] ∧
    (subscribe liveServices freshServer firstRequest).1.registry = [] := by
  decide!

/-- C18, evaluated at the failing input: the follower's investment is the fund's only active
one. After the unsubscribe request (status 200, investment deleted) and likewise after the
update with isActive false (status 200, no active investment left), the leader wallet is still
in the poll set: neither route touches the monitor. -/
theorem deactivation_leaves_wallet_polled :
    (unsubscribe liveServices subscribedServer (some "u1") (some "f1")).2 = 200 ∧
    (unsubscribe liveServices subscribedServer (some "u1") (some "f1")).1.store.investments
      = [] ∧
    (unsubscribe liveServices subscribedServer (some "u1") (some "f1")).1.monitor.map
      Monitor.pollSet = some [leaderWallet] ∧
    (updateInvestment liveServices subscribedServer
      { userId := some "u1", fundId := some "f1", allocatedAmount := none,
        purchaseSizePercentage := none, autoApprove := none, isActive := some false }).2
      = 200 ∧
    desiredWallets (updateInvestment liveServices subscribedServer
      { userId := some "u1", fundId := some "f1", allocatedAmount := none,
        purchaseSizePercentage := none, autoApprove := none, isActive := some false }).1.store
      = [] ∧
    (updateInvestment liveServices subscribedServer
      { userId := some "u1", fundId := some "f1", allocatedAmount := none,
        purchaseSizePercentage := none, autoApprove := none,
        isActive := some false }).1.monitor.map Monitor.pollSet = some [leaderWallet] := by
  decide!

/-- C19, counterexample: the desired wallet set is not empty (the leader wallet has an active
investment), the registered webhook lists only a retired wallet, and `cleanupWebhooks` deletes
the webhook. -/
theorem cleanup_deletes_although_wallets_desired :
    desiredWallets fundStore = [leaderWallet] ∧
    cleanupWebhooks liveServices fundStore staleRegistry = ([], some (.delete "wh1")) := by
  decide!

/-- C19, amended: with the API key set, store and registry reachable and a webhook registered
for this backend, `cleanupWebhooks` deletes the webhook if and only if none of its registered
addresses is in the desired wallet set; this is the case whenever the desired set is empty.
The deletion removes that webhook from the registry. -/
theorem cleanup_deletes_iff_no_registered_wallet_desired (sv : Services) (store : Store)
    (registry : List Webhook) (wh : Webhook) (hkey : truthy sv.heliusApiKey = true)
    (hstore : sv.storeError = none) (hreg : sv.registryError = none)
    (hwh : findWebhook sv registry = some wh) :
    ((cleanupWebhooks sv store registry).2 = some (.delete wh.webhookID) ↔
      ∀ a ∈ wh.accountAddresses.getD [], a ∉ desiredWallets store) ∧
    (desiredWallets store = [] →
      (cleanupWebhooks sv store registry).2 = some (.delete wh.webhookID)) ∧
    ((cleanupWebhooks sv store registry).2 = some (.delete wh.webhookID) →
      (cleanupWebhooks sv store registry).1 = deleteWebhook registry wh.webhookID) := by
  have hiff : (cleanupWebhooks sv store registry).2 = some (.delete wh.webhookID) ↔
      ∀ a ∈ wh.accountAddresses.getD [], a ∉ desiredWallets store := by
    unfold cleanupWebhooks
    simp only [hkey, hstore, hreg, hwh, Bool.not_true, Bool.false_eq_true, if_false]
    by_cases h0 : ((wh.accountAddresses.getD []).filter
        fun addr => (desiredWallets store).contains addr).length = 0
    · simp only [h0, if_true, true_iff]
      have := List.length_eq_zero.mp h0
      rw [List.filter_eq_nil_iff] at this
      intro a ha
      simpa using this a ha
    · simp only [h0, if_false]
      have hne : ¬ ∀ a ∈ wh.accountAddresses.getD [], a ∉ desiredWallets store := by
        intro hall
        apply h0
        rw [List.length_eq_zero, List.filter_eq_nil_iff]
        intro a ha
        simpa using hall a ha
      constructor
      · intro h
        split at h <;> simp at h
      · intro h
        exact absurd h hne
  refine ⟨hiff, ?_, ?_⟩
  · intro hd
    rw [hiff, hd]
    intro a _
    simp
  · intro h
    have hall := hiff.mp h
    unfold cleanupWebhooks
    simp only [hkey, hstore, hreg, hwh, Bool.not_true, Bool.false_eq_true, if_false]
    have h0 : ((wh.accountAddresses.getD []).filter
        fun addr => (desiredWallets store).contains addr).length = 0 := by
      rw [List.length_eq_zero, List.filter_eq_nil_iff]
      intro a ha
      simpa using hall a ha
    simp only [h0, if_true]

/-- Witness for C19: the sample store with its active investment and the stale registry. -/
theorem cleanup_deletes_iff_no_registered_wallet_desired_witness :
    (cleanupWebhooks liveServices fundStore staleRegistry).2 = some (.delete "wh1") ↔
      ∀ a ∈ [retiredWallet], a ∉ desiredWallets fundStore :=
  (cleanup_deletes_iff_no_registered_wallet_desired liveServices fundStore staleRegistry
    { webhookID := "wh1", webhookURL := webhookUrl liveServices,
      accountAddresses := some [retiredWallet] } rfl rfl rfl (by decide!)).1

/-- C20: whenever `cleanupWebhooks` issues an update, it is for the webhook registered for this
backend and the new address list is exactly the previously registered addresses that are still
desired, in their previous order: a wallet is in the new list if and only if it was registered
and is desired, and the registry afterwards holds that list for the webhook. -/
theorem cleanup_update_keeps_desired_registered_wallets (sv : Services) (store : Store)
    (registry : List Webhook) (webhookID : String) (addresses : List String)
    (h : (cleanupWebhooks sv store registry).2 = some (.update webhookID addresses)) :
    ∃ wh, findWebhook sv registry = some wh ∧ webhookID = wh.webhookID ∧
      addresses = ((wh.accountAddresses.getD []).filter
        fun addr => (desiredWallets store).contains addr) ∧
      (∀ a, a ∈ addresses ↔ a ∈ wh.accountAddresses.getD [] ∧ a ∈ desiredWallets store) ∧
      addresses.Sublist (wh.accountAddresses.getD []) ∧
      (cleanupWebhooks sv store registry).1 = putAddresses registry webhookID addresses := by
  unfold cleanupWebhooks at h ⊢
  split at h
  · simp at h
  · rename_i hk
    split at h
    · simp at h
    · simp at h
    · dsimp only at h ⊢
      split at h
      · rename_i wh hwh
        split at h
        · simp at h
        · rename_i h0
          split at h
          · rename_i hlt
            simp only [Option.some.injEq, RegistryCall.update.injEq] at h
            obtain ⟨rfl, rfl⟩ := h
            refine ⟨wh, hwh, rfl, rfl, ?_, List.filter_sublist _, ?_⟩
            · intro a
              simp [List.mem_filter]
            · rw [if_neg hk, if_neg h0, if_pos hlt]
          · simp at h
      · simp at h

/-- Witness for C20: the webhook lists the leader wallet and a retired wallet; the update
keeps the leader wallet only. -/
theorem cleanup_update_keeps_desired_registered_wallets_witness :
    (cleanupWebhooks liveServices fundStore mixedRegistry).2
      = some (.update "wh1" [leaderWallet]) ∧
    ∃ wh, findWebhook liveServices mixedRegistry = some wh ∧ "wh1" = wh.webhookID ∧
      [leaderWallet] = ((wh.accountAddresses.getD []).filter
        fun addr => (desiredWallets fundStore).contains addr) ∧
      (∀ a, a ∈ [leaderWallet] ↔
        a ∈ wh.accountAddresses.getD [] ∧ a ∈ desiredWallets fundStore) ∧
      [leaderWallet].Sublist (wh.accountAddresses.getD []) ∧
      (cleanupWebhooks liveServices fundStore mixedRegistry).1
        = putAddresses mixedRegistry "wh1" [leaderWallet] :=
  ⟨by decide!,
    cleanup_update_keeps_desired_registered_wallets liveServices fundStore mixedRegistry "wh1"
      [leaderWallet] (by decide!)⟩

/-! ## Idempotence of the registry cleanup -/

theorem eq_of_mem_of_length_le_one {α : Type} (l : List α) (a b : α) (h : l.length ≤ 1)
    (ha : a ∈ l) (hb : b ∈ l) : a = b := by
  match l, h, ha, hb with
  | [c], _, ha, hb =>
    rw [List.mem_singleton] at ha hb
    rw [ha, hb]
  | _ :: _ :: _, h, _, _ => simp at h

theorem findWebhook_deleteWebhook (sv : Services) (registry : List Webhook) (wh : Webhook)
    (huniq : (registry.filter fun w => w.webhookURL == webhookUrl sv).length ≤ 1)
    (hwh : findWebhook sv registry = some wh) :
    findWebhook sv (deleteWebhook registry wh.webhookID) = none := by
  unfold findWebhook at hwh ⊢
  rw [List.find?_eq_none]
  intro x hx hp
  unfold deleteWebhook at hx
  rw [List.mem_filter] at hx
  have hpw : (wh.webhookURL == webhookUrl sv) = true :=
    List.find?_some (p := fun w : Webhook => w.webhookURL == webhookUrl sv) hwh
  have hwm : wh ∈ registry.filter fun w => w.webhookURL == webhookUrl sv :=
    List.mem_filter.mpr ⟨List.mem_of_find?_eq_some hwh, hpw⟩
  have hxm : x ∈ registry.filter fun w => w.webhookURL == webhookUrl sv :=
    List.mem_filter.mpr ⟨hx.1, hp⟩
  have hxw := eq_of_mem_of_length_le_one _ x wh huniq hxm hwm
  have h2 := hx.2
  rw [hxw] at h2
  simp at h2

theorem findWebhook_putAddresses (sv : Services) (registry : List Webhook) (wh : Webhook)
    (addresses : List String) (hwh : findWebhook sv registry = some wh) :
    findWebhook sv (putAddresses registry wh.webhookID addresses)
      = some { wh with accountAddresses := some addresses } := by
  unfold findWebhook at hwh ⊢
  unfold putAddresses
  rw [List.find?_map]
  have hcomp : ((fun w : Webhook => w.webhookURL == webhookUrl sv) ∘
      fun w : Webhook => if w.webhookID == wh.webhookID then
        { w with accountAddresses := some addresses } else w)
      = fun w : Webhook => w.webhookURL == webhookUrl sv := by
    funext w
    simp only [Function.comp]
    split <;> rfl
  rw [hcomp, hwh]
  simp

/-- C21: on a registry holding two webhooks for the callback URL, both without a desired
address, `cleanupWebhooks` deletes the first one, and a second run with the store unchanged
issues another delete, for the second one. -/
theorem cleanup_of_doubled_registry_deletes_twice :
    (doubledRegistry.filter fun wh => wh.webhookURL == webhookUrl liveServices).length = 2 ∧
    (cleanupWebhooks liveServices idleStore doubledRegistry).2 = some (.delete "wh1") ∧
    (cleanupWebhooks liveServices idleStore
      (cleanupWebhooks liveServices idleStore doubledRegistry).1).2 = some (.delete "wh2") ∧
    (cleanupWebhooks liveServices idleStore
      (cleanupWebhooks liveServices idleStore doubledRegistry).1).1
        ≠ (cleanupWebhooks liveServices idleStore doubledRegistry).1 := by
  decide!

/-- C21, amended: for every store content and every registry state that holds at most one
webhook for the callback URL of this backend, a second run of `cleanupWebhooks` with the store
unchanged leaves the registry as the first run left it and issues no delete and no update. -/
theorem cleanupWebhooks_idempotent_on_keyed_registry (sv : Services) (store : Store)
    (registry : List Webhook)
    (huniq : (registry.filter fun wh => wh.webhookURL == webhookUrl sv).length ≤ 1) :
    cleanupWebhooks sv store (cleanupWebhooks sv store registry).1
      = ((cleanupWebhooks sv store registry).1, none) := by
  by_cases hkey : truthy sv.heliusApiKey = true
  swap
  · simp [cleanupWebhooks, hkey]
  cases hs : sv.storeError with
  | some m => simp [cleanupWebhooks, hkey, hs]
  | none =>
    cases hr : sv.registryError with
    | some m => simp [cleanupWebhooks, hkey, hs, hr]
    | none =>
      cases hwh : findWebhook sv registry with
      | none => simp [cleanupWebhooks, hkey, hs, hr, hwh]
      | some wh =>
        by_cases h0 : ((wh.accountAddresses.getD []).filter
            fun addr => (desiredWallets store).contains addr).length = 0
        · have h1 : cleanupWebhooks sv store registry
              = (deleteWebhook registry wh.webhookID, some (.delete wh.webhookID)) := by
            unfold cleanupWebhooks
            simp only [hkey, hs, hr, hwh, Bool.not_true, Bool.false_eq_true, if_false, h0,
              if_true]
          rw [h1]
          have h2 := findWebhook_deleteWebhook sv registry wh huniq hwh
          unfold cleanupWebhooks
          simp only [hkey, hs, hr, h2, Bool.not_true, Bool.false_eq_true, if_false]
        · by_cases hlt : ((wh.accountAddresses.getD []).filter
              fun addr => (desiredWallets store).contains addr).length
                < (wh.accountAddresses.getD []).length
          · have h1 : cleanupWebhooks sv store registry
                = (putAddresses registry wh.webhookID ((wh.accountAddresses.getD []).filter
                    fun addr => (desiredWallets store).contains addr),
                  some (.update wh.webhookID ((wh.accountAddresses.getD []).filter
                    fun addr => (desiredWallets store).contains addr))) := by
              unfold cleanupWebhooks
              simp only [hkey, hs, hr, hwh, Bool.not_true, Bool.false_eq_true, if_false, h0,
                hlt, if_true]
            rw [h1]
            have h2 := findWebhook_putAddresses sv registry wh
              ((wh.accountAddresses.getD []).filter
                fun addr => (desiredWallets store).contains addr) hwh
            unfold cleanupWebhooks
            simp only [hkey, hs, hr, h2, Bool.not_true, Bool.false_eq_true, if_false,
              Option.getD_some, List.filter_filter, Bool.and_self, h0, lt_irrefl]
          · have h1 : cleanupWebhooks sv store registry = (registry, none) := by
              unfold cleanupWebhooks
              simp only [hkey, hs, hr, hwh, Bool.not_true, Bool.false_eq_true, if_false, h0,
                hlt]
            rw [h1]
            exact h1

/-- Witness for C21: the registry with the leader wallet and the retired one is cut down to
the leader wallet by the first run and left alone by the second. -/
theorem cleanupWebhooks_idempotent_on_keyed_registry_witness :
    (mixedRegistry.filter fun wh => wh.webhookURL == webhookUrl liveServices).length ≤ 1 ∧
    (cleanupWebhooks liveServices fundStore mixedRegistry).2
      = some (.update "wh1" [leaderWallet]) ∧
    cleanupWebhooks liveServices fundStore
        (cleanupWebhooks liveServices fundStore mixedRegistry).1
      = ((cleanupWebhooks liveServices fundStore mixedRegistry).1, none) :=
  ⟨by decide!, by decide!,
    cleanupWebhooks_idempotent_on_keyed_registry liveServices fundStore mixedRegistry
      (by decide!)⟩

/-! ## The cache key -/

theorem hyphen_split_unique : ∀ (a b x y : List Char), '-' ∉ a → '-' ∉ b →
    a ++ '-' :: x = b ++ '-' :: y → a = b ∧ x = y := by
  intro a
  induction a with
  | nil =>
    intro b x y _ hb h
    cases b with
    | nil => simpa using h
    | cons d b =>
      simp only [List.nil_append, List.cons_append, List.cons.injEq] at h
      exact absurd (h.1 ▸ List.mem_cons_self _ _) hb
  | cons c a ih =>
    intro b x y ha hb h
    cases b with
    | nil =>
      simp only [List.nil_append, List.cons_append, List.cons.injEq] at h
      exact absurd (h.1 ▸ List.mem_cons_self _ _) ha
    | cons d b =>
      simp only [List.cons_append, List.cons.injEq] at h
      have := ih b x y (fun hm => ha (List.mem_cons_of_mem _ hm))
        (fun hm => hb (List.mem_cons_of_mem _ hm)) h.2
      exact ⟨by rw [h.1, this.1], this.2⟩

theorem txCacheKey_data (userId fundId signature : String) :
    (txCacheKey userId fundId signature).data
      = userId.data ++ '-' :: (fundId.data ++ '-' :: signature.data) := by
  simp [txCacheKey, String.data_append]

theorem cacheHas_cacheSet_of_ne (cache : ProcessedTransactions) (key other : String)
    (now : Int) (hne : key ≠ other) :
    cacheHas (cacheSet cache key now) other = cacheHas cache other := by
  unfold cacheSet
  split
  · unfold cacheHas
    rw [List.any_map]
    congr 1
    funext entry
    simp only [Function.comp]
    split
    · rename_i hk
      have hk2 : entry.1 = key := by simpa using hk
      have h1 : (key == other) = false := by simpa using hne
      have h2 : (entry.1 == other) = false := by rw [hk2]; exact h1
      simp only [h1, h2]
    · rfl
  · unfold cacheHas
    have h1 : (key == other) = false := by simpa using hne
    simp [h1]

/-- C27: two different triples, one with a hyphen in its user id and one with a hyphen in its
fund id, are given the same cache key, and after the task of the first has marked the cache the
task of the second is rejected as a cache hit. -/
theorem hyphenated_ids_share_cache_key :
    (hyphenUser.userId, hyphenUser.fundId, buyTx.signature)
      ≠ (hyphenFund.userId, hyphenFund.fundId, buyTx.signature) ∧
    txCacheKey hyphenUser.userId hyphenUser.fundId buyTx.signature
      = txCacheKey hyphenFund.userId hyphenFund.fundId buyTx.signature ∧
    (copyTradeTask defaultConfig [] 2000 hyphenFund buyTx (some leaderWallet) okRun).2
      ≠ .cacheHit ∧
    (copyTradeTask defaultConfig
      (copyTradeTask defaultConfig [] 1000 hyphenUser buyTx (some leaderWallet) okRun).1
      2000 hyphenFund buyTx (some leaderWallet) okRun).2 = .cacheHit := by
  decide!

/-- C27, amended: for triples whose user id and fund id contain no hyphen, different triples
are given different cache keys, and marking the key of one in any cache does not change
whether the cache holds the key of the other. -/
theorem cache_key_separates_hyphen_free_ids (u1 f1 s1 u2 f2 s2 : String)
    (hu1 : '-' ∉ u1.data) (hf1 : '-' ∉ f1.data) (hu2 : '-' ∉ u2.data) (hf2 : '-' ∉ f2.data)
    (hne : (u1, f1, s1) ≠ (u2, f2, s2)) (cache : ProcessedTransactions) (now : Int) :
    txCacheKey u1 f1 s1 ≠ txCacheKey u2 f2 s2 ∧
    cacheHas (cacheSet cache (txCacheKey u1 f1 s1) now) (txCacheKey u2 f2 s2)
      = cacheHas cache (txCacheKey u2 f2 s2) := by
  have hkey : txCacheKey u1 f1 s1 ≠ txCacheKey u2 f2 s2 := by
    intro h
    have hd := congrArg String.data h
    rw [txCacheKey_data, txCacheKey_data] at hd
    have h1 := hyphen_split_unique _ _ _ _ hu1 hu2 hd
    have h2 := hyphen_split_unique _ _ _ _ hf1 hf2 h1.2
    apply hne
    rw [String.ext h1.1, String.ext h2.1, String.ext h2.2]
  exact ⟨hkey, cacheHas_cacheSet_of_ne cache _ _ now hkey⟩

/-- Witness for C27: the follower and a second user of the same fund on the same event. -/
theorem cache_key_separates_hyphen_free_ids_witness :
    txCacheKey "u1" "f1" "sig1" ≠ txCacheKey "u2" "f1" "sig1" ∧
    cacheHas (cacheSet [] (txCacheKey "u1" "f1" "sig1") 1000) (txCacheKey "u2" "f1" "sig1")
      = cacheHas [] (txCacheKey "u2" "f1" "sig1") :=
  cache_key_separates_hyphen_free_ids "u1" "f1" "sig1" "u2" "f1" "sig1"
    (by decide) (by decide) (by decide) (by decide) (by decide) [] 1000

/-! ## What the stored records carry -/

theorem trade_record_retries (cfg : Config) (inv : Investment) (fundTxSignature : String)
    (startTime : Int) (retries : Nat) (e : AttemptEnv) (v : Validated) :
    ∀ rec ∈ appended (trade cfg inv fundTxSignature startTime retries e v).1,
      rec.retries = (retries : Int) := by
  unfold trade
  dsimp only
  repeat' split
  all_goals simp [appended, successRecord]

theorem attempt_record_retries (cfg : Config) (inv : Investment) (tx : Tx)
    (fundWallet : Option String) (fundTxSignature : String) (startTime : Int) (retries : Nat)
    (e : AttemptEnv) :
    ∀ rec ∈ appended (attempt cfg inv tx fundWallet fundTxSignature startTime retries e).1,
      rec.retries = (retries : Int) := by
  have hv := validate_appended inv tx fundWallet e
  unfold attempt
  rcases hval : validate inv tx fundWallet e with ⟨pre, stop | v⟩
  · rw [hval] at hv
    simp only at hv ⊢
    rw [hv]
    intro rec hrec
    cases hrec
  · rw [hval] at hv
    simp only at hv ⊢
    rw [appended_append, hv, List.nil_append]
    exact trade_record_retries cfg inv fundTxSignature startTime retries e v

theorem retryLoop_record_retries (cfg : Config) (inv : Investment) (tx : Tx)
    (fundWallet : Option String) (fundTxSignature : String) (env : RunEnv) :
    ∀ (fuel retries : Nat), (cfg.maxRetries - (retries : Int)).toNat < fuel →
      ∀ rec ∈ appended (retryLoop cfg inv tx fundWallet fundTxSignature env fuel retries).effects,
        rec.retries
          = (attemptsStarted (retryLoop cfg inv tx fundWallet fundTxSignature env fuel retries)
              : Int) - 1 := by
  intro fuel
  induction fuel with
  | zero => intro retries h; omega
  | succ fuel ih =>
    intro retries hfuel
    by_cases hlt : (retries : Int) < cfg.maxRetries
    · have hsh := attempt_shape cfg inv tx fundWallet fundTxSignature env.startTime retries
        (env.attempts retries)
      have hrr := attempt_record_retries cfg inv tx fundWallet fundTxSignature env.startTime
        retries (env.attempts retries)
      rcases hatt : attempt cfg inv tx fundWallet fundTxSignature env.startTime retries
        (env.attempts retries) with ⟨effs, stop⟩
      rw [hatt] at hsh hrr
      simp only at hsh hrr
      cases stop with
      | succeeded =>
        simp only [retryLoop, hlt, if_true, hatt, attemptsStarted]
        intro rec hrec
        rw [hrr rec hrec]
        push_cast
        ring
      | skipped why =>
        simp only [retryLoop, hlt, if_true, hatt, attemptsStarted]
        intro rec hrec
        rw [hrr rec hrec]
        push_cast
        ring
      | thrown message =>
        have heffs : appended effs = [] := by
          rcases hsh with ⟨h, _⟩ | ⟨_, h⟩
          · cases h
          · exact h
        by_cases hge : ((retries + 1 : Nat) : Int) ≥ cfg.maxRetries
        · cases hadd : (env.attempts retries).failedRecordAdd with
          | error m =>
            simp only [retryLoop, hlt, if_true, hatt, hge, hadd]
            simp only [appended_append, heffs, appended_unstored, List.append_nil]
            intro rec hrec
            cases hrec
          | ok u =>
            obtain ⟨fuel2, rfl⟩ : ∃ k, fuel = k + 1 := ⟨fuel - 1, by omega⟩
            have hexit := retryLoop_exit cfg inv tx fundWallet fundTxSignature env fuel2
              (retries + 1) (by omega)
            simp only [retryLoop, hlt, if_true, hatt, hge, hadd]
            simp only [retryLoop] at hexit
            rw [hexit]
            simp only [attemptsStarted, List.append_nil, appended_append, heffs,
              List.nil_append]
            intro rec hrec
            have e1 : appended [Effect.recordAdd
                (failedRecord inv tx fundTxSignature (retries + 1) (env.attempts retries)
                  message) true, Effect.notifyFailure inv.userId message]
                = [failedRecord inv tx fundTxSignature (retries + 1) (env.attempts retries)
                  message] := rfl
            rw [e1, List.mem_singleton] at hrec
            rw [hrec]
            rfl
        · have hrec := ih (retries + 1) (by omega)
          simp only [retryLoop, hlt, if_true, hatt, hge, if_false]
          simp only [appended_append, heffs, appended_wait, List.append_nil, List.nil_append]
          exact hrec
    · rw [retryLoop_exit _ _ _ _ _ _ _ _ hlt]
      intro rec hrec
      cases hrec

/-- C29: when every quote request is rejected under the default cap, the run makes three
attempts and the failed record it stores carries the count 2. -/
theorem failed_record_counts_retries_not_attempts :
    (executeCopyTrade defaultConfig follower buyTx (some leaderWallet) "sig1"
      quoteAlwaysFails).outcome = .exhausted ∧
    attemptsStarted (executeCopyTrade defaultConfig follower buyTx (some leaderWallet) "sig1"
      quoteAlwaysFails) = 3 ∧
    (quoteRequests (executeCopyTrade defaultConfig follower buyTx (some leaderWallet) "sig1"
      quoteAlwaysFails).effects).length = 3 ∧
    (appended (executeCopyTrade defaultConfig follower buyTx (some leaderWallet) "sig1"
      quoteAlwaysFails).effects).map (fun record => (record.isSuccess, record.retries))
        = [(false, 2)] := by
  decide!

/-- C29, amended: every record a run of `executeCopyTrade` stores, the failed record and the
success record alike, carries as `retries` the number of attempts made in the run minus one
(2 for the failed record under the default cap). -/
theorem stored_record_counts_attempts_less_one (cfg : Config) (inv : Investment) (tx : Tx)
    (fundWallet : Option String) (fundTxSignature : String) (env : RunEnv)
    (rec : TradeRecord)
    (hrec : rec ∈ appended
      (executeCopyTrade cfg inv tx fundWallet fundTxSignature env).effects) :
    rec.retries
      = (attemptsStarted (executeCopyTrade cfg inv tx fundWallet fundTxSignature env) : Int)
          - 1 := by
  unfold executeCopyTrade at hrec ⊢
  exact retryLoop_record_retries cfg inv tx fundWallet fundTxSignature env _ 0
    (by simp) rec hrec

/-- Witness for C29: the failed record of the run in which every quote request is rejected. -/
theorem stored_record_counts_attempts_less_one_witness :
    failedRecord follower buyTx "sig1" 3 quoteFails "Request failed with status code 429"
      ∈ appended (executeCopyTrade defaultConfig follower buyTx (some leaderWallet) "sig1"
          quoteAlwaysFails).effects ∧
    (failedRecord follower buyTx "sig1" 3 quoteFails
        "Request failed with status code 429").retries
      = (attemptsStarted (executeCopyTrade defaultConfig follower buyTx (some leaderWallet)
          "sig1" quoteAlwaysFails) : Int) - 1 :=
  ⟨by decide!,
    stored_record_counts_attempts_less_one defaultConfig follower buyTx (some leaderWallet)
      "sig1" quoteAlwaysFails _ (by decide!)⟩

/-- C30: the failed record of a sell event is stored with direction "buy", and the failed
record of a buy event whose first transfer is the base asset is stored with the base-asset
mint as token, although the event is classified as a sell, or as a buy of the token, by
`findTradedToken`; the success record of the same sell event carries "sell". -/
theorem failed_record_direction_and_token_are_fixed :
    findTradedToken (some leaderWallet) (sellTx.tokenTransfers.getD [])
      = some (tokenMintA, "USDC", false) ∧
    (appended (executeCopyTrade defaultConfig follower sellTx (some leaderWallet) "sig2"
      quoteAlwaysFails).effects).map (fun record => (record.type, record.tokenAddress))
        = [("buy", tokenMintA)] ∧
    (appended (executeCopyTrade defaultConfig follower sellTx (some leaderWallet) "sig2"
      okRun).effects).map (fun record => (record.type, record.tokenAddress))
        = [("sell", tokenMintA)] ∧
    findTradedToken (some leaderWallet) (buyTx.tokenTransfers.getD [])
      = some (tokenMintA, "USDC", true) ∧
    (appended (executeCopyTrade defaultConfig follower buyTx (some leaderWallet) "sig1"
      quoteAlwaysFails).effects).map (fun record => (record.type, record.tokenAddress))
        = [("buy", SOL_MINT)] ∧
    tokenMintA ≠ SOL_MINT := by
  decide!

/-! ## Polling: the high-water mark and what is emitted -/

theorem jsMapGet_of_not_has {β : Type} (m : List (String × β)) (key : String)
    (h : jsMapHas m key = false) : m.find? (fun entry => entry.1 == key) = none := by
  rw [List.find?_eq_none]
  intro x hx hp
  unfold jsMapHas at h
  rw [List.any_eq_false] at h
  exact h x hx hp

theorem jsMapGet_map_of_has {β : Type} (key : String) (value : β) :
    ∀ (m : List (String × β)), jsMapHas m key = true →
      jsMapGet (m.map fun entry => if entry.1 == key then (key, value) else entry) key
        = some value := by
  intro m
  induction m with
  | nil => intro h; simp [jsMapHas] at h
  | cons e m ih =>
    intro h
    by_cases he : (e.1 == key) = true
    · simp [jsMapGet, List.find?, he]
    · have hm : jsMapHas m key = true := by
        simp only [jsMapHas, List.any_cons, Bool.or_eq_true] at h
        rcases h with h | h
        · exact absurd h he
        · exact h
      have := ih hm
      unfold jsMapGet at this ⊢
      rw [List.map_cons, if_neg he,
        List.find?_cons_of_neg (p := fun entry : String × β => entry.1 == key) _ he]
      exact this

theorem jsMapGet_jsMapSet {β : Type} (m : List (String × β)) (key : String) (value : β) :
    jsMapGet (jsMapSet m key value) key = some value := by
  unfold jsMapSet
  by_cases h : jsMapHas m key = true
  · rw [if_pos h]
    exact jsMapGet_map_of_has key value m h
  · rw [if_neg h]
    have h2 : jsMapHas m key = false := by simpa using h
    simp [jsMapGet, List.find?_append, jsMapGet_of_not_has m key h2]

theorem mem_jsSetAdd (s : List String) (x y : String) :
    y ∈ jsSetAdd s x ↔ y ∈ s ∨ y = x := by
  unfold jsSetAdd
  split
  · rename_i h
    have hx : x ∈ s := by simpa using h
    constructor
    · intro hy; exact Or.inl hy
    · rintro (hy | hy)
      · exact hy
      · rw [hy]; exact hx
  · simp

theorem scanTransactions_error_none (callback : Tx → Except String Unit)
    (lastSignature : Option String) (hcb : ∀ tx, callback tx = .ok ()) :
    ∀ (page : List Tx) (processed : List String),
      (scanTransactions callback lastSignature processed page).error = none := by
  intro page
  induction page with
  | nil => intro processed; rfl
  | cons tx rest ih =>
    intro processed
    unfold scanTransactions
    split
    · rfl
    · split
      · exact ih processed
      · split
        · simp only [hcb tx]
          exact ih _
        · exact ih processed

theorem scanSignatures_error_none (walletAddress : String)
    (getParsedTransaction : String → Except String (Option ParsedTransaction))
    (callback : Tx → Except String Unit) (lastSignature : Option String)
    (hget : ∀ s, ∃ r, getParsedTransaction s = .ok r) (hcb : ∀ tx, callback tx = .ok ()) :
    ∀ (page : List String) (processed : List String),
      (scanSignatures walletAddress getParsedTransaction callback lastSignature processed
        page).error = none := by
  intro page
  induction page with
  | nil => intro processed; rfl
  | cons signature rest ih =>
    intro processed
    unfold scanSignatures
    split
    · rfl
    · split
      · exact ih processed
      · obtain ⟨r, hr⟩ := hget signature
        cases r with
        | none =>
          simp only [hr]
          exact ih processed
        | some tx =>
          simp only [hr]
          split
          · simp only [hcb]
            exact ih _
          · exact ih processed

theorem scanTransactions_emitted (callback : Tx → Except String Unit)
    (lastSignature : Option String) :
    ∀ (page : List Tx) (processed : List String),
      ∀ e ∈ (scanTransactions callback lastSignature processed page).emitted,
        e.type = some "SWAP" ∧ e.signature ∉ processed ∧ some e.signature ≠ lastSignature := by
  intro page
  induction page with
  | nil => intro processed e he; cases he
  | cons tx rest ih =>
    intro processed
    unfold scanTransactions
    split
    · intro e he; cases he
    · rename_i hmark
      split
      · exact ih processed
      · rename_i hseen
        have hnot : tx.signature ∉ processed := by simpa using hseen
        split
        · rename_i hswap
          cases hcall : callback tx with
          | error m =>
            simp only
            intro e he
            rw [List.mem_singleton] at he
            rw [he]
            exact ⟨hswap, hnot, hmark⟩
          | ok u =>
            simp only
            intro e he
            rw [List.mem_cons] at he
            rcases he with he | he
            · rw [he]
              exact ⟨hswap, hnot, hmark⟩
            · have := ih _ e he
              refine ⟨this.1, ?_, this.2.2⟩
              intro hin
              exact this.2.1 ((mem_jsSetAdd _ _ _).mpr (Or.inl hin))
        · exact ih processed

theorem scanTransactions_sublist (callback : Tx → Except String Unit)
    (lastSignature : Option String) :
    ∀ (page : List Tx) (processed : List String),
      (scanTransactions callback lastSignature processed page).emitted.Sublist
        (beforeMark lastSignature page) := by
  intro page
  induction page with
  | nil => intro processed; exact List.Sublist.slnil
  | cons tx rest ih =>
    intro processed
    unfold scanTransactions beforeMark
    split
    · exact List.nil_sublist _
    · rename_i hmark
      have htw : (List.takeWhile (fun tx => !decide (some tx.signature = lastSignature))
          (tx :: rest))
          = tx :: List.takeWhile (fun tx => !decide (some tx.signature = lastSignature))
              rest := by
        rw [List.takeWhile_cons_of_pos]
        simpa using hmark
      rw [htw]
      split
      · exact List.Sublist.cons _ (ih processed)
      · split
        · cases hcall : callback tx with
          | error m =>
            simp only
            exact List.Sublist.cons₂ _ (List.nil_sublist _)
          | ok u =>
            simp only
            exact List.Sublist.cons₂ _ (ih _)
        · exact List.Sublist.cons _ (ih processed)

theorem scanTransactions_exact (callback : Tx → Except String Unit)
    (lastSignature : Option String) (hcb : ∀ tx, callback tx = .ok ()) :
    ∀ (page : List Tx) (processed : List String), (page.map Tx.signature).Nodup →
      (scanTransactions callback lastSignature processed page).emitted
        = (beforeMark lastSignature page).filter fun tx =>
            decide (tx.type = some "SWAP") && !processed.contains tx.signature := by
  intro page
  induction page with
  | nil => intro processed _; rfl
  | cons tx rest ih =>
    intro processed hnd
    rw [List.map_cons, List.nodup_cons] at hnd
    unfold scanTransactions beforeMark
    split
    · rename_i hmark
      rw [List.takeWhile_cons_of_neg]
      · rfl
      · simpa using hmark
    · rename_i hmark
      have htw : (List.takeWhile (fun tx => !decide (some tx.signature = lastSignature))
          (tx :: rest))
          = tx :: List.takeWhile (fun tx => !decide (some tx.signature = lastSignature))
              rest := by
        rw [List.takeWhile_cons_of_pos]
        simpa using hmark
      rw [htw]
      split
      · rename_i hseen
        have hmem : tx.signature ∈ processed := by simpa using hseen
        rw [List.filter_cons_of_neg]
        · exact ih processed hnd.2
        · simp [hmem]
      · rename_i hseen
        split
        · rename_i hswap
          simp only [hcb tx]
          rw [List.filter_cons_of_pos]
          · rw [ih _ hnd.2]
            congr 1
            apply List.filter_congr
            intro x hx
            have hxr : x ∈ rest := (List.takeWhile_sublist _).subset hx
            have hxs : x.signature ≠ tx.signature := by
              intro heq
              apply hnd.1
              rw [← heq]
              exact List.mem_map_of_mem _ hxr
            have hiff : (jsSetAdd processed tx.signature).contains x.signature
                = processed.contains x.signature := by
              simp [mem_jsSetAdd, hxs]
            rw [hiff]
          · have hnot : tx.signature ∉ processed := by simpa using hseen
            simp [hswap, hnot]
        · rename_i hswap
          rw [List.filter_cons_of_neg]
          · exact ih processed hnd.2
          · simp [hswap]

theorem scanSignatures_emitted_type (walletAddress : String)
    (getParsedTransaction : String → Except String (Option ParsedTransaction))
    (callback : Tx → Except String Unit) (lastSignature : Option String) :
    ∀ (page : List String) (processed : List String),
      ∀ e ∈ (scanSignatures walletAddress getParsedTransaction callback lastSignature processed
        page).emitted, e.type = some "SWAP" := by
  intro page
  induction page with
  | nil => intro processed e he; cases he
  | cons signature rest ih =>
    intro processed
    unfold scanSignatures
    split
    · intro e he; cases he
    · split
      · exact ih processed
      · cases hget : getParsedTransaction signature with
        | error m => intro e he; cases he
        | ok r =>
          cases r with
          | none => exact ih processed
          | some tx =>
            simp only
            split
            · cases hcall : callback (convertToHeliusFormat tx walletAddress) with
              | error m =>
                simp only
                intro e he
                rw [List.mem_singleton] at he
                rw [he]
                rfl
              | ok u =>
                simp only
                intro e he
                rw [List.mem_cons] at he
                rcases he with he | he
                · rw [he]; rfl
                · exact ih _ e he
            · exact ih processed

theorem checkWalletPublicRPC_emitted_type (monitor : Monitor) (walletAddress : String)
    (poll : PollEnv) :
    ∀ e ∈ (monitor.checkWalletPublicRPC walletAddress poll).2, e.type = some "SWAP" := by
  unfold Monitor.checkWalletPublicRPC
  cases hs : poll.signatures with
  | error m => intro e he; cases he
  | ok signatures =>
    simp only
    have := scanSignatures_emitted_type walletAddress poll.getParsedTransaction poll.callback
      (jsMapGet monitor.lastCheckedSignatures walletAddress) signatures
      monitor.processedSignatures
    split <;> exact this

theorem checkWallet_emitted_type (monitor : Monitor) (heliusApiKey : Option String)
    (walletAddress : String) (now : Int) (poll : PollEnv) :
    ∀ e ∈ (monitor.checkWallet heliusApiKey walletAddress now poll).2,
      e.type = some "SWAP" := by
  unfold Monitor.checkWallet
  simp only
  split
  · exact checkWalletPublicRPC_emitted_type _ walletAddress poll
  · split
    · intro e he; cases he
    · intro e he; cases he
    · intro e he; cases he
    · rename_i first rest _
      have := scanTransactions_emitted poll.callback
        (jsMapGet monitor.lastCheckedSignatures walletAddress) (first :: rest)
        monitor.processedSignatures
      split <;> exact fun e he => (this e he).1

/-- C22: when the callback does not fail, a poll of a wallet that fetches a non-empty page sets
the high-water mark of the wallet to the signature of the first entry of the page, whatever
the loop emitted: `checkWallet` with an API key on the page of the enhanced API, and
`checkWalletPublicRPC` (also when reached through `checkWallet` without an API key) on the
page of signatures, provided the lookups of the parsed transactions answer. -/
theorem poll_moves_mark_to_newest_entry (monitor : Monitor) (heliusApiKey : Option String)
    (walletAddress : String) (now : Int) (poll : PollEnv)
    (hcb : ∀ tx, poll.callback tx = .ok ()) :
    (∀ first rest, truthy heliusApiKey = true →
      poll.transactions = .ok (some (first :: rest)) →
      jsMapGet (monitor.checkWallet heliusApiKey walletAddress now poll).1.lastCheckedSignatures
        walletAddress = some first.signature) ∧
    (∀ first rest, poll.signatures = .ok (first :: rest) →
      (∀ s, ∃ r, poll.getParsedTransaction s = .ok r) →
      jsMapGet (monitor.checkWalletPublicRPC walletAddress poll).1.lastCheckedSignatures
          walletAddress = some first ∧
        (truthy heliusApiKey = false →
          jsMapGet
            (monitor.checkWallet heliusApiKey walletAddress now poll).1.lastCheckedSignatures
            walletAddress = some first)) := by
  have hpub : ∀ (m : Monitor) first rest, poll.signatures = .ok (first :: rest) →
      (∀ s, ∃ r, poll.getParsedTransaction s = .ok r) →
      jsMapGet (m.checkWalletPublicRPC walletAddress poll).1.lastCheckedSignatures
          walletAddress = some first := by
    intro m first rest hs hget
    unfold Monitor.checkWalletPublicRPC
    simp only [hs]
    rw [scanSignatures_error_none walletAddress poll.getParsedTransaction poll.callback _
      hget hcb]
    exact jsMapGet_jsMapSet _ _ _
  refine ⟨?_, ?_⟩
  · intro first rest hkey hpage
    unfold Monitor.checkWallet
    simp only [hkey, hpage, Bool.not_true, Bool.false_eq_true, if_false]
    rw [scanTransactions_error_none poll.callback _ hcb]
    exact jsMapGet_jsMapSet _ _ _
  · intro first rest hs hget
    refine ⟨hpub monitor first rest hs hget, ?_⟩
    intro hkey
    unfold Monitor.checkWallet
    simp only [hkey, Bool.not_false, if_true]
    exact hpub _ first rest hs hget

/-- Witness for C22: the newest entry of the fetched page is a transfer that is not emitted,
and the mark moves to its signature on either path. -/
theorem poll_moves_mark_to_newest_entry_witness :
    (markedMonitor.checkWallet (some "helius-key") leaderWallet 5000 leaderPoll).2
      = [newerSwap] ∧
    jsMapGet (markedMonitor.checkWallet (some "helius-key") leaderWallet 5000
      leaderPoll).1.lastCheckedSignatures leaderWallet = some "sig5" ∧
    jsMapGet (markedMonitor.checkWalletPublicRPC leaderWallet
      leaderPoll).1.lastCheckedSignatures leaderWallet = some "sig5" :=
  ⟨by decide!,
    (poll_moves_mark_to_newest_entry markedMonitor (some "helius-key") leaderWallet 5000
      leaderPoll (fun _ => rfl)).1 transferTx [newerSwap, buyTx, sellTx] (by decide) rfl,
    ((poll_moves_mark_to_newest_entry markedMonitor (some "helius-key") leaderWallet 5000
      leaderPoll (fun _ => rfl)).2 "sig5" ["sig3", "sig1", "sig2"] rfl
        (fun _ => ⟨none, rfl⟩)).1⟩

/-- C23: for every fetched page and every stored high-water mark, the events `checkWallet`
emits are, in page order, entries that precede the first occurrence of the mark; each is typed
SWAP, carries a signature that was not in the processed-signature set and differs from the
mark; and when the callback does not fail and the signatures of the page are distinct, the
emitted events are exactly the SWAP-typed entries before the mark whose signature was not in
the processed-signature set. -/
theorem checkWallet_emits_new_swaps_before_mark (monitor : Monitor)
    (heliusApiKey : Option String) (walletAddress : String) (now : Int) (poll : PollEnv)
    (page : List Tx) (hkey : truthy heliusApiKey = true)
    (hpage : poll.transactions = .ok (some page)) :
    (monitor.checkWallet heliusApiKey walletAddress now poll).2.Sublist
      (beforeMark (jsMapGet monitor.lastCheckedSignatures walletAddress) page) ∧
    (∀ e ∈ (monitor.checkWallet heliusApiKey walletAddress now poll).2,
      e.type = some "SWAP" ∧ e.signature ∉ monitor.processedSignatures ∧
        some e.signature ≠ jsMapGet monitor.lastCheckedSignatures walletAddress) ∧
    ((∀ tx, poll.callback tx = .ok ()) → (page.map Tx.signature).Nodup →
      (monitor.checkWallet heliusApiKey walletAddress now poll).2
        = (beforeMark (jsMapGet monitor.lastCheckedSignatures walletAddress) page).filter
            fun tx => decide (tx.type = some "SWAP") &&
              !monitor.processedSignatures.contains tx.signature) := by
  have hem : (monitor.checkWallet heliusApiKey walletAddress now poll).2
      = (scanTransactions poll.callback (jsMapGet monitor.lastCheckedSignatures walletAddress)
          monitor.processedSignatures page).emitted := by
    unfold Monitor.checkWallet
    simp only [hkey, hpage, Bool.not_true, Bool.false_eq_true, if_false]
    cases page with
    | nil => rfl
    | cons first rest =>
      simp only
      split <;> rfl
  rw [hem]
  exact ⟨scanTransactions_sublist _ _ _ _, scanTransactions_emitted _ _ _ _,
    fun hcb hnd => scanTransactions_exact _ _ hcb _ _ hnd⟩

/-- Witness for C23: with the mark at the buy, the poll emits the new swap alone; the transfer
before it, the marked buy and the older sell behind the mark are not emitted. -/
theorem checkWallet_emits_new_swaps_before_mark_witness :
    beforeMark (jsMapGet markedMonitor.lastCheckedSignatures leaderWallet)
      [transferTx, newerSwap, buyTx, sellTx] = [transferTx, newerSwap] ∧
    (markedMonitor.checkWallet (some "helius-key") leaderWallet 5000 leaderPoll).2
      = [newerSwap] ∧
    (markedMonitor.checkWallet (some "helius-key") leaderWallet 5000 leaderPoll).2
      = (beforeMark (jsMapGet markedMonitor.lastCheckedSignatures leaderWallet)
          [transferTx, newerSwap, buyTx, sellTx]).filter
            fun tx => decide (tx.type = some "SWAP") &&
              !markedMonitor.processedSignatures.contains tx.signature :=
  ⟨by decide!, by decide!,
    (checkWallet_emits_new_swaps_before_mark markedMonitor (some "helius-key") leaderWallet
      5000 leaderPoll [transferTx, newerSwap, buyTx, sellTx] (by decide) rfl).2.2
        (fun _ => rfl) (by decide)⟩

/-- C28: an event typed TRANSFER that carries a transfer list is not skipped by
`processTransaction`: the fund of its wallet is looked up and the copy trade of the follower
is executed and submits a swap. -/
theorem non_swap_event_with_transfers_is_copied :
    transferTx.type ≠ some "SWAP" ∧
    (processTransaction defaultConfig liveServices fundStore [] transferTx
      steadyTasks).outcome = .dispatched ∧
    (processTransaction defaultConfig liveServices fundStore [] transferTx steadyTasks).tasks
      = [(follower, .executed (executeCopyTrade defaultConfig follower transferTx
          (some leaderWallet) "sig5" okRun))] ∧
    (executeCopyTrade defaultConfig follower transferTx (some leaderWallet) "sig5"
      okRun).outcome = .succeeded ∧
    swapSubmits (executeCopyTrade defaultConfig follower transferTx (some leaderWallet) "sig5"
      okRun).effects = 1 := by
  decide!

/-- C28, amended: an event whose type is not SWAP and that carries no transfer list never
leads to a copy trade: `processTransaction` skips it before any fund lookup, leaving the cache
untouched and starting no task; and every event the poller emits, on either path of
`checkWallet`, is typed SWAP. -/
theorem untyped_event_without_transfers_is_skipped (cfg : Config) (sv : Services)
    (store : Store) (cache : ProcessedTransactions) (tx : Tx) (envs : Nat → TaskEnv)
    (htype : tx.type ≠ some "SWAP") (hnone : tx.tokenTransfers = none) :
    processTransaction cfg sv store cache tx envs
      = { cache := cache, outcome := .skippedNonSwap, fundWallet := none, tasks := [] } ∧
    ∀ (monitor : Monitor) (heliusApiKey : Option String) (walletAddress : String) (now : Int)
      (poll : PollEnv),
      ∀ e ∈ (monitor.checkWallet heliusApiKey walletAddress now poll).2,
        e.type = some "SWAP" := by
  refine ⟨?_, fun monitor key w now poll => checkWallet_emitted_type monitor key w now poll⟩
  unfold processTransaction
  have h1 : (tx.type != some "SWAP") = true := by simpa using htype
  simp [h1, hnone]

/-- Witness for C28: a transfer event without a transfer list is skipped. -/
theorem untyped_event_without_transfers_is_skipped_witness :
    (processTransaction defaultConfig liveServices fundStore []
      { transferTx with tokenTransfers := none } steadyTasks).outcome = .skippedNonSwap ∧
    (processTransaction defaultConfig liveServices fundStore []
      { transferTx with tokenTransfers := none } steadyTasks).tasks = [] :=
  ⟨congrArg ProcessResult.outcome
      (untyped_event_without_transfers_is_skipped defaultConfig liveServices fundStore []
        { transferTx with tokenTransfers := none } steadyTasks (by decide) rfl).1,
    congrArg ProcessResult.tasks
      (untyped_event_without_transfers_is_skipped defaultConfig liveServices fundStore []
        { transferTx with tokenTransfers := none } steadyTasks (by decide) rfl).1⟩

/-! ## Failures stay inside processTransaction and the notifications -/

theorem matchFunds_error_of_missing_list (fundWallet : Option String) :
    ∀ (funds : List FundDoc), (∃ fund ∈ funds, fund.walletAddresses = none) →
      ∃ m, matchFunds fundWallet funds = .error m := by
  intro funds
  induction funds with
  | nil => rintro ⟨fund, hf, _⟩; cases hf
  | cons f rest ih =>
    rintro ⟨fund, hf, hnone⟩
    unfold matchFunds
    cases hw : f.walletAddresses with
    | none => exact ⟨_, rfl⟩
    | some wallets =>
      have hrest : ∃ fund ∈ rest, fund.walletAddresses = none := by
        rw [List.mem_cons] at hf
        rcases hf with hf | hf
        · rw [hf, hw] at hnone; cases hnone
        · exact ⟨fund, hf, hnone⟩
      obtain ⟨m, hm⟩ := ih hrest
      exact ⟨m, by simp only [hm]⟩

theorem processDelivered_failed (cfg : Config) (sv : Services) (store : Store)
    (cache : ProcessedTransactions) (tx : Option Tx) (envs : Nat → TaskEnv) (m : String)
    (h : (processDelivered cfg sv store cache tx envs).outcome = .failed m) :
    (processDelivered cfg sv store cache tx envs).cache = cache ∧
    (processDelivered cfg sv store cache tx envs).tasks = [] := by
  cases tx with
  | none => exact ⟨rfl, rfl⟩
  | some tx =>
    unfold processDelivered processTransaction at h ⊢
    simp only at h ⊢
    split
    · exact ⟨rfl, rfl⟩
    · rename_i hskip
      rw [if_neg hskip] at h
      cases hs : sv.storeError with
      | some e => exact ⟨rfl, rfl⟩
      | none =>
        rw [hs] at h
        simp only at h ⊢
        cases hm : matchFunds (extractFundWallet tx) store.funds with
        | error e => exact ⟨rfl, rfl⟩
        | ok funds =>
          rw [hm] at h
          cases funds with
          | nil => exact ⟨rfl, rfl⟩
          | cons fund more =>
            simp only at h
            cases h

theorem webhookBatch_append (cfg : Config) (sv : Services) (store : Store) :
    ∀ (pre post : List (Option Tx × (Nat → TaskEnv))) (cache : ProcessedTransactions),
      webhookBatch cfg sv store cache (pre ++ post)
        = webhookBatch cfg sv store cache pre
          ++ webhookBatch cfg sv store (webhookBatchCache cfg sv store cache pre) post := by
  intro pre
  induction pre with
  | nil => intro post cache; rfl
  | cons ev pre ih =>
    intro post cache
    obtain ⟨tx, envs⟩ := ev
    rw [List.cons_append]
    simp only [webhookBatch, webhookBatchCache, List.cons_append]
    rw [ih]

theorem sendSuccessNotification_ok (n : NotifyEnv) : ∃ d, sendSuccessNotification n = .ok d := by
  unfold sendSuccessNotification
  cases notifyTry "trade_success" n with
  | error m => exact ⟨_, rfl⟩
  | ok d => exact ⟨_, rfl⟩

theorem sendFailureNotification_ok (n : NotifyEnv) : ∃ d, sendFailureNotification n = .ok d := by
  unfold sendFailureNotification
  cases notifyTry "trade_failure" n with
  | error m => exact ⟨_, rfl⟩
  | ok d => exact ⟨_, rfl⟩

theorem sendTradeNotification_ok (n : NotifyEnv) : ∃ d, sendTradeNotification n = .ok d := by
  unfold sendTradeNotification
  cases notifyTry "copy_trade" n with
  | error m => exact ⟨_, rfl⟩
  | ok d => exact ⟨_, rfl⟩

theorem attemptNotified_eq (cfg : Config) (inv : Investment) (tx : Tx)
    (fundWallet : Option String) (fundTxSignature : String) (startTime : Int) (retries : Nat)
    (e : AttemptEnv) (n : NotifyEnv) :
    attemptNotified cfg inv tx fundWallet fundTxSignature startTime retries e n
      = attempt cfg inv tx fundWallet fundTxSignature startTime retries e := by
  unfold attemptNotified
  rcases attempt cfg inv tx fundWallet fundTxSignature startTime retries e with ⟨effs, stop⟩
  cases stop with
  | succeeded =>
    obtain ⟨d, hd⟩ := sendSuccessNotification_ok n
    simp only [hd]
  | skipped why => rfl
  | thrown m => rfl

theorem retryLoopNotified_eq (cfg : Config) (inv : Investment) (tx : Tx)
    (fundWallet : Option String) (fundTxSignature : String) (env : RunEnv)
    (notify : NotifyRun) :
    ∀ (fuel retries : Nat),
      retryLoopNotified cfg inv tx fundWallet fundTxSignature env notify fuel retries
        = retryLoop cfg inv tx fundWallet fundTxSignature env fuel retries := by
  intro fuel
  induction fuel with
  | zero => intro retries; rfl
  | succ fuel ih =>
    intro retries
    obtain ⟨d, hd⟩ := sendFailureNotification_ok (notify.failure retries)
    simp only [retryLoopNotified, retryLoop, attemptNotified_eq, hd, ih]

/-- C24: whatever is delivered, `processTransaction` returns to its caller: a null event, a
failing store and a fund document without a wallet list end in the logged outcome `failed` (or
in the skip); a call that ends so leaves the cache as it was and starts no task; and in a push
batch the events before and after a failing event are processed exactly as in the batch without
it. -/
theorem failing_event_does_not_stop_the_batch (cfg : Config) (sv : Services) (store : Store)
    (cache : ProcessedTransactions) (pre post : List (Option Tx × (Nat → TaskEnv)))
    (bad : Option Tx) (envs : Nat → TaskEnv) (m : String)
    (hbad : (processDelivered cfg sv store (webhookBatchCache cfg sv store cache pre) bad
      envs).outcome = .failed m) :
    (processDelivered cfg sv store cache none envs).outcome
      = .failed "TypeError: Cannot destructure property of null" ∧
    (∀ e tx, sv.storeError = some e →
      (processDelivered cfg sv store cache (some tx) envs).outcome = .failed e ∨
      (processDelivered cfg sv store cache (some tx) envs).outcome = .skippedNonSwap) ∧
    (sv.storeError = none → (∃ fund ∈ store.funds, fund.walletAddresses = none) → ∀ tx,
      (∃ e, (processDelivered cfg sv store cache (some tx) envs).outcome = .failed e) ∨
      (processDelivered cfg sv store cache (some tx) envs).outcome = .skippedNonSwap) ∧
    (processDelivered cfg sv store (webhookBatchCache cfg sv store cache pre) bad envs).cache
      = webhookBatchCache cfg sv store cache pre ∧
    (processDelivered cfg sv store (webhookBatchCache cfg sv store cache pre) bad
      envs).tasks = [] ∧
    webhookBatch cfg sv store cache (pre ++ (bad, envs) :: post)
      = webhookBatch cfg sv store cache pre
        ++ processDelivered cfg sv store (webhookBatchCache cfg sv store cache pre) bad envs
        :: webhookBatch cfg sv store (webhookBatchCache cfg sv store cache pre) post ∧
    webhookBatch cfg sv store cache (pre ++ post)
      = webhookBatch cfg sv store cache pre
        ++ webhookBatch cfg sv store (webhookBatchCache cfg sv store cache pre) post := by
  have hf := processDelivered_failed cfg sv store _ bad envs m hbad
  refine ⟨rfl, ?_, ?_, hf.1, hf.2, ?_, webhookBatch_append cfg sv store pre post cache⟩
  · intro e tx hs
    unfold processDelivered processTransaction
    simp only [hs]
    split
    · exact Or.inr rfl
    · exact Or.inl rfl
  · intro hs hfund tx
    obtain ⟨e, he⟩ := matchFunds_error_of_missing_list (extractFundWallet tx) store.funds hfund
    unfold processDelivered processTransaction
    simp only [hs, he]
    split
    · exact Or.inr rfl
    · exact Or.inl ⟨e, rfl⟩
  · rw [webhookBatch_append]
    simp only [webhookBatch, hf.1]

/-- Witness for C24: a batch of a null element followed by the leader's buy; the null element
ends in `failed` and the buy is dispatched to the follower all the same. -/
theorem failing_event_does_not_stop_the_batch_witness :
    (webhookBatch defaultConfig liveServices fundStore []
      [(none, steadyTasks), (some buyTx, steadyTasks)]).map ProcessResult.outcome
        = [.failed "TypeError: Cannot destructure property of null", .dispatched] ∧
    webhookBatch defaultConfig liveServices fundStore []
        ([] ++ (none, steadyTasks) :: [(some buyTx, steadyTasks)])
      = webhookBatch defaultConfig liveServices fundStore [] []
        ++ processDelivered defaultConfig liveServices fundStore
            (webhookBatchCache defaultConfig liveServices fundStore [] []) none steadyTasks
        :: webhookBatch defaultConfig liveServices fundStore
            (webhookBatchCache defaultConfig liveServices fundStore [] [])
            [(some buyTx, steadyTasks)] :=
  ⟨by decide!,
    (failing_event_does_not_stop_the_batch defaultConfig liveServices fundStore [] []
      [(some buyTx, steadyTasks)] none steadyTasks
      "TypeError: Cannot destructure property of null" rfl).2.2.2.2.2.1⟩

/-- C25: the three notification functions return to their caller whatever their collaborators
answer, also when the messaging service rejects the message; so a run of `executeCopyTrade`
is the same for any two behaviours of notification delivery: the same records appended, the
same number of attempts, the same swaps submitted. -/
theorem notification_delivery_does_not_change_the_run (cfg : Config) (inv : Investment)
    (tx : Tx) (fundWallet : Option String) (fundTxSignature : String) (env : RunEnv)
    (n1 n2 : NotifyRun) :
    (∀ n, ∃ d, sendSuccessNotification n = .ok d) ∧
    (∀ n, ∃ d, sendFailureNotification n = .ok d) ∧
    (∀ n, ∃ d, sendTradeNotification n = .ok d) ∧
    sendSuccessNotification rejectedDelivery
      = .ok (.failed "messaging/registration-token-not-registered") ∧
    appended (executeCopyTradeNotified cfg inv tx fundWallet fundTxSignature env n1).effects
      = appended
          (executeCopyTradeNotified cfg inv tx fundWallet fundTxSignature env n2).effects ∧
    attemptsStarted (executeCopyTradeNotified cfg inv tx fundWallet fundTxSignature env n1)
      = attemptsStarted
          (executeCopyTradeNotified cfg inv tx fundWallet fundTxSignature env n2) ∧
    swapSubmits (executeCopyTradeNotified cfg inv tx fundWallet fundTxSignature env n1).effects
      = swapSubmits
          (executeCopyTradeNotified cfg inv tx fundWallet fundTxSignature env n2).effects ∧
    executeCopyTradeNotified cfg inv tx fundWallet fundTxSignature env n1
      = executeCopyTrade cfg inv tx fundWallet fundTxSignature env := by
  have h : ∀ n, executeCopyTradeNotified cfg inv tx fundWallet fundTxSignature env n
      = executeCopyTrade cfg inv tx fundWallet fundTxSignature env := by
    intro n
    unfold executeCopyTradeNotified executeCopyTrade
    exact retryLoopNotified_eq cfg inv tx fundWallet fundTxSignature env n _ 0
  refine ⟨sendSuccessNotification_ok, sendFailureNotification_ok, sendTradeNotification_ok,
    rfl, ?_, ?_, ?_, h n1⟩
  · rw [h n1, h n2]
  · rw [h n1, h n2]
  · rw [h n1, h n2]

/-! ## Key encryption -/

/-- C26: for every plaintext and every 24-byte nonce, under the contracts of the two libraries
(the box sealed with a nonce and a key opens with them to the message, base64 decoding undoes
base64 encoding, UTF-8 decoding undoes UTF-8 encoding), `encryptData` returns the base64
encoding of the nonce followed by the secretbox ciphertext, `decryptData` splits it at byte 24,
opens it with the same 32-byte key and returns the plaintext. -/
theorem decryptData_returns_encrypted_plaintext (lib : Sodium) (nonce : Bytes)
    (plaintext : String) (hnonce : nonce.length = 24)
    (hbox : lib.crypto_secretbox_open_easy
        (lib.crypto_secretbox_easy (lib.utf8Encode plaintext) nonce (sodiumKey lib)) nonce
        (sodiumKey lib) = .ok (lib.utf8Encode plaintext))
    (hbase64 : lib.base64Decode (lib.base64Encode
        (nonce ++ lib.crypto_secretbox_easy (lib.utf8Encode plaintext) nonce (sodiumKey lib)))
      = nonce ++ lib.crypto_secretbox_easy (lib.utf8Encode plaintext) nonce (sodiumKey lib))
    (hutf8 : lib.utf8Decode (lib.utf8Encode plaintext) = plaintext) :
    encryptData lib nonce plaintext
      = lib.base64Encode
          (nonce ++ lib.crypto_secretbox_easy (lib.utf8Encode plaintext) nonce
            (sodiumKey lib)) ∧
    (lib.base64Decode (encryptData lib nonce plaintext)).take 24 = nonce ∧
    (lib.base64Decode (encryptData lib nonce plaintext)).drop 24
      = lib.crypto_secretbox_easy (lib.utf8Encode plaintext) nonce (sodiumKey lib) ∧
    (sodiumKey lib).length = 32 ∧
    decryptData lib (encryptData lib nonce plaintext) = .ok plaintext := by
  have htake : (nonce ++ lib.crypto_secretbox_easy (lib.utf8Encode plaintext) nonce
      (sodiumKey lib)).take 24 = nonce := by
    rw [← hnonce, List.take_left]
  have hdrop : (nonce ++ lib.crypto_secretbox_easy (lib.utf8Encode plaintext) nonce
      (sodiumKey lib)).drop 24
      = lib.crypto_secretbox_easy (lib.utf8Encode plaintext) nonce (sodiumKey lib) := by
    rw [← hnonce, List.drop_left]
  refine ⟨rfl, ?_, ?_, ?_, ?_⟩
  · unfold encryptData
    simp only [hbase64, htake]
  · unfold encryptData
    simp only [hbase64, hdrop]
  · unfold sodiumKey
    simp only [List.length_append, List.length_take, List.length_replicate]
    omega
  · unfold decryptData encryptData
    simp only [hbase64, htake, hdrop, hbox, hutf8]

/-- Witness for C26: the hexadecimal text "00ff" under the stand-in library and a nonce of 24
bytes. -/
theorem decryptData_returns_encrypted_plaintext_witness :
    sampleNonce.length = 24 ∧
    decryptData asciiSodium (encryptData asciiSodium sampleNonce "00ff") = .ok "00ff" :=
  ⟨by decide,
    (decryptData_returns_encrypted_plaintext asciiSodium sampleNonce "00ff" (by decide)
      (congrArg Except.ok (by decide!)) (by decide!) (by decide!)).2.2.2.2⟩

/-- C14: in a store where a fund document without a wallet list precedes the fund of the leader
wallet, the fund matcher throws on the first document: `processTransaction` ends in the logged
failure and starts no task, although the second fund contains the wallet and has an active,
auto-approved investment that is served when the first document is absent. The poller's
`loadFundWallets` and the cleanup's wallet set skip the same document and keep the wallet. -/
theorem fund_without_wallet_list_blocks_matching :
    includesWallet (alphaFund.walletAddresses.getD []) (some leaderWallet) = true ∧
    (∃ m, matchFunds (some leaderWallet) draftStore.funds = .error m) ∧
    (processTransaction defaultConfig liveServices draftStore [] buyTx steadyTasks).outcome
      = .failed "Cannot read properties of undefined (reading 'includes')" ∧
    (processTransaction defaultConfig liveServices draftStore [] buyTx steadyTasks).tasks
      = [] ∧
    (processTransaction defaultConfig liveServices fundStore [] buyTx steadyTasks).tasks.map
      Prod.fst = [follower] ∧
    (Monitor.loadFundWallets liveServices draftStore emptyMonitor).pollSet = [leaderWallet] ∧
    desiredWallets draftStore = [leaderWallet] :=
  ⟨by decide!, ⟨_, rfl⟩, by decide!, by decide!, by decide!, by decide!, by decide!⟩

end PumpFund
